import Mathlib

/-!
# VGV KOL Radar Engine (`src/worker.js`): a verification development

A shallow embedding of the TOP100 decision-pool worker and theorems about it.

Modelling conventions.
* A JavaScript number is a `JsNum`: a finite value (a rational), `+Infinity`,
  `-Infinity` or `NaN`.  Where the source can only hold a finite number the model
  uses `ℚ` directly.  The numeric functions are embedded twice.  `rawScore`,
  `round1`, `mean`, `coeffVar`, `computeMetrics` and `decisionScore` of the namespace
  `Worker` compute in exact arithmetic; they serve the theorems on the pipeline
  (ordering, counters) and on bounds that hold in either arithmetic.  The namespace
  `Ieee` embeds the same functions with every arithmetic result rounded to the
  nearest IEEE 754 double, as the engine computes them; statements on the exact
  values returned by `decisionScore` and `computeMetrics` are made there.
* Identifiers, page tokens and error messages are opaque `String`s (only
  compared and tested for emptiness).  Texts that the source slices, trims or
  matches against character classes are `JsString`s: lists of UTF-16 code units.
* The external world (HTTP responses of the YouTube Data API, the clock,
  `Date.parse`, `String.prototype.toLowerCase`, `Math.sqrt`) is passed in
  explicitly as a `World` value.
* A rejected promise / thrown `Error` is `Except.error msg`.  Response bodies
  are taken as parsed JSON (`r.json()` does not throw).
* The objects `channelsMap` and `stats` are finite maps keyed by the identifiers
  the API returned; such identifiers are assumed not to be names of
  `Object.prototype` properties.  The category key of a request is under the
  caller's control, so for `CATEGORY_SEEDS[cat]` inherited properties are modelled.
* The eight workers of the enrichment stage interleave at their `await`s.  A
  `schedule` (the order in which awaited responses arrive) is an explicit
  argument, and theorems about a run hold for every schedule.
-/

namespace Worker

/-! ## Numbers -/

/-- A JavaScript number: finite (exact rational), an infinity, or NaN. -/
inductive JsNum where
  | fin (q : ℚ)
  | posInf
  | negInf
  | nan
  deriving DecidableEq

namespace JsNum

/-- The JavaScript quotient `x / c` for a finite constant `c > 0`. -/
def divPos (x : JsNum) (c : ℚ) : JsNum :=
  match x with
  | fin q => fin (q / c)
  | posInf => posInf
  | negInf => negInf
  | nan => nan

/-- The JavaScript sum `x + c` for a finite constant `c`. -/
def addFin (x : JsNum) (c : ℚ) : JsNum :=
  match x with
  | fin q => fin (q + c)
  | posInf => posInf
  | negInf => negInf
  | nan => nan

/-- The expression `Number(x || 0)` on a number `x`: `NaN` and `0` are falsy. -/
def orZero (x : JsNum) : JsNum :=
  match x with
  | nan => fin 0
  | y => y

end JsNum

/-- The function `Math.round` on a finite number: the nearest integer, halves going up. -/
def mathRound (x : ℚ) : ℤ := ⌊x + 1 / 2⌋

/-- Source: `function clamp01(x){ return Math.max(0, Math.min(1, Number(x||0))); }` -/
def clamp01 (x : JsNum) : ℚ :=
  match x.orZero with
  | .fin q => max 0 (min 1 q)
  | .posInf => max 0 (min 1 1)
  | .negInf => 0
  | .nan => 0

/-- Source: `function round1(x){ return Math.round(Number(x||0)*10)/10; }`,
on a finite number, in exact arithmetic (`Ieee.round1` rounds as doubles do). -/
def round1 (x : ℚ) : ℚ := (mathRound (x * 10) : ℚ) / 10

/-- Source: `function round0(x){ return Math.round(Number(x||0)); }`,
on a finite number. -/
def round0 (x : ℚ) : ℚ := (mathRound x : ℚ)

/-- The metrics record read by `decisionScore` (the object returned by
`computeMetrics`). -/
structure Metrics where
  avgViews : JsNum
  engagementRate : JsNum
  growthMomentum : JsNum
  stabilityScore : JsNum
  commentsPerKViews : JsNum

/-- The weighted sum `(reach*0.35 + eng*0.30 + grow*0.20 + stab*0.10 + cpk*0.05) * 100`
computed inside `decisionScore`, before rounding, in exact arithmetic. -/
def rawScore (m : Metrics) : ℚ :=
  let reach := clamp01 (m.avgViews.divPos 200000)
  let eng := clamp01 (m.engagementRate.divPos (6 / 100))
  let grow := clamp01 ((m.growthMomentum.addFin (5 / 100)).divPos (25 / 100))
  let stab := clamp01 m.stabilityScore
  let cpk := clamp01 (m.commentsPerKViews.divPos 6)
  (reach * (35 / 100) + eng * (30 / 100) + grow * (20 / 100) + stab * (10 / 100)
    + cpk * (5 / 100)) * 100

/-- Source: `function decisionScore(m)`, in exact arithmetic (`Ieee.decisionScore`
is the same function in double arithmetic). -/
def decisionScore (m : Metrics) : ℚ := round1 (rawScore m)

/-! ### The decision score as the specification words it -/

/-- Normalisation of a finite quantity to the interval `[0,1]`. -/
def specNormalize (x : ℚ) : ℚ := if x < 0 then 0 else if 1 < x then 1 else x

/-- The decision score of the specification, on finite metrics: five terms
normalised to `[0,1]`, weighted 0.35/0.30/0.20/0.10/0.05 and scaled by 100. -/
def specWeightedScore (avgViews engagementRate growthMomentum stabilityScore
    commentsPerKViews : ℚ) : ℚ :=
  100 * ((35 / 100) * specNormalize (avgViews / 200000)
    + (30 / 100) * specNormalize (engagementRate / (6 / 100))
    + (20 / 100) * specNormalize ((growthMomentum + 5 / 100) / (25 / 100))
    + (10 / 100) * specNormalize stabilityScore
    + (5 / 100) * specNormalize (commentsPerKViews / 6))

/-- A rational is a value with one decimal place when ten times it is an integer. -/
def IsOneDecimal (r : ℚ) : Prop := ∃ k : ℤ, r = (k : ℚ) / 10

/-- The value `r` is `x` rounded to one decimal place (ties going up): `r` is a
multiple of one tenth and `x` lies in the half-open window of width one tenth
centred on `r`. -/
def IsRoundedToOneDecimal (x r : ℚ) : Prop :=
  IsOneDecimal r ∧ r - 1 / 20 ≤ x ∧ x < r + 1 / 20

/-! ## Strings -/

/-- A JavaScript string whose content is inspected: its UTF-16 code units. -/
abbrev JsString := List Nat

/-- The UTF-16 code units of a character. -/
def utf16Char (c : Char) : List Nat :=
  if c.toNat < 0x10000 then [c.toNat]
  else [0xD800 + (c.toNat - 0x10000) / 0x400, 0xDC00 + (c.toNat - 0x10000) % 0x400]

/-- The UTF-16 code units of a string literal. -/
def utf16 (s : String) : JsString := (s.data.map utf16Char).flatten

/-- The code units ECMAScript treats as white space or line terminators
(`String.prototype.trim`, `parseInt`). -/
def isJsWhiteSpace (u : Nat) : Bool :=
  u = 0x09 || u = 0x0A || u = 0x0B || u = 0x0C || u = 0x0D || u = 0x20 || u = 0xA0
    || u = 0x1680 || (0x2000 ≤ u && u ≤ 0x200A) || u = 0x2028 || u = 0x2029
    || u = 0x202F || u = 0x205F || u = 0x3000 || u = 0xFEFF

/-- The method `String.prototype.trim`. -/
def jsTrim (s : JsString) : JsString :=
  ((s.dropWhile isJsWhiteSpace).reverse.dropWhile isJsWhiteSpace).reverse

/-- The method `String.prototype.includes`: `k` occurs in `s` as a contiguous run. -/
def includes : JsString → JsString → Bool
  | [], k => k.isEmpty
  | c :: s, k => k.isPrefixOf (c :: s) || includes s k

/-- The expression `x || d` on an optional string: absent and empty are falsy. -/
def orDefault {α : Type} [DecidableEq α] (x : Option (List α)) (d : List α) : List α :=
  match x with
  | some v => if v = [] then d else v
  | none => d

/-- The expression `x || d` on an optional opaque string. -/
def strOr (x : Option String) (d : String) : String :=
  match x with
  | some v => if v = "" then d else v
  | none => d

/-- The regular expression `/[ぁ-んァ-ン]/` on one code unit. -/
def isKana (u : Nat) : Bool :=
  ('ぁ'.toNat ≤ u && u ≤ 'ん'.toNat) || ('ァ'.toNat ≤ u && u ≤ 'ン'.toNat)

/-- The regular expression `/[가-힣]/` on one code unit. -/
def isHangul (u : Nat) : Bool := '가'.toNat ≤ u && u ≤ '힣'.toNat

/-- The regular expression `/[A-Za-z]/` on one code unit. -/
def isLatin (u : Nat) : Bool :=
  ('A'.toNat ≤ u && u ≤ 'Z'.toNat) || ('a'.toNat ≤ u && u ≤ 'z'.toNat)

/-- The regular expression matching one code unit in U+4E00..U+9FFF. -/
def isHan (u : Nat) : Bool := 0x4e00 ≤ u && u ≤ 0x9fff

/-- The regular expression `/[这国里为们]/` on one code unit. -/
def isSimplifiedMark (u : Nat) : Bool := decide (u ∈ utf16 "这国里为们")

/-- The regular expression `/[這國裡為們]/` on one code unit. -/
def isTraditionalMark (u : Nat) : Bool := decide (u ∈ utf16 "這國裡為們")

/-! ## Request parameters -/

/-- The value of `parseInt(x, 10)`. A finite result carries the exact integer
(the source only clamps it); a digit string whose value rounds to `Infinity`
as a double is `infinite`. -/
inductive ParsedInt where
  | nan
  | finite (n : ℤ)
  | infinite
  deriving DecidableEq

/-- The least magnitude that rounds to `Infinity` as an IEEE double. -/
def doubleOverflow : ℕ := 2 ^ 1024 - 2 ^ 970

/-- The value of a run of decimal digits. -/
def digitsValue (ds : List Char) : ℕ :=
  ds.foldl (fun acc c => 10 * acc + (c.toNat - '0'.toNat)) 0

/-- The call `parseInt(x, 10)` on a string: leading white space is skipped, one sign is
read, then the longest run of decimal digits; no digit gives `NaN`. -/
def parseInt10 (x : String) : ParsedInt :=
  let s := x.data.dropWhile (fun c => isJsWhiteSpace c.toNat)
  let neg := s.head? = some '-'
  let body := if s.head? = some '-' ∨ s.head? = some '+' then s.tail else s
  let ds := body.takeWhile Char.isDigit
  if ds = [] then .nan
  else if doubleOverflow ≤ digitsValue ds then .infinite
  else if neg then .finite (-(digitsValue ds : ℤ)) else .finite (digitsValue ds)

/-- Source: `function clampInt(x, lo, hi)`; `Number.isFinite` rejects NaN and the
infinities. -/
def clampInt (x : String) (lo hi : ℤ) : ℤ :=
  match parseInt10 x with
  | .finite n => max lo (min hi n)
  | _ => lo

/-- The parameters handed to `buildTop100` (the API key apart). -/
structure Params where
  region : String
  lang : String
  cat : String
  days : ℤ
  excludeTopic : Bool
  strictLang : Bool
  strictCat : Bool
  deriving DecidableEq

/-- The query-string parsing of the `/top100` route; `qp name` is
`url.searchParams.get(name)` (`none` for `null`), `toUpperCase` is
`String.prototype.toUpperCase`. -/
def parseParams (toUpperCase : String → String) (qp : String → Option String) : Params :=
  { region := toUpperCase (strOr (qp "region") "TW")
    lang := strOr (qp "lang") "zh-Hant"
    cat := strOr (qp "cat") "3c"
    days := clampInt (strOr (qp "days") "30") 7 365
    excludeTopic := decide (qp "excludeTopic" = some "1")
    strictLang := decide (qp "strictLang" ≠ some "0")
    strictCat := decide (qp "strictCat" ≠ some "0") }

/-- The `cache` flag of the `/top100` route. -/
def parseUseCache (qp : String → Option String) : Bool := decide (qp "cache" ≠ some "0")

/-! ## Data model -/

/-- A channel as returned by `normalizeChannel`. -/
structure Channel where
  id : String
  title : JsString
  description : JsString
  customUrl : JsString
  thumbnail : String
  country : String
  uploadsPlaylistId : String
  subscriberCount : ℚ
  viewCount : ℚ
  videoCount : ℚ
  keywords : JsString
  deriving DecidableEq

/-- An upload as returned by `ytPlaylistItems`. -/
structure Video where
  videoId : String
  title : JsString
  description : JsString
  publishedAt : String
  deriving DecidableEq

/-- The statistics entry that `getVideoStats` stores per video identifier (the
two declared-language strings, which nothing reads, are left out). -/
structure VideoStats where
  viewCount : ℚ
  likeCount : ℚ
  commentCount : ℚ
  deriving DecidableEq

/-- An upload joined with its statistics (`{...v, ...stats[v.videoId]}`). -/
structure EnrichedVideo where
  video : Video
  viewCount : ℚ
  likeCount : ℚ
  commentCount : ℚ
  deriving DecidableEq

/-- One element of the `scored` array, and of the output `items`. -/
structure ScoredChannel where
  channelId : String
  title : JsString
  customUrl : JsString
  thumbnail : String
  subscriberCount : ℚ
  avgViews : JsNum
  engagementRate : JsNum
  growthMomentum : JsNum
  stabilityScore : JsNum
  commentsPerKViews : JsNum
  categoryMatch : ℚ
  score : ℚ
  deriving DecidableEq

/-- Source: `const debugCounters = { checked, droppedByCat, droppedByLang, noVideos }`. -/
structure DebugCounters where
  checked : Nat
  droppedByCat : Nat
  droppedByLang : Nat
  noVideos : Nat
  deriving DecidableEq

/-- The `meta` object of the result of `buildTop100`. -/
structure Meta where
  params : Params
  candidateChannels : Nat
  afterChannelFilter : Nat
  roughScored : Nat
  scoredCount : Nat
  debugCounters : DebugCounters
  deriving DecidableEq

/-- The object returned by `buildTop100`. -/
structure Output where
  generatedAt : String
  meta : Meta
  items : List ScoredChannel
  deriving DecidableEq

/-! ## The outside world -/

/-- The body of a `search.list` response, as far as `ytSearchChannels` reads it:
`r.ok`, `j.error.message`, `j.nextPageToken` and `it.id.channelId` per item. -/
structure SearchRaw where
  ok : Bool
  errorMessage : Option String
  nextPageToken : Option String
  items : List (Option String)

/-- One item of a `channels.list` response, as far as `normalizeChannel` reads
it. A count is `none` when `Number(x)` is not finite (absent, not numeric). -/
structure ChannelRaw where
  id : String
  title : Option JsString
  description : Option JsString
  customUrl : Option JsString
  thumbnailDefault : Option String
  thumbnailMedium : Option String
  country : Option String
  uploads : Option String
  subscriberCount : Option ℚ
  viewCount : Option ℚ
  videoCount : Option ℚ
  keywords : Option JsString

/-- The body of a `channels.list` response. -/
structure ChannelsRaw where
  ok : Bool
  errorMessage : Option String
  items : List ChannelRaw

/-- One item of a `playlistItems.list` response. -/
structure PlaylistItemRaw where
  videoId : Option String
  title : Option JsString
  description : Option JsString
  videoPublishedAt : Option String
  snippetPublishedAt : Option String

/-- The body of a `playlistItems.list` response. -/
structure PlaylistRaw where
  ok : Bool
  errorMessage : Option String
  items : List PlaylistItemRaw

/-- One item of a `videos.list` response. -/
structure VideoRaw where
  id : String
  viewCount : Option ℚ
  likeCount : Option ℚ
  commentCount : Option ℚ

/-- The body of a `videos.list` response. -/
structure VideosRaw where
  ok : Bool
  errorMessage : Option String
  items : List VideoRaw

/-- Everything the worker obtains from outside during one run.
`search n q pageToken` is the response to the `n`-th `search.list` request of
the run (so any sequence of responses can be described); the other three
endpoints answer by their arguments. Region, language and API key are fixed
during a run and are part of the world. -/
structure World where
  search : Nat → String → String → SearchRaw
  channelsList : List String → ChannelsRaw
  playlistItems : String → PlaylistRaw
  videosList : List String → VideosRaw
  /-- The value of `Date.now()` at the start of the enrichment stage, in milliseconds. -/
  now : ℤ
  /-- The value of `new Date().toISOString()` when the result is assembled. -/
  generatedAt : String
  /-- The function `Date.parse`; `none` for `NaN`. -/
  dateParse : String → Option ℤ
  toLowerCase : JsString → JsString
  toUpperCase : String → String
  /-- The function `Math.sqrt` on a finite non-negative number. -/
  sqrt : ℚ → ℚ

/-! ## Category table -/

/-- One entry of `CATEGORY_SEEDS`. -/
structure CategorySeed where
  minMatchRatio : ℚ
  queries : List String
  keywords : List JsString

/-- Equality of results (`Except`) is decidable. -/
instance exceptDecEq {ε α : Type} [DecidableEq ε] [DecidableEq α] :
    DecidableEq (Except ε α)
  | .ok a, .ok b =>
    if h : a = b then isTrue (by rw [h]) else isFalse (fun h1 => h (by injection h1))
  | .error a, .error b =>
    if h : a = b then isTrue (by rw [h]) else isFalse (fun h1 => h (by injection h1))
  | .ok _, .error _ => isFalse (fun h => by injection h)
  | .error _, .ok _ => isFalse (fun h => by injection h)

/-- The `"3c"` entry of `CATEGORY_SEEDS` (minMatchRatio 0.22). -/
def seed3c : CategorySeed where
  minMatchRatio := 22 / 100
  queries :=
    ["iphone 開箱", "android 開箱", "手機 評測", "筆電 評測", "相機 開箱", "耳機 評測", "pc 組裝", "科技 新聞",
     "3c 開箱"]
  keywords := List.map utf16
    ["iphone", "android", "手機", "开箱", "開箱", "評測", "评测", "benchmark", "pc", "電腦", "电脑", "筆電",
     "笔电", "相機", "相机", "耳機", "耳机", "gpu", "cpu", "顯卡", "显卡", "macbook", "ios", "windows",
     "review", "unbox"]

/-- The `"lifestyle"` entry of `CATEGORY_SEEDS` (minMatchRatio 0.25). -/
def seedLifestyle : CategorySeed where
  minMatchRatio := 25 / 100
  queries :=
    ["vlog 日常", "生活 vlog", "穿搭 lookbook", "room tour", "morning routine", "生活風格", "質感 生活",
     "生活分享"]
  keywords := List.map utf16
    ["vlog", "日常", "生活", "穿搭", "lookbook", "room tour", "morning routine", "routine", "收納",
     "收拾", "整理", "居家", "家居", "质感", "hauls", "haul", "outfit"]

/-- The `"food"` entry of `CATEGORY_SEEDS` (minMatchRatio 0.26). -/
def seedFood : CategorySeed where
  minMatchRatio := 26 / 100
  queries :=
    ["美食 探店", "料理 食譜", "家常菜", "烘焙 食譜", "餐廳 推薦", "吃播", "food vlog", "recipe"]
  keywords := List.map utf16
    ["美食", "料理", "食譜", "食谱", "烘焙", "烤箱", "煮", "做菜", "吃", "探店", "餐廳", "餐厅", "食堂", "recipe",
     "cook", "cooking", "food", "吃播", "試吃", "开箱吃"]

/-- The `"parenting"` entry of `CATEGORY_SEEDS` (minMatchRatio 0.22). -/
def seedParenting : CategorySeed where
  minMatchRatio := 22 / 100
  queries :=
    ["育兒 分享", "親子 vlog", "寶寶 日常", "孕期 日記", "媽媽 分享", "baby vlog", "mom vlog", "親子 教育"]
  keywords := List.map utf16
    ["育兒", "育儿", "親子", "亲子", "寶寶", "宝宝", "孕", "懷孕", "怀孕", "媽媽", "妈妈", "baby", "mom",
     "family", "幼兒", "幼儿", "小孩", "孩子", "奶粉", "尿布", "托嬰", "托婴"]

/-- The `"finance"` entry of `CATEGORY_SEEDS` (minMatchRatio 0.20). -/
def seedFinance : CategorySeed where
  minMatchRatio := 20 / 100
  queries :=
    ["股票 分析", "ETF 解析", "理財 教學", "投資 心法", "crypto 教學", "比特幣 分析", "房地產 分析"]
  keywords := List.map utf16
    ["投資", "投资", "理財", "理财", "股票", "etf", "基金", "股市", "財經", "财经", "比特幣", "比特币", "bitcoin",
     "crypto", "加密", "期貨", "期货", "美股", "台股", "港股", "房地產", "房地产"]

/-- The `"travel"` entry of `CATEGORY_SEEDS` (minMatchRatio 0.22). -/
def seedTravel : CategorySeed where
  minMatchRatio := 22 / 100
  queries :=
    ["旅遊 vlog", "旅行 攻略", "飯店 開箱", "日本 旅遊", "香港 旅遊", "出國 旅行", "travel vlog", "trip"]
  keywords := List.map utf16
    ["旅遊", "旅游", "旅行", "攻略", "行程", "景點", "景点", "飯店", "酒店", "hotel", "airbnb", "travel",
     "trip", "機票", "机票", "出國", "出国", "登機", "登机", "日本", "韓國", "韩国"]

/-- The `"fitness"` entry of `CATEGORY_SEEDS` (minMatchRatio 0.22). -/
def seedFitness : CategorySeed where
  minMatchRatio := 22 / 100
  queries :=
    ["健身 訓練", "減脂 訓練", "增肌 訓練", "workout", "gym 訓練", "居家 運動", "瑜珈 教學"]
  keywords := List.map utf16
    ["健身", "workout", "gym", "训练", "訓練", "減脂", "减脂", "增肌", "肌肉", "蛋白", "热量", "卡路里", "瑜珈",
     "瑜伽", "跑步", "重訓", "重量訓練", "力量", "bodybuilding", "hiit"]

/-- Source: `const CATEGORY_SEEDS`, the own properties of the object literal in
source order. -/
def CATEGORY_SEEDS : List (String × CategorySeed) :=
  [("3c", seed3c), ("lifestyle", seedLifestyle), ("food", seedFood),
   ("parenting", seedParenting), ("finance", seedFinance), ("travel", seedTravel),
   ("fitness", seedFitness)]

/-- The property names every plain object inherits from `Object.prototype`.
`CATEGORY_SEEDS` is an object literal, so `CATEGORY_SEEDS[cat]` for one of these
names is an inherited value (a function, or the prototype itself): truthy, with
no `queries`, `keywords` or `minMatchRatio`. -/
def objectPrototypeKeys : List String :=
  ["constructor", "__defineGetter__", "__defineSetter__", "hasOwnProperty",
   "__lookupGetter__", "__lookupSetter__", "isPrototypeOf", "propertyIsEnumerable",
   "toString", "valueOf", "__proto__", "toLocaleString"]

/-- The value of the expression `CATEGORY_SEEDS[cat]`. -/
inductive SeedLookup where
  | own (s : CategorySeed)
  | inherited
  | undefined

/-- The expression `CATEGORY_SEEDS[cat]`. -/
def seedsAt (cat : String) : SeedLookup :=
  match CATEGORY_SEEDS.lookup cat with
  | some s => .own s
  | none => if cat ∈ objectPrototypeKeys then .inherited else .undefined

/-- The expression `CATEGORY_SEEDS[cat] || CATEGORY_SEEDS["3c"]`; `none` stands
for an inherited value, which is truthy but is not a seed entry. -/
def seedsOr3c (cat : String) : Option CategorySeed :=
  match seedsAt cat with
  | .own s => some s
  | .inherited => none
  | .undefined => some seed3c

/-- The expression `CATEGORY_SEEDS[cat]?.minMatchRatio ?? 0.25` of the strict
category check. -/
def categoryThreshold (cat : String) : ℚ :=
  match seedsAt cat with
  | .own s => s.minMatchRatio
  | .inherited => 25 / 100
  | .undefined => 25 / 100

/-! ## Category and language heuristics -/

/-- The text `(v.title||"") + " " + (v.description||"")` of a video. -/
def videoText (v : Video) : JsString := v.title ++ utf16 " " ++ v.description

/-- Source: `function categoryMatchRatio(videos, cat)`. When `CATEGORY_SEEDS[cat]`
is an inherited value, `seeds.keywords` is `undefined` and `kws.some` throws at
the first video. -/
def categoryMatchRatio (w : World) (videos : List Video) (cat : String) : Except String ℚ :=
  match seedsOr3c cat with
  | some seeds =>
    let hit := (videos.filter fun v =>
      seeds.keywords.any fun k => includes (w.toLowerCase (videoText v)) k).length
    .ok ((hit : ℚ) / (max 1 videos.length : ℕ))
  | none =>
    if videos.length = 0 then .ok 0
    else .error "Cannot read properties of undefined (reading 'some')"

/-- Source: `function langHeuristicOk(text, lang)`. -/
def langHeuristicOk (text : JsString) (lang : String) : Bool :=
  if jsTrim text = [] then false
  else if lang = "ja" then text.any isKana
  else if lang = "ko" then text.any isHangul
  else if lang = "en" then text.any isLatin && !(text.any fun u => isKana u || isHangul u)
  else if lang = "zh-Hans" then text.any isSimplifiedMark || text.any isHan
  else text.any isTraditionalMark || text.any isHan

/-- Source: `function languageMatchRatio(videos, lang)`. -/
def languageMatchRatio (videos : List Video) (lang : String) : ℚ :=
  let ok := (videos.filter fun v => langHeuristicOk ((videoText v).take 400) lang).length
  (ok : ℚ) / (max 1 videos.length : ℕ)

/-- Source: `function isObviouslyOtherLanguage(ch, lang)`. -/
def isObviouslyOtherLanguage (ch : Channel) (lang : String) : Bool :=
  let t := (ch.title ++ utf16 " " ++ ch.description).take 500
  if jsTrim t = [] then false
  else if lang = "en" then t.any fun u => isKana u || isHangul u
  else if lang = "ja" then t.any isHangul
  else if lang = "ko" then t.any isKana
  else if "zh".isPrefixOf lang then
    let han := (t.filter isHan).length
    let lat := (t.filter isLatin).length
    decide (han < 4) && decide (lat > 40)
  else false

/-- The denylist `bad` of `looksLikeNoiseChannel`. -/
def noiseTokens : List JsString :=
  List.map utf16
    [" - topic", "topic", "vevo", "records", "official", "label", "provided to youtube"]

/-- Source: `function looksLikeNoiseChannel(ch)`. -/
def looksLikeNoiseChannel (w : World) (ch : Channel) : Bool :=
  let name := w.toLowerCase ch.title
  let desc := w.toLowerCase ch.description
  let cu := w.toLowerCase ch.customUrl
  if noiseTokens.any fun k => includes name k || includes desc k || includes cu k then true
  else if ch.videoCount < 6 ∧ ch.subscriberCount > 200000 ∧ ch.customUrl = [] then true
  else false

/-! ## Metrics -/

/-- Source: `function mean(arr)`, in exact arithmetic (`Ieee.mean` rounds as doubles do). -/
def mean (arr : List ℚ) : ℚ :=
  if arr.length = 0 then 0 else arr.sum / (arr.length : ℚ)

/-- Source: `function coeffVar(arr)`, in exact arithmetic (`Ieee.coeffVar` rounds as
doubles do). -/
def coeffVar (w : World) (arr : List ℚ) : ℚ :=
  if arr.length < 2 then 0
  else
    let m := mean arr
    if m ≤ 0 then 0
    else
      let v := (arr.map fun x => (x - m) * (x - m)).sum / ((arr.length : ℚ) - 1)
      w.sqrt v / m

/-- Source: `function computeMetrics(videos, days)`, in exact arithmetic
(`Ieee.computeMetrics` rounds as doubles do). -/
def computeMetrics (w : World) (videos : List EnrichedVideo) (_days : ℤ) : Metrics :=
  let views := videos.map (·.viewCount)
  let likes := videos.map (·.likeCount)
  let comms := videos.map (·.commentCount)
  let avgViews := mean views
  let avgLikes := mean likes
  let avgComms := mean comms
  let engagementRate := if avgViews > 0 then (avgLikes + avgComms) / avgViews else 0
  let commentsPerKViews := if avgViews > 0 then avgComms / avgViews * 1000 else 0
  let mid := videos.length / 2
  let cut := if mid = 0 then 1 else mid
  let recentViews := mean (views.take cut)
  let olderViews := mean (views.drop cut)
  let growthMomentum := if olderViews > 0 then (recentViews - olderViews) / olderViews else 0
  let cv := coeffVar w views
  let stabilityScore := clamp01 (.fin (1 - cv / (12 / 10)))
  { avgViews := .fin (round0 avgViews)
    engagementRate := .fin engagementRate
    growthMomentum := .fin growthMomentum
    stabilityScore := .fin stabilityScore
    commentsPerKViews := .fin (round1 commentsPerKViews) }

/-! ## YouTube API wrappers -/

/-- The value returned by `ytSearchChannels`. -/
structure SearchPage where
  nextPageToken : String
  items : List String

/-- Source: `async function ytSearchChannels`, answering the `n`-th search request. -/
def ytSearchChannels (w : World) (n : Nat) (q pageToken : String) : Except String SearchPage :=
  let r := w.search n q pageToken
  if r.ok then
    .ok { nextPageToken := strOr r.nextPageToken ""
          items := r.items.map fun it => strOr it "" }
  else .error (strOr r.errorMessage "search.list failed")

/-- Source: `function chunk(arr, size)`, with `fuel` bounding the number of chunks. -/
def chunkAux {α : Type} (size : Nat) : Nat → List α → List (List α)
  | 0, _ => []
  | _ + 1, [] => []
  | fuel + 1, x :: xs => (x :: xs).take size :: chunkAux size fuel ((x :: xs).drop size)

/-- Source: `function chunk(arr, size)`. -/
def chunk {α : Type} (arr : List α) (size : Nat) : List (List α) :=
  chunkAux size arr.length arr

/-- Source: `function normalizeChannel(it)`. -/
def normalizeChannel (it : ChannelRaw) : Channel :=
  { id := it.id
    title := orDefault it.title []
    description := orDefault it.description []
    customUrl :=
      match it.customUrl with
      | some cu =>
        if cu = [] then [] else if (utf16 "@").isPrefixOf cu then cu else utf16 "@" ++ cu
      | none => []
    thumbnail := strOr it.thumbnailDefault (strOr it.thumbnailMedium "")
    country := strOr it.country ""
    uploadsPlaylistId := strOr it.uploads ""
    subscriberCount := it.subscriberCount.getD 0
    viewCount := it.viewCount.getD 0
    videoCount := it.videoCount.getD 0
    keywords := orDefault it.keywords [] }

/-- The loop of `getChannels` over the chunks; `map` is the object being filled,
newest assignment first. -/
def getChannelsLoop (w : World) :
    List (List String) → List (String × Channel) → Except String (List (String × Channel))
  | [], map => .ok map
  | c :: cs, map =>
    let r := w.channelsList c
    if r.ok then
      getChannelsLoop w cs (r.items.foldl (fun m it => (it.id, normalizeChannel it) :: m) map)
    else .error (strOr r.errorMessage "channels.list failed")

/-- Source: `async function getChannels`. The result is read with `List.lookup`,
which finds the newest assignment to a key. -/
def getChannels (w : World) (ids : List String) : Except String (List (String × Channel)) :=
  getChannelsLoop w (chunk ids 50) []

/-- Source: `async function ytPlaylistItems`. -/
def ytPlaylistItems (w : World) (playlistId : String) : Except String (List Video) :=
  let r := w.playlistItems playlistId
  if r.ok then
    .ok (r.items.map fun it =>
      { videoId := strOr it.videoId ""
        title := orDefault it.title []
        description := orDefault it.description []
        publishedAt := strOr it.videoPublishedAt (strOr it.snippetPublishedAt "") })
  else .error (strOr r.errorMessage "playlistItems.list failed")

/-- The loop of `getVideoStats` over the chunks. -/
def getVideoStatsLoop (w : World) :
    List (List String) → List (String × VideoStats) →
      Except String (List (String × VideoStats))
  | [], map => .ok map
  | c :: cs, map =>
    let r := w.videosList c
    if r.ok then
      getVideoStatsLoop w cs (r.items.foldl (fun m it =>
        (it.id, { viewCount := it.viewCount.getD 0
                  likeCount := it.likeCount.getD 0
                  commentCount := it.commentCount.getD 0 }) :: m) map)
    else .error (strOr r.errorMessage "videos.list failed")

/-- Source: `async function getVideoStats`. -/
def getVideoStats (w : World) (ids : List String) :
    Except String (List (String × VideoStats)) :=
  getVideoStatsLoop w (chunk (ids.filter fun id => id ≠ "") 50) []

/-! ## Candidate pool -/

/-- Source: `const pagesPerQuery = 2`. -/
def pagesPerQuery : Nat := 2

/-- Source: `const maxCandidates = 380`. -/
def maxCandidates : Nat := 380

/-- The method `Set.prototype.add` on an insertion-ordered set of identifiers. -/
def setAdd (s : List String) (x : String) : List String :=
  if x ∈ s then s else s ++ [x]

/-- The statement `items.forEach(it => { if (it.channelId) candidateIds.add(it.channelId); })`. -/
def addPage (s : List String) (items : List String) : List String :=
  items.foldl (fun acc id => if id ≠ "" then setAdd acc id else acc) s

/-- The state of the discovery loops: the set `candidateIds` and the number of
`search.list` requests issued so far. -/
structure PoolState where
  ids : List String
  calls : Nat
  deriving DecidableEq

/-- The inner loop `for (let p = 0; p < pagesPerQuery; p++)` of `buildTop100`, with
`pagesLeft` iterations to go. -/
def searchPages (w : World) (q : String) :
    Nat → String → PoolState → Except String PoolState
  | 0, _, st => .ok st
  | pagesLeft + 1, pageToken, st =>
    match ytSearchChannels w st.calls q pageToken with
    | .error e => .error e
    | .ok s =>
      let st1 : PoolState := { ids := addPage st.ids s.items, calls := st.calls + 1 }
      if s.nextPageToken = "" then .ok st1
      else if st1.ids.length ≥ maxCandidates then .ok st1
      else searchPages w q pagesLeft s.nextPageToken st1

/-- The outer loop `for (const q of queries)` of `buildTop100`. -/
def searchQueries (w : World) : List String → PoolState → Except String PoolState
  | [], st => .ok st
  | q :: qs, st =>
    match searchPages w q pagesPerQuery "" st with
    | .error e => .error e
    | .ok st1 =>
      if st1.ids.length ≥ maxCandidates then .ok st1 else searchQueries w qs st1

/-- Step 1 of `buildTop100`: the seed queries of the category, then the
discovery loops. A category key that resolves to an inherited value makes
`seeds.queries.slice` throw. -/
def buildPool (w : World) (cat : String) : Except String PoolState :=
  match seedsOr3c cat with
  | none => .error "Cannot read properties of undefined (reading 'slice')"
  | some seeds => searchQueries w (seeds.queries.take 6) { ids := [], calls := 0 }

/-! ## Channel filter and rough ranking -/

/-- Step 3 of `buildTop100`: the loop `for (const id of candidates)`. -/
def filterChannels (w : World) (p : Params) (channelsMap : List (String × Channel))
    (candidates : List String) : List Channel :=
  candidates.filterMap fun id =>
    match channelsMap.lookup id with
    | none => none
    | some ch =>
      if p.excludeTopic && looksLikeNoiseChannel w ch then none
      else if p.strictLang && isObviouslyOtherLanguage ch p.lang then none
      else some ch

/-- The rough ranking `filteredChannels.sort((a,b) => (b.subscriberCount||0) -
(a.subscriberCount||0)).slice(0, 220)`; `Array.prototype.sort` is stable. -/
def roughRank (filteredChannels : List Channel) : List Channel :=
  (filteredChannels.insertionSort fun a b => b.subscriberCount ≤ a.subscriberCount).take 220

/-! ## Enrichment: the worker pool -/

/-- Source: `const CONCURRENCY = 8`. -/
def CONCURRENCY : Nat := 8

/-- Where one worker (one of the eight async functions) stands: suspended at
`await ytPlaylistItems(...)`, suspended at `await getVideoStats(...)`, or
returned. -/
inductive WorkerState where
  | awaitingPlaylist (ch : Channel)
  | awaitingStats (ch : Channel) (pick : List Video) (catMatch : ℚ)
  | finished
  deriving DecidableEq

/-- The shared state of the enrichment stage. `rejected` holds the message of
the first error thrown by a worker: `Promise.all` rejects with it. -/
structure EnrichState where
  queue : List Channel
  scored : List ScoredChannel
  counters : DebugCounters
  workers : List WorkerState
  rejected : Option String

/-- A worker at the head of `while (queue.length)`: it shifts channels, counting
each as checked, until one has an uploads playlist (the worker then suspends on
`ytPlaylistItems`) or the queue is empty (the worker returns). -/
def workerLoop : List Channel → DebugCounters → WorkerState × List Channel × DebugCounters
  | [], c => (.finished, [], c)
  | ch :: rest, c =>
    let c1 := { c with checked := c.checked + 1 }
    if ch.uploadsPlaylistId = "" then workerLoop rest c1
    else (.awaitingPlaylist ch, rest, c1)

/-- What a worker decides between the uploads response and the statistics
request (steps 4-1 to 4-4). -/
inductive AfterPlaylist where
  | noVideos
  | droppedByLang
  | droppedByCat
  | fetchStats (pick : List Video) (catMatch : ℚ)
  deriving DecidableEq

/-- The selection of step 4-2: the uploads published within the window, or all
of them when none is. -/
def pickVideos (w : World) (p : Params) (videos : List Video) : List Video :=
  let sinceTs := w.now - p.days * 24 * 3600 * 1000
  let within := videos.filter fun v =>
    match w.dateParse v.publishedAt with
    | some t => decide (sinceTs ≤ t)
    | none => false
  if within.length = 0 then videos else within

/-- Steps 4-1 to 4-4 of the worker loop on the uploads returned by
`ytPlaylistItems`. -/
def afterPlaylist (w : World) (p : Params) (items : List Video) : Except String AfterPlaylist :=
  let videos := items.filter fun v => v.videoId ≠ "" ∧ v.publishedAt ≠ ""
  if videos.length = 0 then .ok .noVideos
  else
    let pick := pickVideos w p videos
    if p.strictLang ∧ languageMatchRatio pick p.lang < 55 / 100 then .ok .droppedByLang
    else
      match categoryMatchRatio w pick p.cat with
      | .error e => .error e
      | .ok catMatch =>
        if p.strictCat ∧ catMatch < categoryThreshold p.cat then .ok .droppedByCat
        else .ok (.fetchStats pick catMatch)

/-- The join of step 4-5: `pick.map(v => ({...v, ...(stats[v.videoId] || {})}))
.filter(v => v.viewCount != null)`. -/
def enrich (stats : List (String × VideoStats)) (pick : List Video) : List EnrichedVideo :=
  pick.filterMap fun v =>
    (stats.lookup v.videoId).map fun s =>
      { video := v, viewCount := s.viewCount, likeCount := s.likeCount
        commentCount := s.commentCount }

/-- Steps 4-5 and 5 of the worker loop on the statistics returned by
`getVideoStats`: `none` when fewer than six videos have statistics. -/
def afterStats (w : World) (p : Params) (ch : Channel) (pick : List Video) (catMatch : ℚ)
    (stats : List (String × VideoStats)) : Option ScoredChannel :=
  let enriched := enrich stats pick
  if enriched.length < 6 then none
  else
    let metrics := computeMetrics w enriched p.days
    some
      { channelId := ch.id
        title := ch.title
        customUrl := ch.customUrl
        thumbnail := ch.thumbnail
        subscriberCount := ch.subscriberCount
        avgViews := metrics.avgViews
        engagementRate := metrics.engagementRate
        growthMomentum := metrics.growthMomentum
        stabilityScore := metrics.stabilityScore
        commentsPerKViews := metrics.commentsPerKViews
        categoryMatch := catMatch
        score := decisionScore metrics }

/-- Worker `i` goes back to the head of its loop (`continue`, or the end of the
loop body) with counters `c`. -/
def continueLoop (st : EnrichState) (i : Nat) (c : DebugCounters) : EnrichState :=
  let r := workerLoop st.queue c
  { st with queue := r.2.1, counters := r.2.2, workers := st.workers.set i r.1 }

/-- Worker `i` throws: the promise of `Promise.all` rejects with the first error. -/
def reject (st : EnrichState) (e : String) : EnrichState :=
  { st with rejected := some e }

/-- One scheduling step: the awaited response of worker `i` arrives and the
worker runs until its next `await` or its return. Nothing happens when the run
has already been rejected or worker `i` has returned. -/
def resume (w : World) (p : Params) (st : EnrichState) (i : Nat) : EnrichState :=
  if st.rejected.isSome then st
  else
    match st.workers.get? i with
    | some (.awaitingPlaylist ch) =>
      match ytPlaylistItems w ch.uploadsPlaylistId with
      | .error e => reject st e
      | .ok items =>
        match afterPlaylist w p items with
        | .error e => reject st e
        | .ok .noVideos =>
          continueLoop st i { st.counters with noVideos := st.counters.noVideos + 1 }
        | .ok .droppedByLang =>
          continueLoop st i { st.counters with droppedByLang := st.counters.droppedByLang + 1 }
        | .ok .droppedByCat =>
          continueLoop st i { st.counters with droppedByCat := st.counters.droppedByCat + 1 }
        | .ok (.fetchStats pick catMatch) =>
          { st with workers := st.workers.set i (.awaitingStats ch pick catMatch) }
    | some (.awaitingStats ch pick catMatch) =>
      match getVideoStats w (pick.map (·.videoId)) with
      | .error e => reject st e
      | .ok stats =>
        match afterStats w p ch pick catMatch stats with
        | none =>
          continueLoop st i { st.counters with noVideos := st.counters.noVideos + 1 }
        | some sc => continueLoop { st with scored := st.scored ++ [sc] } i st.counters
    | _ => st

/-- The creation of one worker by `Array.from`: the async function runs at once up
to its first `await`. -/
def startWorker (st : EnrichState) : EnrichState :=
  let r := workerLoop st.queue st.counters
  { st with queue := r.2.1, counters := r.2.2, workers := st.workers ++ [r.1] }

/-- The state after `Array.from({ length: CONCURRENCY }, ...)`: the eight workers
have been started one after the other on `queue = rough.slice()`. -/
def startPool (rough : List Channel) : EnrichState :=
  startWorker^[CONCURRENCY]
    { queue := rough, scored := [], counters := ⟨0, 0, 0, 0⟩, workers := [], rejected := none }

/-- The index of the first worker that has not returned. -/
def firstPending (workers : List WorkerState) : Option Nat :=
  workers.findIdx? fun s => decide (s ≠ .finished)

/-- The remaining responses arrive in worker order: at most `fuel` steps, each
resuming the first worker that has not returned. -/
def drain (w : World) (p : Params) : Nat → EnrichState → EnrichState
  | 0, st => st
  | fuel + 1, st =>
    match firstPending st.workers with
    | none => st
    | some i => drain w p fuel (resume w p st i)

/-- The execution `await Promise.all(workers)`. The order in which responses
arrive is not fixed by the program: `schedule` lists the workers in the order in
which their awaited responses arrive, and whatever is still pending after it
arrives in worker order. The fuel covers every run: a step of a suspended worker
either moves it from its first to its second `await` or takes it back to the
queue. -/
def runWorkers (w : World) (p : Params) (schedule : List Nat) (rough : List Channel) :
    EnrichState :=
  drain w p (2 * rough.length + 2 * CONCURRENCY) (schedule.foldl (resume w p) (startPool rough))

/-- Source: `async function buildTop100`. -/
def buildTop100 (w : World) (p : Params) (schedule : List Nat) : Except String Output :=
  match buildPool w p.cat with
  | .error e => .error e
  | .ok pool =>
    let candidates := pool.ids
    match getChannels w candidates with
    | .error e => .error e
    | .ok channelsMap =>
      let filteredChannels := filterChannels w p channelsMap candidates
      let rough := roughRank filteredChannels
      let st := runWorkers w p schedule rough
      match st.rejected with
      | some e => .error e
      | none =>
        let scored := st.scored.insertionSort fun a b => b.score ≤ a.score
        .ok
          { generatedAt := w.generatedAt
            meta :=
              { params := p
                candidateChannels := candidates.length
                afterChannelFilter := filteredChannels.length
                roughScored := rough.length
                scoredCount := scored.length
                debugCounters := st.counters }
            items := scored.take 100 }

/-- The `/top100` route of `fetch` on a cache miss: parameter parsing, the API-key
check, then `buildTop100`. -/
def handleTop100 (w : World) (apiKeyConfigured : Bool) (qp : String → Option String)
    (schedule : List Nat) : Except String Output :=
  if apiKeyConfigured then buildTop100 w (parseParams w.toUpperCase qp) schedule
  else .error "YT_API_KEY not configured in Worker environment."

/-! ## The steps of the worker pool, case by case -/

/-- The number of responses a worker still waits for on its current channel. -/
def WorkerState.weight : WorkerState → Nat
  | .awaitingPlaylist _ => 2
  | .awaitingStats _ _ _ => 1
  | .finished => 0

/-- The number of channels a worker holds: one unless it has returned. -/
def WorkerState.busy : WorkerState → Nat
  | .finished => 0
  | _ => 1

/-- The number of responses the enrichment stage can still wait for. -/
def EnrichState.measure (st : EnrichState) : Nat :=
  2 * st.queue.length + (st.workers.map WorkerState.weight).sum

/-- The channels accounted for: scored, held by a worker, or still queued. -/
def EnrichState.load (st : EnrichState) : Nat :=
  st.scored.length + st.queue.length + (st.workers.map WorkerState.busy).sum

/-- The counters with one more channel without usable videos. -/
def DebugCounters.addNoVideos (c : DebugCounters) : DebugCounters :=
  { c with noVideos := c.noVideos + 1 }

/-- The counters with one more channel dropped by language. -/
def DebugCounters.addDroppedByLang (c : DebugCounters) : DebugCounters :=
  { c with droppedByLang := c.droppedByLang + 1 }

/-- The counters with one more channel dropped by category. -/
def DebugCounters.addDroppedByCat (c : DebugCounters) : DebugCounters :=
  { c with droppedByCat := c.droppedByCat + 1 }

/-- The cases of one scheduling step `resume w p st i`, each with the responses
that lead to it. -/
inductive Transition (w : World) (p : Params) (st : EnrichState) (i : Nat) :
    EnrichState → Prop where
  | idle : (st.rejected.isSome ∨ st.workers.get? i = none ∨
      st.workers.get? i = some .finished) → Transition w p st i st
  | playlistError (ch : Channel) (e : String) :
      st.rejected = none → st.workers.get? i = some (.awaitingPlaylist ch) →
      ytPlaylistItems w ch.uploadsPlaylistId = .error e →
      Transition w p st i (reject st e)
  | categoryError (ch : Channel) (items : List Video) (e : String) :
      st.rejected = none → st.workers.get? i = some (.awaitingPlaylist ch) →
      ytPlaylistItems w ch.uploadsPlaylistId = .ok items →
      afterPlaylist w p items = .error e →
      Transition w p st i (reject st e)
  | noVideos (ch : Channel) (items : List Video) :
      st.rejected = none → st.workers.get? i = some (.awaitingPlaylist ch) →
      ytPlaylistItems w ch.uploadsPlaylistId = .ok items →
      afterPlaylist w p items = .ok .noVideos →
      Transition w p st i (continueLoop st i st.counters.addNoVideos)
  | droppedByLang (ch : Channel) (items : List Video) :
      st.rejected = none → st.workers.get? i = some (.awaitingPlaylist ch) →
      ytPlaylistItems w ch.uploadsPlaylistId = .ok items →
      afterPlaylist w p items = .ok .droppedByLang →
      Transition w p st i (continueLoop st i st.counters.addDroppedByLang)
  | droppedByCat (ch : Channel) (items : List Video) :
      st.rejected = none → st.workers.get? i = some (.awaitingPlaylist ch) →
      ytPlaylistItems w ch.uploadsPlaylistId = .ok items →
      afterPlaylist w p items = .ok .droppedByCat →
      Transition w p st i (continueLoop st i st.counters.addDroppedByCat)
  | fetchStats (ch : Channel) (items pick : List Video) (catMatch : ℚ) :
      st.rejected = none → st.workers.get? i = some (.awaitingPlaylist ch) →
      ytPlaylistItems w ch.uploadsPlaylistId = .ok items →
      afterPlaylist w p items = .ok (.fetchStats pick catMatch) →
      Transition w p st i
        { st with workers := st.workers.set i (.awaitingStats ch pick catMatch) }
  | statsError (ch : Channel) (pick : List Video) (catMatch : ℚ) (e : String) :
      st.rejected = none → st.workers.get? i = some (.awaitingStats ch pick catMatch) →
      getVideoStats w (pick.map (·.videoId)) = .error e →
      Transition w p st i (reject st e)
  | tooFewStats (ch : Channel) (pick : List Video) (catMatch : ℚ)
      (stats : List (String × VideoStats)) :
      st.rejected = none → st.workers.get? i = some (.awaitingStats ch pick catMatch) →
      getVideoStats w (pick.map (·.videoId)) = .ok stats →
      afterStats w p ch pick catMatch stats = none →
      Transition w p st i (continueLoop st i st.counters.addNoVideos)
  | scored (ch : Channel) (pick : List Video) (catMatch : ℚ)
      (stats : List (String × VideoStats)) (sc : ScoredChannel) :
      st.rejected = none → st.workers.get? i = some (.awaitingStats ch pick catMatch) →
      getVideoStats w (pick.map (·.videoId)) = .ok stats →
      afterStats w p ch pick catMatch stats = some sc →
      Transition w p st i
        (continueLoop { st with scored := st.scored ++ [sc] } i st.counters)

/-- A state is settled when the run is rejected or every worker has returned. -/
def Settled (st : EnrichState) : Prop :=
  st.rejected.isSome ∨ ∀ s ∈ st.workers, s = .finished

/-- The channel `bad` is still to be fetched: queued, or a worker waits for its
uploads; or the run is already rejected. -/
def Outstanding (bad : Channel) (st : EnrichState) : Prop :=
  st.rejected.isSome ∨ bad ∈ st.queue ∨ .awaitingPlaylist bad ∈ st.workers

/-- The comparison of the final sort, descending by score, is total. -/
instance scoreDesc_total : IsTotal ScoredChannel (fun a b => b.score ≤ a.score) :=
  ⟨fun a b => le_total b.score a.score⟩

/-- The comparison of the final sort, descending by score, is transitive. -/
instance scoreDesc_trans : IsTrans ScoredChannel (fun a b => b.score ≤ a.score) :=
  ⟨fun _ _ _ hab hbc => le_trans hbc hab⟩

/-- The comparison of the rough ranking, descending by subscribers, is total. -/
instance subsDesc_total :
    IsTotal Channel (fun a b => b.subscriberCount ≤ a.subscriberCount) :=
  ⟨fun a b => le_total b.subscriberCount a.subscriberCount⟩

/-- The comparison of the rough ranking, descending by subscribers, is transitive. -/
instance subsDesc_trans :
    IsTrans Channel (fun a b => b.subscriberCount ≤ a.subscriberCount) :=
  ⟨fun _ _ _ hab hbc => le_trans hbc hab⟩

/-- The uploads of a channel were selected and passed the enabled video-level
checks: `pick` is the selection of step 4-2 on the fetched uploads, its language
ratio is at least 0.55 when strictLang is on, and `catMatch` is its category
ratio, at least the threshold when strictCat is on. -/
def Selected (w : World) (p : Params) (ch : Channel) (pick : List Video) (catMatch : ℚ) :
    Prop :=
  ∃ items, ytPlaylistItems w ch.uploadsPlaylistId = .ok items ∧
    pick = pickVideos w p (items.filter fun v => v.videoId ≠ "" ∧ v.publishedAt ≠ "") ∧
    (p.strictLang = true → 55 / 100 ≤ languageMatchRatio pick p.lang) ∧
    categoryMatchRatio w pick p.cat = .ok catMatch ∧
    (p.strictCat = true → categoryThreshold p.cat ≤ catMatch)

/-- Everything in the enrichment state comes from the rough list, and whatever
got past the video-level checks passed them. -/
def Provenance (w : World) (p : Params) (rough : List Channel) (st : EnrichState) : Prop :=
  (∀ ch ∈ st.queue, ch ∈ rough) ∧
  (∀ ch, WorkerState.awaitingPlaylist ch ∈ st.workers → ch ∈ rough) ∧
  (∀ ch pick cm, WorkerState.awaitingStats ch pick cm ∈ st.workers →
    ch ∈ rough ∧ Selected w p ch pick cm) ∧
  (∀ sc ∈ st.scored, ∃ ch ∈ rough, ∃ pick,
    sc.channelId = ch.id ∧ Selected w p ch pick sc.categoryMatch)

/-- The number of channels of a list without uploads playlist reference. -/
def noUploads (l : List Channel) : Nat :=
  l.countP fun ch => decide (ch.uploadsPlaylistId = "")

/-- The channels dropped by the three drop counters. -/
def DebugCounters.dropped (c : DebugCounters) : Nat :=
  c.droppedByCat + c.droppedByLang + c.noVideos

/-- The bookkeeping of the enrichment stage: every shifted channel was counted
as checked, and every checked channel is scored, dropped, without uploads
reference, or held by a worker. -/
def Accounted (rough : List Channel) (st : EnrichState) : Prop :=
  st.counters.checked + st.queue.length = rough.length ∧
  st.counters.checked + noUploads st.queue =
    st.scored.length + st.counters.dropped + (st.workers.map WorkerState.busy).sum
      + noUploads rough

/-- The sizes of `candidateIds` at the moments the inner loop calls
`ytSearchChannels`, in call order: the loop `searchPages` with a log of its calls
instead of its result. A failed call is logged; nothing follows it. -/
def searchPagesLog (w : World) (q : String) : Nat → String → PoolState → List Nat
  | 0, _, _ => []
  | pagesLeft + 1, pageToken, st =>
    st.ids.length ::
      match ytSearchChannels w st.calls q pageToken with
      | .error _ => []
      | .ok s =>
        let st1 : PoolState := { ids := addPage st.ids s.items, calls := st.calls + 1 }
        if s.nextPageToken = "" then []
        else if st1.ids.length ≥ maxCandidates then []
        else searchPagesLog w q pagesLeft s.nextPageToken st1

/-- The sizes of `candidateIds` at the moments the outer loop, through the inner
one, calls `ytSearchChannels`, in call order. -/
def searchQueriesLog (w : World) : List String → PoolState → List Nat
  | [], _ => []
  | q :: qs, st =>
    searchPagesLog w q pagesPerQuery "" st ++
      match searchPages w q pagesPerQuery "" st with
      | .error _ => []
      | .ok st1 => if st1.ids.length ≥ maxCandidates then [] else searchQueriesLog w qs st1

/-- The sizes of `candidateIds` at the moments step 1 of `buildTop100` calls
`ytSearchChannels`, in call order. -/
def buildPoolLog (w : World) (cat : String) : List Nat :=
  match seedsOr3c cat with
  | none => []
  | some seeds => searchQueriesLog w (seeds.queries.take 6) { ids := [], calls := 0 }

/-! ## Double-precision arithmetic

The definitions above compute in exact rationals. Where a claim depends on the
rounding of IEEE 754 binary64 arithmetic, the numeric functions of the worker are
modelled again in the namespace `Ieee`, every arithmetic result being rounded to
the nearest double (ties to even, subnormals and overflow included). Zero has no
sign in this model: the worker never divides by zero. -/

namespace Ieee

/-- The integer nearest to `y`, a tie going to the even neighbour. -/
def roundHalfEven (y : ℚ) : ℤ :=
  if y - ⌊y⌋ < 1 / 2 then ⌊y⌋
  else if 1 / 2 < y - ⌊y⌋ then ⌊y⌋ + 1
  else if ⌊y⌋ % 2 = 0 then ⌊y⌋ else ⌊y⌋ + 1

/-- The number of binary digits of `n`, with `fuel` halvings allowed. -/
def bitLenAux : ℕ → ℕ → ℕ
  | 0, _ => 0
  | fuel + 1, n => if n = 0 then 0 else bitLenAux fuel (n / 2) + 1

/-- The number of binary digits of `n`: `0` for `0`, and `k` when `2 ^ (k - 1) ≤ n < 2 ^ k`. -/
def bitLen (n : ℕ) : ℕ := bitLenAux n n

/-- The power `2 ^ e` of an integer exponent. -/
def pow2 (e : ℤ) : ℚ :=
  if 0 ≤ e then ((2 ^ e.toNat : ℕ) : ℚ) else 1 / ((2 ^ (-e).toNat : ℕ) : ℚ)

/-- The binary exponent of `x ≠ 0`: the integer `e` with `2 ^ e ≤ |x| < 2 ^ (e + 1)`.
The difference of the lengths of numerator and denominator is `e` or `e + 1`. -/
def binExp (x : ℚ) : ℤ :=
  if pow2 ((bitLen x.num.natAbs : ℤ) - (bitLen x.den : ℤ)) ≤ |x|
  then (bitLen x.num.natAbs : ℤ) - (bitLen x.den : ℤ)
  else (bitLen x.num.natAbs : ℤ) - (bitLen x.den : ℤ) - 1

/-- The exponent of the spacing of the doubles around `x ≠ 0`: 52 below the
binary exponent of `x`, and never below that of the subnormals. -/
def ulpExp (x : ℚ) : ℤ := max (binExp x) (-1022) - 52

/-- The multiple of `2 ^ ulpExp x` nearest to `x`, ties to even: the double
nearest to `x` when the exponent range is unbounded above. -/
def roundToDouble (x : ℚ) : ℚ :=
  if x = 0 then 0 else (roundHalfEven (x / pow2 (ulpExp x)) : ℚ) * pow2 (ulpExp x)

/-- The magnitude `2 ^ 1024` at which a rounded result is an infinity. -/
def overflowBound : ℚ := ((2 ^ 1024 : ℕ) : ℚ)

/-- The Number nearest to the exact value `x` (round to nearest, ties to even). -/
def fl (x : ℚ) : JsNum :=
  if overflowBound ≤ roundToDouble x then .posInf
  else if roundToDouble x ≤ -overflowBound then .negInf
  else .fin (roundToDouble x)

/-- A decimal literal of the source, such as `0.35`. -/
def lit (x : ℚ) : JsNum := fl x

/-- The JavaScript sum `x + y`. -/
def add (x y : JsNum) : JsNum :=
  match x, y with
  | .nan, _ => .nan
  | _, .nan => .nan
  | .posInf, .negInf => .nan
  | .negInf, .posInf => .nan
  | .posInf, _ => .posInf
  | _, .posInf => .posInf
  | .negInf, _ => .negInf
  | _, .negInf => .negInf
  | .fin a, .fin b => fl (a + b)

/-- The JavaScript negation `-x`. -/
def neg (x : JsNum) : JsNum :=
  match x with
  | .fin a => .fin (-a)
  | .posInf => .negInf
  | .negInf => .posInf
  | .nan => .nan

/-- The JavaScript difference `x - y`. -/
def sub (x y : JsNum) : JsNum := add x (neg y)

/-- The sign of a number: `none` for NaN. -/
def sign (x : JsNum) : Option ℤ :=
  match x with
  | .fin a => some (if a < 0 then -1 else if a = 0 then 0 else 1)
  | .posInf => some 1
  | .negInf => some (-1)
  | .nan => none

/-- An infinity of the given non-zero sign. -/
def infOfSign (s : ℤ) : JsNum := if s < 0 then .negInf else .posInf

/-- The JavaScript product `x * y`. -/
def mul (x y : JsNum) : JsNum :=
  match x, y with
  | .fin a, .fin b => fl (a * b)
  | _, _ =>
    match sign x, sign y with
    | some s, some t => if s * t = 0 then .nan else infOfSign (s * t)
    | _, _ => .nan

/-- The JavaScript quotient `x / y`. -/
def div (x y : JsNum) : JsNum :=
  match x, y with
  | .nan, _ => .nan
  | _, .nan => .nan
  | .fin a, .fin b =>
    if b = 0 then (if a = 0 then .nan else if a < 0 then .negInf else .posInf)
    else fl (a / b)
  | .fin _, _ => .fin 0
  | _, .fin b => match sign x with
    | some s => infOfSign (if b < 0 then -s else s)
    | none => .nan
  | _, _ => .nan

/-- The JavaScript comparison `x > y`. -/
def gt (x y : JsNum) : Bool :=
  match x, y with
  | .nan, _ => false
  | _, .nan => false
  | .fin a, .fin b => decide (b < a)
  | .posInf, .posInf => false
  | .posInf, _ => true
  | _, .negInf => match x with
    | .negInf => false
    | _ => true
  | _, _ => false

/-- The JavaScript comparison `x <= y`. -/
def le (x y : JsNum) : Bool :=
  match x, y with
  | .nan, _ => false
  | _, .nan => false
  | .fin a, .fin b => decide (a ≤ b)
  | .negInf, _ => true
  | _, .posInf => true
  | _, _ => false

/-- The function `Math.round`. -/
def mathRound (x : JsNum) : JsNum :=
  match x with
  | .fin a => .fin (Worker.mathRound a)
  | y => y

/-- The function `Math.sqrt`; `sqrt` is its value on finite non-negative numbers. -/
def mathSqrt (sqrt : ℚ → ℚ) (x : JsNum) : JsNum :=
  match x with
  | .fin a => if a < 0 then .nan else .fin (sqrt a)
  | .posInf => .posInf
  | _ => .nan

/-- Source: `function round1(x){ return Math.round(Number(x||0)*10)/10; }`. -/
def round1 (x : JsNum) : JsNum := div (mathRound (mul x.orZero (.fin 10))) (.fin 10)

/-- Source: `function round0(x){ return Math.round(Number(x||0)); }`. -/
def round0 (x : JsNum) : JsNum := mathRound x.orZero

/-- Source: `function decisionScore(m)`, in double arithmetic. -/
def decisionScore (m : Metrics) : JsNum :=
  let reach := clamp01 (div m.avgViews (.fin 200000))
  let eng := clamp01 (div m.engagementRate (lit (6 / 100)))
  let grow := clamp01 (div (add m.growthMomentum (lit (5 / 100))) (lit (25 / 100)))
  let stab := clamp01 m.stabilityScore
  let cpk := clamp01 (div m.commentsPerKViews (.fin 6))
  let score :=
    mul (add (add (add (add (mul (.fin reach) (lit (35 / 100))) (mul (.fin eng) (lit (30 / 100))))
      (mul (.fin grow) (lit (20 / 100)))) (mul (.fin stab) (lit (10 / 100))))
      (mul (.fin cpk) (lit (5 / 100)))) (.fin 100)
  round1 score

/-- Source: `function mean(arr)`, in double arithmetic, on an array of doubles. -/
def mean (arr : List ℚ) : JsNum :=
  if arr.length = 0 then .fin 0
  else div (arr.foldl (fun s x => add s (.fin x)) (.fin 0)) (.fin arr.length)

/-- Source: `function coeffVar(arr)`, in double arithmetic. -/
def coeffVar (w : World) (arr : List ℚ) : JsNum :=
  if arr.length < 2 then .fin 0
  else if le (mean arr) (.fin 0) then .fin 0
  else
    let v := arr.foldl (fun v x => add v (mul (sub (.fin x) (mean arr)) (sub (.fin x) (mean arr))))
      (.fin 0)
    div (mathSqrt w.sqrt (div v (.fin ((arr.length : ℚ) - 1)))) (mean arr)

/-- Source: `function computeMetrics(videos, days)`, in double arithmetic. -/
def computeMetrics (w : World) (videos : List EnrichedVideo) (_days : ℤ) : Metrics :=
  let views := videos.map (·.viewCount)
  let likes := videos.map (·.likeCount)
  let comms := videos.map (·.commentCount)
  let avgViews := mean views
  let avgLikes := mean likes
  let avgComms := mean comms
  let engagementRate :=
    if gt avgViews (.fin 0) then div (add avgLikes avgComms) avgViews else .fin 0
  let commentsPerKViews :=
    if gt avgViews (.fin 0) then mul (div avgComms avgViews) (.fin 1000) else .fin 0
  let mid := videos.length / 2
  let cut := if mid = 0 then 1 else mid
  let recentViews := mean (views.take cut)
  let olderViews := mean (views.drop cut)
  let growthMomentum :=
    if gt olderViews (.fin 0) then div (sub recentViews olderViews) olderViews else .fin 0
  let cv := coeffVar w views
  let stabilityScore := clamp01 (sub (.fin 1) (div cv (lit (12 / 10))))
  { avgViews := round0 avgViews
    engagementRate := engagementRate
    growthMomentum := growthMomentum
    stabilityScore := .fin stabilityScore
    commentsPerKViews := round1 commentsPerKViews }

/-- The square root of `n` rounded down, bit by bit: `isqrtAux n b r` adds to `r`
the bits below `2 ^ b` that keep the square at most `n`. -/
def isqrtAux (n : ℕ) : ℕ → ℕ → ℕ
  | 0, r => r
  | b + 1, r => if (r + 2 ^ b) * (r + 2 ^ b) ≤ n then isqrtAux n b (r + 2 ^ b) else isqrtAux n b r

/-- The double nearest to the square root of `x ≥ 0`. The number `x` is scaled by
a power of 4 into `[2 ^ 120, 2 ^ 122)`, where its root has 61 binary digits before
the point: the root lies between the consecutive integers `r` and `r + 1`, which no
double and no midpoint of two doubles separates, so it rounds as `r` when it is
`r`, and as `r + 1 / 2` otherwise. -/
def sqrtDouble (x : ℚ) : ℚ :=
  if x ≤ 0 then 0
  else
    let k : ℤ := 60 - binExp x / 2
    let r : ℕ := isqrtAux ⌊x * pow2 (2 * k)⌋₊ 61 0
    if ((r * r : ℕ) : ℚ) = x * pow2 (2 * k) then roundToDouble ((r : ℚ) / pow2 k)
    else roundToDouble ((2 * (r : ℚ) + 1) / pow2 (k + 1))

end Ieee

/-! ## Concrete requests and worlds -/

/-- A request without parameters. -/
def noQuery : String → Option String := fun _ => none

/-- A request whose only parameter is `days=45`. -/
def daysQuery45 : String → Option String := fun k => if k = "days" then some "45" else none

/-- An identifier of `i + 1` letters, different for different `i`. -/
def sampleId (i : Nat) : String := String.mk (List.replicate (i + 1) 'a')

/-- The first `n` sample identifiers. -/
def sampleIds (n : Nat) : List String := (List.range n).map sampleId

/-- The fifty identifiers listed by the `n`-th search page of `fullPagesWorld`. -/
def samplePage (n : Nat) : List String :=
  (List.range 50).map fun i => sampleId (50 * n + i)

/-- A gateway whose `n`-th search page lists fifty channels that no other page
lists, and always announces a further page; the other endpoints return nothing. -/
def fullPagesWorld : World where
  search := fun n _ _ =>
    { ok := true, errorMessage := none, nextPageToken := some "next"
      items := (samplePage n).map some }
  channelsList := fun _ => { ok := true, errorMessage := none, items := [] }
  playlistItems := fun _ => { ok := true, errorMessage := none, items := [] }
  videosList := fun _ => { ok := true, errorMessage := none, items := [] }
  now := 0
  generatedAt := ""
  dateParse := fun _ => none
  toLowerCase := id
  toUpperCase := id
  sqrt := id

/-- The default parameters: those of a request without query string. -/
def sampleParams : Params := parseParams id noQuery

/-- A channel item of the sample gateway. -/
def sampleChannelRaw (id uploads title : String) (subs : ℚ) : ChannelRaw where
  id := id
  title := some (utf16 title)
  description := some (utf16 "每週更新")
  customUrl := none
  thumbnailDefault := none
  thumbnailMedium := none
  country := some "TW"
  uploads := some uploads
  subscriberCount := some subs
  viewCount := some 0
  videoCount := some 50
  keywords := none

/-- Six uploads with identifiers `pfx1` to `pfx6`, all titled as unboxing videos. -/
def sampleUploads (pfx : String) : List PlaylistItemRaw :=
  ["1", "2", "3", "4", "5", "6"].map fun k =>
    { videoId := some (pfx ++ k)
      title := some (utf16 "iPhone 開箱")
      description := some (utf16 "手機 評測")
      videoPublishedAt := some "2024-05-01T00:00:00Z"
      snippetPublishedAt := none }

/-- The statistics of a sample video: the videos of the first channel (`a…`) have
1000 views each, the others 200000. -/
def sampleVideoRaw (id : String) : VideoRaw :=
  if "a".isPrefixOf id then
    { id := id, viewCount := some 1000, likeCount := some 50, commentCount := some 5 }
  else
    { id := id, viewCount := some 200000, likeCount := some 12000, commentCount := some 1200 }

/-- A rational approximation of the square root. -/
def approxSqrt (q : ℚ) : ℚ := (Nat.sqrt (q.num.toNat * q.den) : ℚ) / q.den

/-- A gateway with two channels: every search page lists `UC1`, an item without
identifier, `UC2` and `UC1` again; both channels have six recent uploads with
statistics. -/
def sampleWorld : World where
  search := fun _ _ _ =>
    { ok := true, errorMessage := none, nextPageToken := none
      items := [some "UC1", none, some "UC2", some "UC1"] }
  channelsList := fun _ =>
    { ok := true, errorMessage := none
      items := [sampleChannelRaw "UC1" "UU1" "科技開箱" 1000,
                sampleChannelRaw "UC2" "UU2" "手機評測" 5000] }
  playlistItems := fun pid =>
    { ok := true, errorMessage := none
      items := if pid = "UU1" then sampleUploads "a" else sampleUploads "b" }
  videosList := fun ids => { ok := true, errorMessage := none, items := ids.map sampleVideoRaw }
  now := 1717200000000
  generatedAt := "2024-06-01T00:00:00.000Z"
  dateParse := fun _ => some 1714521600000
  toLowerCase := List.map fun u => if 65 ≤ u ∧ u ≤ 90 then u + 32 else u
  toUpperCase := id
  sqrt := approxSqrt

/-- The sample gateway, except that the uploads playlist of `UC1` cannot be
fetched. -/
def brokenUploadsWorld : World :=
  { sampleWorld with
    playlistItems := fun pid =>
      if pid = "UU1" then
        { ok := false, errorMessage := some "playlistNotFound", items := [] }
      else sampleWorld.playlistItems pid }

/-- The item of the sample run for channel `UC1`. -/
def sampleItem1 : ScoredChannel where
  channelId := "UC1"
  title := utf16 "科技開箱"
  customUrl := []
  thumbnail := ""
  subscriberCount := 1000
  avgViews := .fin 1000
  engagementRate := .fin (55 / 1000)
  growthMomentum := .fin 0
  stabilityScore := .fin 1
  commentsPerKViews := .fin 5
  categoryMatch := 1
  score := 229 / 5

/-- The item of the sample run for channel `UC2`. -/
def sampleItem2 : ScoredChannel where
  channelId := "UC2"
  title := utf16 "手機評測"
  customUrl := []
  thumbnail := ""
  subscriberCount := 5000
  avgViews := .fin 200000
  engagementRate := .fin (66 / 1000)
  growthMomentum := .fin 0
  stabilityScore := .fin 1
  commentsPerKViews := .fin 6
  categoryMatch := 1
  score := 84

/-- The result of `buildTop100` on the sample gateway with default parameters. -/
def sampleOutput : Output where
  generatedAt := "2024-06-01T00:00:00.000Z"
  meta :=
    { params := sampleParams
      candidateChannels := 2
      afterChannelFilter := 2
      roughScored := 2
      scoredCount := 2
      debugCounters := ⟨2, 0, 0, 0⟩ }
  items := [sampleItem2, sampleItem1]

/-- The default parameters with a category key that the table does not have. -/
def gamingParams : Params := { sampleParams with cat := "gaming" }

/-- Nine uploads, two of which mention a keyword of the `"3c"` entry. -/
def nineVideos : List Video :=
  (["1", "2"].map fun k =>
    { videoId := "v" ++ k, title := utf16 "iPhone 開箱", description := []
      publishedAt := "2024-05-01T00:00:00Z" }) ++
  (["3", "4", "5", "6", "7", "8", "9"].map fun k =>
    { videoId := "v" ++ k, title := utf16 "遊戲 實況", description := []
      publishedAt := "2024-05-01T00:00:00Z" })

/-- A channel whose title is 500 Latin letters and whose description is four Han
characters: the Han characters lie beyond the first 500 code units of the text. -/
def longLatinChannel : Channel where
  id := "UC9"
  title := List.replicate 500 'a'.toNat
  description := utf16 "中文頻道"
  customUrl := []
  thumbnail := ""
  country := ""
  uploadsPlaylistId := "UU9"
  subscriberCount := 10
  viewCount := 0
  videoCount := 10
  keywords := []

/-- A video whose title and description are white space only. -/
def blankVideo : Video where
  videoId := "v0"
  title := utf16 "  "
  description := utf16 "\t\n"
  publishedAt := "2024-05-01T00:00:00Z"

/-- A video with statistics, of the given view count. -/
def viewsVideo (views : ℚ) : EnrichedVideo where
  video := blankVideo
  viewCount := views
  likeCount := 0
  commentCount := 0

/-- The sample gateway with `Math.sqrt` as the correctly rounded square root. -/
def ieeeWorld : World := { sampleWorld with sqrt := Ieee.sqrtDouble }

/-- The value of the literal `0.007` as a double. -/
def double0007 : ℚ := 8070450532247929 / 2 ^ 60

/-- A video with statistics, of the given view and like counts. -/
def likedVideo (views likes : ℚ) : EnrichedVideo where
  video := blankVideo
  viewCount := views
  likeCount := likes
  commentCount := 0

/-! ## Lemmas on the numeric helpers -/

theorem clamp01_nonneg (x : JsNum) : 0 ≤ clamp01 x := by
  unfold clamp01
  split <;> simp

theorem clamp01_le_one (x : JsNum) : clamp01 x ≤ 1 := by
  unfold clamp01
  split <;> simp

theorem clamp01_fin (q : ℚ) : clamp01 (.fin q) = specNormalize q := by
  unfold clamp01 specNormalize JsNum.orZero
  simp only
  split_ifs with h1 h2
  · rw [min_eq_right (by linarith), max_eq_left h1.le]
  · rw [min_eq_left h2.le]; simp
  · push_neg at h1 h2
    rw [min_eq_right h2, max_eq_right h1]

theorem rawScore_nonneg (m : Metrics) : 0 ≤ rawScore m := by
  unfold rawScore
  have h1 := clamp01_nonneg (m.avgViews.divPos 200000)
  have h2 := clamp01_nonneg (m.engagementRate.divPos (6 / 100))
  have h3 := clamp01_nonneg ((m.growthMomentum.addFin (5 / 100)).divPos (25 / 100))
  have h4 := clamp01_nonneg m.stabilityScore
  have h5 := clamp01_nonneg (m.commentsPerKViews.divPos 6)
  simp only
  linarith

theorem rawScore_le (m : Metrics) : rawScore m ≤ 100 := by
  unfold rawScore
  have h1 := clamp01_le_one (m.avgViews.divPos 200000)
  have h2 := clamp01_le_one (m.engagementRate.divPos (6 / 100))
  have h3 := clamp01_le_one ((m.growthMomentum.addFin (5 / 100)).divPos (25 / 100))
  have h4 := clamp01_le_one m.stabilityScore
  have h5 := clamp01_le_one (m.commentsPerKViews.divPos 6)
  simp only
  linarith

theorem round1_nonneg {x : ℚ} (h : 0 ≤ x) : 0 ≤ round1 x := by
  unfold round1 mathRound
  have : (0 : ℤ) ≤ ⌊x * 10 + 1 / 2⌋ := Int.floor_nonneg.mpr (by linarith)
  have : (0 : ℚ) ≤ (⌊x * 10 + 1 / 2⌋ : ℚ) := by exact_mod_cast this
  linarith

theorem round1_le {x : ℚ} (h : x ≤ 100) : round1 x ≤ 100 := by
  unfold round1 mathRound
  have h1 : ⌊x * 10 + 1 / 2⌋ < 1001 := Int.floor_lt.mpr (by push_cast; linarith)
  have h2 : ⌊x * 10 + 1 / 2⌋ ≤ 1000 := by omega
  have h3 : (⌊x * 10 + 1 / 2⌋ : ℚ) ≤ 1000 := by exact_mod_cast h2
  linarith

/-! ## Theorems: decision score -/

/-- C1: for every metrics record (finite values of any sign and size, the
infinities and NaN included) the decision score lies in the closed interval
from 0 to 100. -/
theorem decisionScore_mem_Icc (m : Metrics) :
    0 ≤ decisionScore m ∧ decisionScore m ≤ 100 :=
  ⟨round1_nonneg (rawScore_nonneg m), round1_le (rawScore_le m)⟩
/-! ## Theorems: request parameters -/

theorem clampInt_mem (x : String) (lo hi : ℤ) (h : lo ≤ hi) :
    lo ≤ clampInt x lo hi ∧ clampInt x lo hi ≤ hi := by
  unfold clampInt
  split
  · exact ⟨le_max_left _ _, max_le h (min_le_left _ _)⟩
  · exact ⟨le_refl _, h⟩

theorem clampInt_decimal :
    ∀ n : ℕ, n < 366 → 7 ≤ n → clampInt (strOr (some (toString n)) "30") 7 365 = n := by
  decide!

/-- C9 (as the code has it): noise exclusion is enabled exactly when the
`excludeTopic` parameter is the string 1, so it is off when the parameter is
absent; `strictLang` and `strictCat` are on unless their parameter is the string
0, so they are on when absent. -/
theorem excludeTopic_iff (up : String → String) (qp : String → Option String) :
    ((parseParams up qp).excludeTopic = true ↔ qp "excludeTopic" = some "1") ∧
    ((parseParams up qp).strictLang = true ↔ qp "strictLang" ≠ some "0") ∧
    ((parseParams up qp).strictCat = true ↔ qp "strictCat" ≠ some "0") ∧
    ((parseParams up noQuery).excludeTopic = false ∧
      (parseParams up noQuery).strictLang = true ∧
      (parseParams up noQuery).strictCat = true) := by
  simp [parseParams, noQuery]

/-- C9 fails as stated: for a request without the `excludeTopic` parameter the
ranking runs with noise exclusion disabled, while `strictLang` and `strictCat`
default to enabled. -/
theorem excludeTopic_absent_is_false :
    ¬ ((parseParams id noQuery).excludeTopic = true) ∧
    (parseParams id noQuery).strictLang = true ∧
    (parseParams id noQuery).strictCat = true := by
  decide

/-- C10: whatever the `days` parameter is, the window length handed to
`buildTop100` is an integer between 7 and 365; it is 30 when the parameter is
absent, and it is `n` when the parameter is the decimal numeral of an integer
`n` with 7 ≤ n ≤ 365. -/
theorem days_effective (up : String → String) (qp : String → Option String) :
    (7 ≤ (parseParams up qp).days ∧ (parseParams up qp).days ≤ 365) ∧
    (qp "days" = none → (parseParams up qp).days = 30) ∧
    (∀ n : ℕ, 7 ≤ n → n ≤ 365 → qp "days" = some (toString n) →
      (parseParams up qp).days = n) := by
  refine ⟨clampInt_mem _ 7 365 (by norm_num), ?_, ?_⟩
  · intro h
    simp only [parseParams, h, strOr]
    decide!
  · intro n h7 h365 h
    simp only [parseParams, h]
    exact clampInt_decimal n (by omega) h7

/-- C10, witness: a request with `days=45` runs with a window of 45 days, and a
request without `days` does not take the second branch vacuously. -/
theorem days_effective_witness :
    (parseParams id daysQuery45).days = 45 ∧ (parseParams id noQuery).days = 30 :=
  ⟨(days_effective id daysQuery45).2.2 45 (by decide) (by decide) (by decide),
   (days_effective id noQuery).2.1 rfl⟩

/-! ## Theorems: candidate pool -/

/-- The invariant of the candidate set: no identifier twice, none empty. -/
theorem setAdd_good {s : List String} {x : String} (hx : x ≠ "")
    (h : s.Nodup ∧ "" ∉ s) : (setAdd s x).Nodup ∧ "" ∉ setAdd s x := by
  unfold setAdd
  split_ifs with hm
  · exact h
  · refine ⟨List.Nodup.append h.1 (List.nodup_singleton x) ?_, ?_⟩
    · simpa [List.disjoint_singleton] using hm
    · simp [h.2, Ne.symm hx]

theorem setAdd_length_le (s : List String) (x : String) :
    (setAdd s x).length ≤ s.length + 1 := by
  unfold setAdd
  split_ifs <;> simp

theorem addPage_good (items : List String) :
    ∀ s : List String, (s.Nodup ∧ "" ∉ s) → (addPage s items).Nodup ∧ "" ∉ addPage s items := by
  induction items with
  | nil => intro s h; simpa [addPage] using h
  | cons x xs ih =>
    intro s h
    simp only [addPage, List.foldl_cons] at ih ⊢
    split_ifs with hx
    · exact ih _ (setAdd_good hx h)
    · exact ih _ h

theorem addPage_length_le (items : List String) :
    ∀ s : List String, (addPage s items).length ≤ s.length + items.length := by
  induction items with
  | nil => intro s; simp [addPage]
  | cons x xs ih =>
    intro s
    simp only [addPage, List.foldl_cons, List.length_cons] at ih ⊢
    split_ifs with hx
    · have h1 := ih (setAdd s x)
      have h2 := setAdd_length_le s x
      omega
    · have h1 := ih s
      omega

theorem ytSearchChannels_items_length {w : World} {n : Nat} {q t : String} {s : SearchPage}
    (h : ytSearchChannels w n q t = .ok s) :
    s.items.length = (w.search n q t).items.length := by
  simp only [ytSearchChannels] at h
  split_ifs at h
  injection h with h
  subst h
  simp

theorem searchPages_good (w : World) (q : String) (pagesLeft : Nat) :
    ∀ (t : String) (st st1 : PoolState), searchPages w q pagesLeft t st = .ok st1 →
      (st.ids.Nodup ∧ "" ∉ st.ids) → st1.ids.Nodup ∧ "" ∉ st1.ids := by
  induction pagesLeft with
  | zero =>
    intro t st st1 h hg
    simp only [searchPages] at h
    injection h with h
    subst h
    exact hg
  | succ n ih =>
    intro t st st1 h hg
    simp only [searchPages] at h
    split at h
    · exact absurd h (by simp)
    · rename_i s hs
      have hg1 := addPage_good s.items st.ids hg
      split_ifs at h
      · injection h with h; subst h; exact hg1
      · injection h with h; subst h; exact hg1
      · exact ih _ _ _ h hg1

theorem searchQueries_good (w : World) (queries : List String) :
    ∀ st st1 : PoolState, searchQueries w queries st = .ok st1 →
      (st.ids.Nodup ∧ "" ∉ st.ids) → st1.ids.Nodup ∧ "" ∉ st1.ids := by
  induction queries with
  | nil =>
    intro st st1 h hg
    simp only [searchQueries] at h
    injection h with h
    subst h
    exact hg
  | cons q qs ih =>
    intro st st1 h hg
    simp only [searchQueries] at h
    split at h
    · exact absurd h (by simp)
    · rename_i st2 hs
      have hg2 := searchPages_good w q _ _ _ _ hs hg
      split_ifs at h
      · injection h with h; subst h; exact hg2
      · exact ih _ _ h hg2

theorem searchPages_length (w : World) (q : String) (k : Nat)
    (hw : ∀ n q t, (w.search n q t).items.length ≤ k) (pagesLeft : Nat) :
    ∀ (t : String) (st st1 : PoolState), searchPages w q pagesLeft t st = .ok st1 →
      st.ids.length < maxCandidates → st1.ids.length < maxCandidates + k := by
  induction pagesLeft with
  | zero =>
    intro t st st1 h hl
    simp only [searchPages] at h
    injection h with h
    subst h
    omega
  | succ n ih =>
    intro t st st1 h hl
    simp only [searchPages] at h
    split at h
    · exact absurd h (by simp)
    · rename_i s hs
      have h1 := addPage_length_le s.items st.ids
      have h2 := ytSearchChannels_items_length hs
      have h3 := hw st.calls q t
      split_ifs at h with ha hb
      · injection h with h; subst h; simp only; omega
      · injection h with h; subst h; simp only; omega
      · exact ih _ _ _ h (by simpa using hb)

theorem searchQueries_length (w : World) (k : Nat)
    (hw : ∀ n q t, (w.search n q t).items.length ≤ k) (queries : List String) :
    ∀ st st1 : PoolState, searchQueries w queries st = .ok st1 →
      st.ids.length < maxCandidates → st1.ids.length < maxCandidates + k := by
  induction queries with
  | nil =>
    intro st st1 h hl
    simp only [searchQueries] at h
    injection h with h
    subst h
    omega
  | cons q qs ih =>
    intro st st1 h hl
    simp only [searchQueries] at h
    split at h
    · exact absurd h (by simp)
    · rename_i st2 hs
      have h2 := searchPages_length w q k hw _ _ _ _ hs hl
      split_ifs at h with ha
      · injection h with h; subst h; exact h2
      · exact ih _ _ h (by simpa using ha)

theorem searchPages_calls (w : World) (q : String) (pagesLeft : Nat) :
    ∀ (t : String) (st st1 : PoolState), searchPages w q pagesLeft t st = .ok st1 →
      st1.calls ≤ st.calls + pagesLeft := by
  induction pagesLeft with
  | zero =>
    intro t st st1 h
    simp only [searchPages] at h
    injection h with h
    subst h
    omega
  | succ n ih =>
    intro t st st1 h
    simp only [searchPages] at h
    split at h
    · exact absurd h (by simp)
    · split_ifs at h
      · injection h with h; subst h; simp only; omega
      · injection h with h; subst h; simp only; omega
      · have := ih _ _ _ h
        simp only at this
        omega

theorem searchQueries_calls (w : World) (queries : List String) :
    ∀ st st1 : PoolState, searchQueries w queries st = .ok st1 →
      st1.calls ≤ st.calls + pagesPerQuery * queries.length := by
  induction queries with
  | nil =>
    intro st st1 h
    simp only [searchQueries] at h
    injection h with h
    subst h
    simp
  | cons q qs ih =>
    intro st st1 h
    simp only [searchQueries] at h
    split at h
    · exact absurd h (by simp)
    · rename_i st2 hs
      have h2 := searchPages_calls w q _ _ _ _ hs
      split_ifs at h
      · injection h with h; subst h
        simp only [List.length_cons, Nat.mul_succ]; omega
      · have := ih _ _ h
        simp only [List.length_cons, Nat.mul_succ]; omega

/-! ### The gateway with full pages -/

theorem sampleId_length (i : Nat) : (sampleId i).length = i + 1 := by
  simp [sampleId, String.length]

theorem sampleId_injective {i j : Nat} (h : sampleId i = sampleId j) : i = j := by
  have := congrArg String.length h
  simp only [sampleId_length] at this
  omega

theorem sampleId_ne_empty (i : Nat) : sampleId i ≠ "" := by
  intro h
  have := congrArg String.length h
  simp [sampleId_length] at this

theorem addPage_fresh (items : List String) :
    ∀ s : List String, (∀ x ∈ items, x ≠ "") → items.Nodup → (∀ x ∈ items, x ∉ s) →
      addPage s items = s ++ items := by
  induction items with
  | nil => intro s _ _ _; simp [addPage]
  | cons x xs ih =>
    intro s hne hnd hfresh
    have hx : x ∉ s := hfresh x (List.mem_cons_self _ _)
    have hnd1 := List.nodup_cons.mp hnd
    have h1 : addPage s (x :: xs) = addPage (s ++ [x]) xs := by
      simp [addPage, setAdd, hx, hne x (List.mem_cons_self _ _)]
    rw [h1, ih (s ++ [x]) (fun y hy => hne y (List.mem_cons_of_mem _ hy)) hnd1.2]
    · simp
    · intro y hy hmem
      rcases List.mem_append.mp hmem with h | h
      · exact hfresh y (List.mem_cons_of_mem _ hy) h
      · have : y = x := by simpa using h
        exact hnd1.1 (this ▸ hy)

theorem fullPages_add (n : Nat) :
    addPage (sampleIds (50 * n)) (samplePage n) = sampleIds (50 * (n + 1)) := by
  unfold samplePage
  rw [addPage_fresh]
  · simp only [sampleIds, Nat.mul_succ, List.range_add, List.map_append, List.map_map]
    rfl
  · intro x hx
    obtain ⟨i, -, rfl⟩ := List.mem_map.mp hx
    exact sampleId_ne_empty _
  · refine List.Nodup.map_on ?_ (List.nodup_range 50)
    intro i _ j _ h
    have := sampleId_injective h
    omega
  · intro x hx hmem
    obtain ⟨i, -, rfl⟩ := List.mem_map.mp hx
    obtain ⟨j, hj, hij⟩ := List.mem_map.mp hmem
    have := sampleId_injective hij
    have := List.mem_range.mp hj
    omega

theorem strOr_some_empty (v : String) : strOr (some v) "" = v := by
  simp only [strOr]
  split_ifs with h
  · exact h.symm
  · rfl

theorem fullPages_search (n : Nat) (q t : String) :
    ytSearchChannels fullPagesWorld n q t
      = .ok { nextPageToken := "next", items := samplePage n } := by
  have h : (fun it : Option String => strOr it "") ∘ some = id := by
    funext v
    exact strOr_some_empty v
  simp only [ytSearchChannels, fullPagesWorld, List.map_map, h, List.map_id, if_true]
  rw [strOr_some_empty]

theorem sampleIds_length (k : Nat) : (sampleIds k).length = k := by
  simp [sampleIds]

theorem samplePage_length (n : Nat) : (samplePage n).length = 50 := by
  simp [samplePage]

theorem fullPages_page (n k : Nat) (q t : String) :
    searchPages fullPagesWorld q (k + 1) t { ids := sampleIds (50 * n), calls := n }
      = if 50 * (n + 1) ≥ maxCandidates
        then .ok { ids := sampleIds (50 * (n + 1)), calls := n + 1 }
        else searchPages fullPagesWorld q k "next"
          { ids := sampleIds (50 * (n + 1)), calls := n + 1 } := by
  rw [searchPages]
  dsimp only
  rw [fullPages_search]
  dsimp only
  rw [fullPages_add, sampleIds_length, if_neg (by decide)]

theorem fullPages_query (n : Nat) (q : String) (h : n < 7) :
    searchPages fullPagesWorld q pagesPerQuery "" { ids := sampleIds (50 * n), calls := n }
      = .ok { ids := sampleIds (50 * (n + 2)), calls := n + 2 } := by
  have h1 : ¬ (50 * (n + 1) ≥ maxCandidates) := by simp only [maxCandidates]; omega
  rw [show pagesPerQuery = 1 + 1 from rfl, fullPages_page, if_neg h1, fullPages_page]
  split_ifs
  · rfl
  · rw [searchPages]

theorem fullPages_queries (n : Nat) (q : String) (qs : List String) (h : n < 6) :
    searchQueries fullPagesWorld (q :: qs) { ids := sampleIds (50 * n), calls := n }
      = searchQueries fullPagesWorld qs { ids := sampleIds (50 * (n + 2)), calls := n + 2 } := by
  rw [searchQueries, fullPages_query n q (by omega)]
  dsimp only
  rw [sampleIds_length, if_neg (by simp only [maxCandidates]; omega)]

theorem fullPages_queries_last (q : String) (qs : List String) :
    searchQueries fullPagesWorld (q :: qs) { ids := sampleIds (50 * 6), calls := 6 }
      = .ok { ids := sampleIds (50 * 8), calls := 8 } := by
  rw [searchQueries, fullPages_query 6 q (by omega)]
  dsimp only
  rw [sampleIds_length, if_pos (by decide)]

theorem seedsOr3c_3c : seedsOr3c "3c" = some seed3c := by
  simp [seedsOr3c, seedsAt, CATEGORY_SEEDS, List.lookup]

theorem fullPages_items_length (n : Nat) (q t : String) :
    (fullPagesWorld.search n q t).items.length ≤ 50 := by
  show ((samplePage n).map some).length ≤ 50
  rw [List.length_map, samplePage_length]

theorem fullPages_buildPool :
    buildPool fullPagesWorld "3c" = .ok { ids := sampleIds (50 * 8), calls := 8 } := by
  have hq : seed3c.queries.take 6 = ["iphone 開箱", "android 開箱", "手機 評測", "筆電 評測",
      "相機 開箱", "耳機 評測"] := rfl
  have e0 : ({ ids := [], calls := 0 } : PoolState)
      = { ids := sampleIds (50 * 0), calls := 0 } := rfl
  rw [buildPool, seedsOr3c_3c]
  dsimp only
  rw [hq, e0, fullPages_queries 0 _ _ (by omega), fullPages_queries 2 _ _ (by omega),
    fullPages_queries 4 _ _ (by omega), fullPages_queries_last]


theorem sample_pool :
    buildPool sampleWorld "3c" = .ok { ids := ["UC1", "UC2"], calls := 6 } := by
  decide!

/-! ### Claims on the candidate pool -/

/-- C5: whatever the search responses are, the candidate list built by the pool
builder holds every identifier at most once and holds no empty identifier. -/
theorem candidates_nodup (w : World) (cat : String) (pool : PoolState)
    (h : buildPool w cat = .ok pool) : pool.ids.Nodup ∧ "" ∉ pool.ids := by
  unfold buildPool at h
  split at h
  · exact absurd h (by simp)
  · exact searchQueries_good w _ _ _ h ⟨List.nodup_nil, List.not_mem_nil _⟩

/-- C5, witness: on the sample gateway, whose pages repeat `UC1` and contain an
item without identifier, the candidates are `UC1` and `UC2`, once each. -/
theorem candidates_nodup_witness : ["UC1", "UC2"].Nodup ∧ "" ∉ ["UC1", "UC2"] :=
  candidates_nodup sampleWorld "3c" { ids := ["UC1", "UC2"], calls := 6 } sample_pool

/-- C6 fails as stated: with pages of fifty results each, none listed twice, the
pool builder issues eight searches and returns 400 identifiers, more than the
cap of 380. -/
theorem candidates_exceed_cap :
    (∀ n q t, (fullPagesWorld.search n q t).items.length ≤ 50) ∧
    ∃ pool, buildPool fullPagesWorld "3c" = .ok pool ∧ pool.ids.length = 400 ∧
      ¬ pool.ids.length ≤ 380 := by
  refine ⟨fullPages_items_length, _, fullPages_buildPool, ?_, ?_⟩
  · exact sampleIds_length _
  · show ¬ (sampleIds (50 * 8)).length ≤ 380
    rw [sampleIds_length]
    decide

/-- C6 (as the code has it): when every search page holds at most 50 results the
candidate list has at most 429 identifiers, since the cap of 380 is tested only
after a whole page has been added to the set. -/
theorem candidates_length_le (w : World) (cat : String) (pool : PoolState)
    (hw : ∀ n q t, (w.search n q t).items.length ≤ 50)
    (h : buildPool w cat = .ok pool) : pool.ids.length ≤ 429 := by
  unfold buildPool at h
  split at h
  · exact absurd h (by simp)
  · have := searchQueries_length w 50 hw _ _ _ h (by simp [maxCandidates])
    simp only [maxCandidates] at this
    omega

/-- C6, witness of the amended bound on the same gateway. -/
theorem candidates_length_le_witness : (sampleIds (50 * 8)).length ≤ 429 :=
  candidates_length_le fullPagesWorld "3c" { ids := sampleIds (50 * 8), calls := 8 }
    fullPages_items_length fullPages_buildPool


/-! ## Theorems: the worker pool -/

theorem resume_transition (w : World) (p : Params) (st : EnrichState) (i : Nat) :
    Transition w p st i (resume w p st i) := by
  unfold resume
  split_ifs with hr
  · exact .idle (Or.inl hr)
  · have hr0 : st.rejected = none := by
      cases h : st.rejected with
      | none => rfl
      | some e => simp [h] at hr
    split
    · rename_i ch hg
      split
      · rename_i e he
        exact .playlistError ch e hr0 hg he
      · rename_i items hi
        split
        · rename_i e he
          exact .categoryError ch items e hr0 hg hi he
        · rename_i ha
          exact .noVideos ch items hr0 hg hi ha
        · rename_i ha
          exact .droppedByLang ch items hr0 hg hi ha
        · rename_i ha
          exact .droppedByCat ch items hr0 hg hi ha
        · rename_i pick cm ha
          exact .fetchStats ch items pick cm hr0 hg hi ha
    · rename_i ch pick cm hg
      split
      · rename_i e he
        exact .statsError ch pick cm e hr0 hg he
      · rename_i stats hs
        split
        · rename_i ha
          exact .tooFewStats ch pick cm stats hr0 hg hs ha
        · rename_i sc ha
          exact .scored ch pick cm stats sc hr0 hg hs ha
    · rename_i h1 h2
      cases hg : st.workers.get? i with
      | none => exact .idle (Or.inr (Or.inl hg))
      | some s =>
        cases s with
        | awaitingPlaylist ch => exact absurd hg (h1 ch)
        | awaitingStats ch pick cm => exact absurd hg (h2 ch pick cm)
        | finished => exact .idle (Or.inr (Or.inr hg))

/-! ### The loop head -/

theorem workerLoop_weight (q : List Channel) :
    ∀ c, (workerLoop q c).1.weight + 2 * (workerLoop q c).2.1.length ≤ 2 * q.length := by
  induction q with
  | nil => intro c; simp [workerLoop, WorkerState.weight]
  | cons ch rest ih =>
    intro c
    simp only [workerLoop]
    split_ifs
    · have := ih { c with checked := c.checked + 1 }
      simp only [List.length_cons]
      omega
    · simp only [WorkerState.weight, List.length_cons]
      omega

theorem workerLoop_busy (q : List Channel) :
    ∀ c, (workerLoop q c).1.busy + (workerLoop q c).2.1.length ≤ q.length := by
  induction q with
  | nil => intro c; simp [workerLoop, WorkerState.busy]
  | cons ch rest ih =>
    intro c
    simp only [workerLoop]
    split_ifs
    · have := ih { c with checked := c.checked + 1 }
      simp only [List.length_cons]
      omega
    · simp only [WorkerState.busy, List.length_cons]
      omega

theorem workerLoop_finished (q : List Channel) :
    ∀ c, (workerLoop q c).1 = .finished → (workerLoop q c).2.1 = [] := by
  induction q with
  | nil => intro c _; simp [workerLoop]
  | cons ch rest ih =>
    intro c
    simp only [workerLoop]
    split_ifs
    · exact ih _
    · intro h; exact absurd h (by simp)

theorem workerLoop_nil_queue (c : DebugCounters) : (workerLoop [] c).2.1 = [] := by
  simp [workerLoop]

theorem workerLoop_suffix (q : List Channel) :
    ∀ c, (workerLoop q c).2.1 <:+ q := by
  induction q with
  | nil => intro c; simp [workerLoop]
  | cons ch rest ih =>
    intro c
    simp only [workerLoop]
    split_ifs
    · exact (ih _).trans (List.suffix_cons ch rest)
    · exact List.suffix_cons ch rest

theorem workerLoop_not_awaitingStats (q : List Channel) :
    ∀ c ch pick cm, (workerLoop q c).1 ≠ .awaitingStats ch pick cm := by
  induction q with
  | nil => intro c ch pick cm; simp [workerLoop]
  | cons x rest ih =>
    intro c ch pick cm
    simp only [workerLoop]
    split_ifs
    · exact ih _ ch pick cm
    · simp

/-- A queued channel with an uploads playlist is either still queued after the
loop head ran, or the worker now waits for its uploads. -/
theorem workerLoop_mem (q : List Channel) (bad : Channel) (hb : bad.uploadsPlaylistId ≠ "") :
    ∀ c, bad ∈ q → bad ∈ (workerLoop q c).2.1 ∨ (workerLoop q c).1 = .awaitingPlaylist bad := by
  induction q with
  | nil => intro c h; simp at h
  | cons ch rest ih =>
    intro c h
    simp only [workerLoop]
    split_ifs with hu
    · rcases List.mem_cons.mp h with h | h
      · subst h; exact absurd hu hb
      · exact ih _ h
    · rcases List.mem_cons.mp h with h | h
      · subst h; exact Or.inr rfl
      · exact Or.inl h

/-- Every channel the loop head leaves to the worker has an uploads playlist. -/
theorem workerLoop_awaiting (q : List Channel) :
    ∀ c ch, (workerLoop q c).1 = .awaitingPlaylist ch →
      ch ∈ q ∧ ch.uploadsPlaylistId ≠ "" := by
  induction q with
  | nil => intro c ch h; simp [workerLoop] at h
  | cons x rest ih =>
    intro c ch
    simp only [workerLoop]
    split_ifs with hu
    · intro h
      have := ih _ ch h
      exact ⟨List.mem_cons_of_mem _ this.1, this.2⟩
    · intro h
      injection h with h
      subst h
      exact ⟨List.mem_cons_self _ _, hu⟩

theorem sum_map_set {α : Type} (f : α → Nat) (l : List α) :
    ∀ (i : Nat) (x y : α), l.get? i = some y →
      ((l.set i x).map f).sum + f y = (l.map f).sum + f x := by
  induction l with
  | nil => intro i x y h; simp at h
  | cons a l ih =>
    intro i x y h
    cases i with
    | zero =>
      simp only [List.get?_cons_zero, Option.some.injEq] at h
      subst h
      simp only [List.set_cons_zero, List.map_cons, List.sum_cons]
      omega
    | succ i =>
      simp only [List.get?_cons_succ] at h
      have := ih i x y h
      simp only [List.set_cons_succ, List.map_cons, List.sum_cons]
      omega

theorem mem_set_cases {α : Type} (l : List α) :
    ∀ (i : Nat) (x y z : α), l.get? i = some y → z ∈ l.set i x → z = x ∨ z ∈ l := by
  intro i x y z _ hz
  rcases List.mem_or_eq_of_mem_set hz with h | h
  · exact Or.inr h
  · exact Or.inl h

theorem mem_set_keep {α : Type} (l : List α) :
    ∀ (i : Nat) (x y z : α), l.get? i = some y → z ∈ l → z ≠ y → z ∈ l.set i x := by
  induction l with
  | nil => intro i x y z h; simp at h
  | cons a l ih =>
    intro i x y z h hz hne
    cases i with
    | zero =>
      simp only [List.get?_cons_zero, Option.some.injEq] at h
      subst h
      rcases List.mem_cons.mp hz with h | h
      · exact absurd h hne
      · simp [h]
    | succ i =>
      simp only [List.get?_cons_succ] at h
      rcases List.mem_cons.mp hz with h1 | h1
      · simp [h1]
      · simp only [List.set_cons_succ]
        exact List.mem_cons_of_mem _ (ih i x y z h h1 hne)

theorem mem_set_self {α : Type} (l : List α) :
    ∀ (i : Nat) (x y : α), l.get? i = some y → x ∈ l.set i x := by
  induction l with
  | nil => intro i x y h; simp at h
  | cons a l ih =>
    intro i x y h
    cases i with
    | zero => simp
    | succ i =>
      simp only [List.get?_cons_succ] at h
      simp only [List.set_cons_succ]
      exact List.mem_cons_of_mem _ (ih i x y h)

/-! ### Induction over a run of the pool -/

theorem startPool_induction (P : EnrichState → Prop) (rough : List Channel)
    (h0 : P { queue := rough, scored := [], counters := ⟨0, 0, 0, 0⟩, workers := [],
              rejected := none })
    (hstart : ∀ st, P st → P (startWorker st)) : P (startPool rough) := by
  unfold startPool
  generalize CONCURRENCY = n
  induction n with
  | zero => exact h0
  | succ n ih =>
    rw [Function.iterate_succ_apply']
    exact hstart _ ih

theorem drain_induction (P : EnrichState → Prop) (w : World) (p : Params)
    (hstep : ∀ st i, P st → P (resume w p st i)) (fuel : Nat) :
    ∀ st, P st → P (drain w p fuel st) := by
  induction fuel with
  | zero => intro st h; exact h
  | succ n ih =>
    intro st h
    simp only [drain]
    split
    · exact h
    · exact ih _ (hstep _ _ h)

theorem foldl_resume_induction (P : EnrichState → Prop) (w : World) (p : Params)
    (hstep : ∀ st i, P st → P (resume w p st i)) (schedule : List Nat) :
    ∀ st, P st → P (schedule.foldl (resume w p) st) := by
  induction schedule with
  | nil => intro st h; exact h
  | cons i rest ih =>
    intro st h
    exact ih _ (hstep _ _ h)

/-- An invariant of the initial state, of the start of a worker and of every
scheduling step holds when `Promise.all` settles. -/
theorem runWorkers_induction (P : EnrichState → Prop) (w : World) (p : Params)
    (schedule : List Nat) (rough : List Channel)
    (h0 : P { queue := rough, scored := [], counters := ⟨0, 0, 0, 0⟩, workers := [],
              rejected := none })
    (hstart : ∀ st, P st → P (startWorker st))
    (hstep : ∀ st i, P st → P (resume w p st i)) :
    P (runWorkers w p schedule rough) :=
  drain_induction P w p hstep _ _
    (foldl_resume_induction P w p hstep schedule _ (startPool_induction P rough h0 hstart))

/-! ### Every channel is accounted for at most once -/

theorem continueLoop_load (st : EnrichState) (i : Nat) (c : DebugCounters) (y : WorkerState)
    (hy : st.workers.get? i = some y) :
    (continueLoop st i c).load + y.busy ≤ st.load := by
  have h1 := sum_map_set WorkerState.busy st.workers i (workerLoop st.queue c).1 y hy
  have h2 := workerLoop_busy st.queue c
  simp only [continueLoop, EnrichState.load]
  omega

theorem startWorker_load (st : EnrichState) : (startWorker st).load ≤ st.load := by
  have h2 := workerLoop_busy st.queue st.counters
  simp only [startWorker, EnrichState.load, List.map_append, List.sum_append, List.map_cons,
    List.map_nil, List.sum_cons, List.sum_nil]
  omega

theorem transition_load {w : World} {p : Params} {st st1 : EnrichState} {i : Nat}
    (h : Transition w p st i st1) : st1.load ≤ st.load := by
  cases h with
  | idle _ => exact le_refl _
  | playlistError ch e _ _ _ => exact le_refl _
  | categoryError ch items e _ _ _ _ => exact le_refl _
  | statsError ch pick cm e _ _ _ => exact le_refl _
  | noVideos ch items _ hg _ _ =>
    have := continueLoop_load st i st.counters.addNoVideos _ hg; omega
  | droppedByLang ch items _ hg _ _ =>
    have := continueLoop_load st i st.counters.addDroppedByLang _ hg; omega
  | droppedByCat ch items _ hg _ _ =>
    have := continueLoop_load st i st.counters.addDroppedByCat _ hg; omega
  | tooFewStats ch pick cm stats _ hg _ _ =>
    have := continueLoop_load st i st.counters.addNoVideos _ hg; omega
  | fetchStats ch items pick cm _ hg _ _ =>
    have h1 := sum_map_set WorkerState.busy st.workers i (.awaitingStats ch pick cm) _ hg
    simp only [EnrichState.load, WorkerState.busy] at h1 ⊢
    omega
  | scored ch pick cm stats sc _ hg _ _ =>
    have h1 := continueLoop_load { st with scored := st.scored ++ [sc] } i st.counters _ hg
    simp only [EnrichState.load, WorkerState.busy, List.length_append, List.length_singleton]
      at h1 ⊢
    omega

/-- The scored array never holds more entries than there are rough-ranked
channels. -/
theorem runWorkers_scored_le (w : World) (p : Params) (schedule : List Nat)
    (rough : List Channel) :
    (runWorkers w p schedule rough).scored.length ≤ rough.length := by
  have h : (runWorkers w p schedule rough).load ≤ rough.length :=
    runWorkers_induction (fun st => st.load ≤ rough.length) w p schedule rough
      (by simp [EnrichState.load])
      (fun st h => le_trans (startWorker_load st) h)
      (fun st i h => le_trans (transition_load (resume_transition w p st i)) h)
  simp only [EnrichState.load] at h
  omega

/-! ### Every run of the pool settles -/

theorem continueLoop_measure (st : EnrichState) (i : Nat) (c : DebugCounters) (y : WorkerState)
    (hy : st.workers.get? i = some y) :
    (continueLoop st i c).measure + y.weight ≤ st.measure := by
  have h1 := sum_map_set WorkerState.weight st.workers i (workerLoop st.queue c).1 y hy
  have h2 := workerLoop_weight st.queue c
  simp only [continueLoop, EnrichState.measure]
  omega

theorem startWorker_measure (st : EnrichState) : (startWorker st).measure ≤ st.measure := by
  have h2 := workerLoop_weight st.queue st.counters
  simp only [startWorker, EnrichState.measure, List.map_append, List.sum_append, List.map_cons,
    List.map_nil, List.sum_cons, List.sum_nil]
  omega

/-- A scheduling step of a worker that has not returned rejects the run or
lowers the measure. -/
theorem transition_progress {w : World} {p : Params} {st st1 : EnrichState} {i : Nat}
    {s : WorkerState} (h : Transition w p st i st1) (hr : st.rejected = none)
    (hs : st.workers.get? i = some s) (hne : s ≠ .finished) :
    st1.rejected.isSome ∨ st1.measure < st.measure := by
  cases h with
  | idle h2 =>
    exfalso
    rcases h2 with h2 | h2 | h2
    · rw [hr] at h2; exact absurd h2 (by simp)
    · rw [h2] at hs; exact absurd hs (by simp)
    · rw [h2] at hs; injection hs with hs; exact hne hs.symm
  | playlistError ch e _ _ _ => exact Or.inl rfl
  | categoryError ch items e _ _ _ _ => exact Or.inl rfl
  | statsError ch pick cm e _ _ _ => exact Or.inl rfl
  | noVideos ch items _ hg _ _ =>
    have := continueLoop_measure st i st.counters.addNoVideos _ hg
    simp only [WorkerState.weight] at this
    exact Or.inr (by omega)
  | droppedByLang ch items _ hg _ _ =>
    have := continueLoop_measure st i st.counters.addDroppedByLang _ hg
    simp only [WorkerState.weight] at this
    exact Or.inr (by omega)
  | droppedByCat ch items _ hg _ _ =>
    have := continueLoop_measure st i st.counters.addDroppedByCat _ hg
    simp only [WorkerState.weight] at this
    exact Or.inr (by omega)
  | tooFewStats ch pick cm stats _ hg _ _ =>
    have := continueLoop_measure st i st.counters.addNoVideos _ hg
    simp only [WorkerState.weight] at this
    exact Or.inr (by omega)
  | fetchStats ch items pick cm _ hg _ _ =>
    have h1 := sum_map_set WorkerState.weight st.workers i (.awaitingStats ch pick cm) _ hg
    simp only [WorkerState.weight] at h1
    refine Or.inr ?_
    simp only [EnrichState.measure]
    omega
  | scored ch pick cm stats sc _ hg _ _ =>
    have h1 := continueLoop_measure { st with scored := st.scored ++ [sc] } i st.counters _ hg
    simp only [WorkerState.weight, EnrichState.measure] at h1 ⊢
    exact Or.inr (by omega)

theorem transition_measure_le {w : World} {p : Params} {st st1 : EnrichState} {i : Nat}
    (h : Transition w p st i st1) : st1.measure ≤ st.measure := by
  cases h with
  | idle _ => exact le_refl _
  | playlistError ch e _ _ _ => exact le_refl _
  | categoryError ch items e _ _ _ _ => exact le_refl _
  | statsError ch pick cm e _ _ _ => exact le_refl _
  | noVideos ch items _ hg _ _ =>
    have := continueLoop_measure st i st.counters.addNoVideos _ hg; omega
  | droppedByLang ch items _ hg _ _ =>
    have := continueLoop_measure st i st.counters.addDroppedByLang _ hg; omega
  | droppedByCat ch items _ hg _ _ =>
    have := continueLoop_measure st i st.counters.addDroppedByCat _ hg; omega
  | tooFewStats ch pick cm stats _ hg _ _ =>
    have := continueLoop_measure st i st.counters.addNoVideos _ hg; omega
  | fetchStats ch items pick cm _ hg _ _ =>
    have h1 := sum_map_set WorkerState.weight st.workers i (.awaitingStats ch pick cm) _ hg
    simp only [WorkerState.weight] at h1
    simp only [EnrichState.measure]
    omega
  | scored ch pick cm stats sc _ hg _ _ =>
    have h1 := continueLoop_measure { st with scored := st.scored ++ [sc] } i st.counters _ hg
    simp only [EnrichState.measure] at h1 ⊢
    omega

theorem transition_rejected {w : World} {p : Params} {st st1 : EnrichState} {i : Nat}
    (h : Transition w p st i st1) (hr : st.rejected.isSome) : st1 = st := by
  have hne : st.rejected ≠ none := by
    intro h0; rw [h0] at hr; exact absurd hr (by simp)
  cases h with
  | idle _ => rfl
  | playlistError ch e h0 _ _ => exact absurd h0 hne
  | categoryError ch items e h0 _ _ _ => exact absurd h0 hne
  | statsError ch pick cm e h0 _ _ => exact absurd h0 hne
  | noVideos ch items h0 _ _ _ => exact absurd h0 hne
  | droppedByLang ch items h0 _ _ _ => exact absurd h0 hne
  | droppedByCat ch items h0 _ _ _ => exact absurd h0 hne
  | tooFewStats ch pick cm stats h0 _ _ _ => exact absurd h0 hne
  | fetchStats ch items pick cm h0 _ _ _ => exact absurd h0 hne
  | scored ch pick cm stats sc h0 _ _ _ => exact absurd h0 hne

theorem firstPending_some {workers : List WorkerState} {i : Nat}
    (h : firstPending workers = some i) :
    ∃ s, workers.get? i = some s ∧ s ≠ .finished := by
  unfold firstPending at h
  rw [List.findIdx?_eq_some_iff_getElem] at h
  obtain ⟨hlt, hp, -⟩ := h
  refine ⟨workers[i], ?_, by simpa using hp⟩
  rw [List.get?_eq_getElem?, List.getElem?_eq_getElem hlt]

theorem firstPending_none {workers : List WorkerState} (h : firstPending workers = none) :
    ∀ s ∈ workers, s = .finished := by
  unfold firstPending at h
  rw [List.findIdx?_eq_none_iff] at h
  intro s hs
  have := h s hs
  simpa using this

theorem rejected_resume (w : World) (p : Params) (st : EnrichState) (i : Nat)
    (h : st.rejected.isSome) : (resume w p st i).rejected.isSome := by
  rw [transition_rejected (resume_transition w p st i) h]; exact h

theorem rejected_drain (w : World) (p : Params) (fuel : Nat) (st : EnrichState)
    (h : st.rejected.isSome) : (drain w p fuel st).rejected.isSome :=
  drain_induction (fun st => st.rejected.isSome) w p (rejected_resume w p) fuel st h

theorem drain_settled (w : World) (p : Params) (fuel : Nat) :
    ∀ st, st.measure ≤ fuel → Settled (drain w p fuel st) := by
  induction fuel with
  | zero =>
    intro st hm
    simp only [drain]
    right
    intro s hs
    have h0 : (st.workers.map WorkerState.weight).sum = 0 := by
      simp only [EnrichState.measure] at hm; omega
    have := List.sum_eq_zero_iff.mp h0 s.weight (List.mem_map_of_mem _ hs)
    cases s <;> simp_all [WorkerState.weight]
  | succ n ih =>
    intro st hm
    simp only [drain]
    split
    · rename_i hnone
      exact Or.inr (firstPending_none hnone)
    · rename_i i hi
      obtain ⟨s, hs, hne⟩ := firstPending_some hi
      have ht := resume_transition w p st i
      by_cases hr : st.rejected.isSome
      · have hst := transition_rejected ht hr
        rw [hst]
        exact Or.inl (rejected_drain w p n st hr)
      · have hr0 : st.rejected = none := by
          cases h : st.rejected with
          | none => rfl
          | some e => simp [h] at hr
        rcases transition_progress ht hr0 hs hne with h1 | h1
        · exact Or.inl (rejected_drain w p n _ h1)
        · exact ih _ (by omega)

theorem startPool_measure (rough : List Channel) :
    (startPool rough).measure ≤ 2 * rough.length :=
  startPool_induction (fun st => st.measure ≤ 2 * rough.length) rough
    (by simp [EnrichState.measure])
    (fun st h => le_trans (startWorker_measure st) h)

/-- The promise of `Promise.all` settles on every run: at the end the run is
rejected or all eight workers have returned. -/
theorem runWorkers_settled (w : World) (p : Params) (schedule : List Nat)
    (rough : List Channel) : Settled (runWorkers w p schedule rough) := by
  unfold runWorkers
  apply drain_settled
  have h := foldl_resume_induction (fun st => st.measure ≤ 2 * rough.length) w p
    (fun st i h => le_trans (transition_measure_le (resume_transition w p st i)) h)
    schedule _ (startPool_measure rough)
  simp only at h
  omega

theorem continueLoop_workers_length (st : EnrichState) (i : Nat) (c : DebugCounters) :
    (continueLoop st i c).workers.length = st.workers.length := by
  simp [continueLoop]

theorem transition_workers_length {w : World} {p : Params} {st st1 : EnrichState} {i : Nat}
    (h : Transition w p st i st1) : st1.workers.length = st.workers.length := by
  cases h <;> simp [continueLoop, reject]

theorem runWorkers_workers_ne_nil (w : World) (p : Params) (schedule : List Nat)
    (rough : List Channel) : (runWorkers w p schedule rough).workers ≠ [] := by
  have h0 : (startPool rough).workers ≠ [] := by
    unfold startPool
    rw [show CONCURRENCY = 7 + 1 from rfl, Function.iterate_succ_apply']
    simp [startWorker]
  have hstep : ∀ st i, st.workers ≠ [] → (resume w p st i).workers ≠ [] := by
    intro st i h hnil
    have h1 := transition_workers_length (resume_transition w p st i)
    rw [hnil] at h1
    exact h (List.length_eq_zero.mp h1.symm)
  exact drain_induction (fun st => st.workers ≠ []) w p hstep _ _
    (foldl_resume_induction (fun st => st.workers ≠ []) w p hstep schedule _ h0)

/-! ### Once a worker has returned the queue is empty -/

theorem continueLoop_finished (st : EnrichState) (i : Nat) (c : DebugCounters)
    (y : WorkerState) (hy : st.workers.get? i = some y)
    (h : .finished ∈ st.workers → st.queue = [])
    (hf : .finished ∈ (continueLoop st i c).workers) : (continueLoop st i c).queue = [] := by
  simp only [continueLoop] at hf ⊢
  rcases mem_set_cases st.workers i _ y _ hy hf with h1 | h1
  · exact workerLoop_finished st.queue c h1.symm
  · rw [h h1]; exact workerLoop_nil_queue c

theorem transition_finished {w : World} {p : Params} {st st1 : EnrichState} {i : Nat}
    (ht : Transition w p st i st1) (h : .finished ∈ st.workers → st.queue = []) :
    .finished ∈ st1.workers → st1.queue = [] := by
  cases ht with
  | idle _ => exact h
  | playlistError ch e _ _ _ => exact h
  | categoryError ch items e _ _ _ _ => exact h
  | statsError ch pick cm e _ _ _ => exact h
  | noVideos ch items _ hg _ _ => exact continueLoop_finished st i _ _ hg h
  | droppedByLang ch items _ hg _ _ => exact continueLoop_finished st i _ _ hg h
  | droppedByCat ch items _ hg _ _ => exact continueLoop_finished st i _ _ hg h
  | tooFewStats ch pick cm stats _ hg _ _ => exact continueLoop_finished st i _ _ hg h
  | fetchStats ch items pick cm _ hg _ _ =>
    intro hf
    rcases mem_set_cases st.workers i _ _ _ hg hf with h1 | h1
    · exact absurd h1 (by simp)
    · exact h h1
  | scored ch pick cm stats sc _ hg _ _ =>
    exact continueLoop_finished { st with scored := st.scored ++ [sc] } i _ _ hg h

theorem startWorker_finished (st : EnrichState) (h : .finished ∈ st.workers → st.queue = [])
    (hf : .finished ∈ (startWorker st).workers) : (startWorker st).queue = [] := by
  simp only [startWorker, List.mem_append, List.mem_singleton] at hf ⊢
  rcases hf with h1 | h1
  · rw [h h1]; exact workerLoop_nil_queue _
  · exact workerLoop_finished st.queue st.counters h1.symm

/-- When every worker has returned nothing is left in the queue. -/
theorem runWorkers_queue_nil (w : World) (p : Params) (schedule : List Nat)
    (rough : List Channel)
    (h : ∀ s ∈ (runWorkers w p schedule rough).workers, s = .finished) :
    (runWorkers w p schedule rough).queue = [] := by
  have hinv := runWorkers_induction (fun st => .finished ∈ st.workers → st.queue = []) w p
    schedule rough (by simp) startWorker_finished
    (fun st i h => transition_finished (resume_transition w p st i) h)
  obtain ⟨s, hs⟩ := List.exists_mem_of_ne_nil _ (runWorkers_workers_ne_nil w p schedule rough)
  exact hinv (h s hs ▸ hs)

/-! ### A failing uploads fetch rejects the run -/

theorem ytPlaylistItems_error {w : World} {pid : String}
    (h : (w.playlistItems pid).ok = false) :
    ytPlaylistItems w pid = .error (strOr (w.playlistItems pid).errorMessage
      "playlistItems.list failed") := by
  simp [ytPlaylistItems, h]

theorem continueLoop_outstanding (bad : Channel) (st : EnrichState) (i : Nat)
    (c : DebugCounters) (y : WorkerState) (hy : st.workers.get? i = some y)
    (hne : WorkerState.awaitingPlaylist bad ≠ y) (hb : bad.uploadsPlaylistId ≠ "")
    (h : Outstanding bad st) : Outstanding bad (continueLoop st i c) := by
  rcases h with h | h | h
  · exact Or.inl h
  · rcases workerLoop_mem st.queue bad hb c h with h1 | h1
    · exact Or.inr (Or.inl h1)
    · refine Or.inr (Or.inr ?_)
      simp only [continueLoop]
      rw [h1]
      exact mem_set_self st.workers i _ y hy
  · refine Or.inr (Or.inr ?_)
    simp only [continueLoop]
    exact mem_set_keep st.workers i _ y _ hy h hne

theorem transition_outstanding {w : World} {p : Params} {st st1 : EnrichState} {i : Nat}
    (bad : Channel) (ht : Transition w p st i st1) (hb : bad.uploadsPlaylistId ≠ "")
    (hfail : (w.playlistItems bad.uploadsPlaylistId).ok = false)
    (h : Outstanding bad st) : Outstanding bad st1 := by
  have hok : ∀ ch items, ytPlaylistItems w ch.uploadsPlaylistId = .ok items →
      WorkerState.awaitingPlaylist bad ≠ .awaitingPlaylist ch := by
    intro ch items hi heq
    injection heq with heq
    subst heq
    rw [ytPlaylistItems_error hfail] at hi
    exact absurd hi (by simp)
  cases ht with
  | idle _ => exact h
  | playlistError ch e _ _ _ => exact Or.inl rfl
  | categoryError ch items e _ _ _ _ => exact Or.inl rfl
  | statsError ch pick cm e _ _ _ => exact Or.inl rfl
  | noVideos ch items _ hg hi _ =>
    exact continueLoop_outstanding bad st i _ _ hg (hok ch items hi) hb h
  | droppedByLang ch items _ hg hi _ =>
    exact continueLoop_outstanding bad st i _ _ hg (hok ch items hi) hb h
  | droppedByCat ch items _ hg hi _ =>
    exact continueLoop_outstanding bad st i _ _ hg (hok ch items hi) hb h
  | tooFewStats ch pick cm stats _ hg _ _ =>
    exact continueLoop_outstanding bad st i _ _ hg (by simp) hb h
  | fetchStats ch items pick cm _ hg hi _ =>
    rcases h with h | h | h
    · exact Or.inl h
    · exact Or.inr (Or.inl h)
    · exact Or.inr (Or.inr (mem_set_keep st.workers i _ _ _ hg h (hok ch items hi)))
  | scored ch pick cm stats sc _ hg _ _ =>
    exact continueLoop_outstanding bad { st with scored := st.scored ++ [sc] } i _ _ hg
      (by simp) hb h

theorem startWorker_outstanding (bad : Channel) (st : EnrichState)
    (hb : bad.uploadsPlaylistId ≠ "") (h : Outstanding bad st) :
    Outstanding bad (startWorker st) := by
  rcases h with h | h | h
  · exact Or.inl h
  · rcases workerLoop_mem st.queue bad hb st.counters h with h1 | h1
    · exact Or.inr (Or.inl h1)
    · refine Or.inr (Or.inr ?_)
      simp only [startWorker]
      rw [h1]
      simp
  · refine Or.inr (Or.inr ?_)
    simp only [startWorker]
    exact List.mem_append_left _ h

/-- A rough-ranked channel with an uploads playlist whose fetch fails rejects
the enrichment stage, whatever the order of the responses. -/
theorem runWorkers_rejected (w : World) (p : Params) (schedule : List Nat)
    (rough : List Channel) (bad : Channel) (hmem : bad ∈ rough)
    (hb : bad.uploadsPlaylistId ≠ "")
    (hfail : (w.playlistItems bad.uploadsPlaylistId).ok = false) :
    (runWorkers w p schedule rough).rejected.isSome := by
  have hout : Outstanding bad (runWorkers w p schedule rough) :=
    runWorkers_induction (Outstanding bad) w p schedule rough (Or.inr (Or.inl hmem))
      (fun st h => startWorker_outstanding bad st hb h)
      (fun st i h => transition_outstanding bad (resume_transition w p st i) hb hfail h)
  rcases runWorkers_settled w p schedule rough with hs | hs
  · exact hs
  · have hq := runWorkers_queue_nil w p schedule rough hs
    rcases hout with h | h | h
    · exact h
    · rw [hq] at h; exact absurd h (by simp)
    · exact absurd (hs _ h) (by simp)

/-! ## Theorems: per-channel failures -/

/-- C7 (as the code has it): if the uploads fetch fails for a channel of the
rough-ranked list that has an uploads playlist, `buildTop100` fails, for every
order in which the responses arrive; no result is returned. -/
theorem uploads_failure_aborts (w : World) (p : Params) (schedule : List Nat)
    (pool : PoolState) (channelsMap : List (String × Channel)) (ch : Channel)
    (hpool : buildPool w p.cat = .ok pool)
    (hmap : getChannels w pool.ids = .ok channelsMap)
    (hmem : ch ∈ roughRank (filterChannels w p channelsMap pool.ids))
    (hup : ch.uploadsPlaylistId ≠ "")
    (hfail : (w.playlistItems ch.uploadsPlaylistId).ok = false) :
    ∃ e, buildTop100 w p schedule = .error e := by
  have hr := runWorkers_rejected w p schedule _ ch hmem hup hfail
  unfold buildTop100
  rw [hpool]
  simp only
  rw [hmap]
  simp only
  cases hrej : (runWorkers w p schedule
      (roughRank (filterChannels w p channelsMap pool.ids))).rejected with
  | none => rw [hrej] at hr; exact absurd hr (by simp)
  | some e => exact ⟨e, rfl⟩

/-! ## Theorems: ranking and result assembly -/

/-- The shape of a successful run of `buildTop100`. -/
theorem buildTop100_ok {w : World} {p : Params} {schedule : List Nat} {out : Output}
    (h : buildTop100 w p schedule = .ok out) :
    ∃ pool channelsMap,
      buildPool w p.cat = .ok pool ∧ getChannels w pool.ids = .ok channelsMap ∧
      (runWorkers w p schedule
        (roughRank (filterChannels w p channelsMap pool.ids))).rejected = none ∧
      out =
        { generatedAt := w.generatedAt
          meta :=
            { params := p
              candidateChannels := pool.ids.length
              afterChannelFilter := (filterChannels w p channelsMap pool.ids).length
              roughScored := (roughRank (filterChannels w p channelsMap pool.ids)).length
              scoredCount :=
                ((runWorkers w p schedule
                  (roughRank (filterChannels w p channelsMap pool.ids))).scored.insertionSort
                    fun a b => b.score ≤ a.score).length
              debugCounters :=
                (runWorkers w p schedule
                  (roughRank (filterChannels w p channelsMap pool.ids))).counters }
          items :=
            ((runWorkers w p schedule
              (roughRank (filterChannels w p channelsMap pool.ids))).scored.insertionSort
                fun a b => b.score ≤ a.score).take 100 } := by
  unfold buildTop100 at h
  split at h
  · exact absurd h (by simp)
  · rename_i pool hpool
    simp only at h
    split at h
    · exact absurd h (by simp)
    · rename_i channelsMap hmap
      split at h
      · exact absurd h (by simp)
      · rename_i hrej
        injection h with h
        exact ⟨pool, channelsMap, hpool, hmap, hrej, h.symm⟩

theorem filterChannels_length_le (w : World) (p : Params) (channelsMap : List (String × Channel))
    (candidates : List String) :
    (filterChannels w p channelsMap candidates).length ≤ candidates.length :=
  List.length_filterMap_le _ _

theorem roughRank_length (l : List Channel) : (roughRank l).length = min 220 l.length := by
  simp [roughRank, List.length_take, List.length_insertionSort]

theorem pairwise_index {α : Type} (r : α → α → Prop) (l : List α) (h : l.Pairwise r) :
    ∀ i j a b, i < j → l.get? i = some a → l.get? j = some b → r a b := by
  induction h with
  | nil => intro i j a b _ ha; simp at ha
  | cons hx _ ih =>
    intro i j a b hij ha hb
    cases j with
    | zero => omega
    | succ j =>
      simp only [List.get?_cons_succ] at hb
      cases i with
      | zero =>
        simp only [List.get?_cons_zero, Option.some.injEq] at ha
        subst ha
        exact hx b (List.get?_mem hb)
      | succ i =>
        simp only [List.get?_cons_succ] at ha
        exact ih i j a b (by omega) ha hb

/-- C4: on every successful run the output has at most 100 items, no more items
than scored channels, and the funnel counters decrease: scoredCount ≤
roughScored ≤ afterChannelFilter ≤ candidateChannels. -/
theorem funnel_counts (w : World) (p : Params) (schedule : List Nat) (out : Output)
    (h : buildTop100 w p schedule = .ok out) :
    out.items.length ≤ 100 ∧ out.items.length ≤ out.meta.scoredCount ∧
    out.meta.scoredCount ≤ out.meta.roughScored ∧
    out.meta.roughScored ≤ out.meta.afterChannelFilter ∧
    out.meta.afterChannelFilter ≤ out.meta.candidateChannels := by
  obtain ⟨pool, channelsMap, -, -, -, rfl⟩ := buildTop100_ok h
  have h1 := runWorkers_scored_le w p schedule
    (roughRank (filterChannels w p channelsMap pool.ids))
  have h2 := roughRank_length (filterChannels w p channelsMap pool.ids)
  have h3 := filterChannels_length_le w p channelsMap pool.ids
  simp only [List.length_take, List.length_insertionSort]
  omega

/-- C3: on every successful run the items are the first min(100, scoredCount)
entries of a descending-score ordering of the scored array: the items are a
prefix of a permutation of the scored array that is sorted by descending score,
a later item never has a greater score than an earlier one, and no scored
channel left out has a greater score than an item. -/
theorem items_top_sorted (w : World) (p : Params) (schedule : List Nat) (out : Output)
    (h : buildTop100 w p schedule = .ok out) :
    ∃ (pool : PoolState) (channelsMap : List (String × Channel))
        (sorted : List ScoredChannel),
      buildPool w p.cat = .ok pool ∧ getChannels w pool.ids = .ok channelsMap ∧
      sorted.Perm (runWorkers w p schedule
        (roughRank (filterChannels w p channelsMap pool.ids))).scored ∧
      sorted.Sorted (fun a b => b.score ≤ a.score) ∧
      out.meta.scoredCount = sorted.length ∧
      out.items = sorted.take (min 100 out.meta.scoredCount) ∧
      out.items.length = min 100 out.meta.scoredCount ∧
      (∀ i j a b, i < j → out.items.get? i = some a → out.items.get? j = some b →
        b.score ≤ a.score) ∧
      (∀ x ∈ sorted.drop (min 100 out.meta.scoredCount), ∀ y ∈ out.items,
        x.score ≤ y.score) := by
  obtain ⟨pool, channelsMap, hpool, hmap, -, rfl⟩ := buildTop100_ok h
  generalize hs : (runWorkers w p schedule
    (roughRank (filterChannels w p channelsMap pool.ids))).scored = scored
  have hsorted : (scored.insertionSort fun a b => b.score ≤ a.score).Sorted
      (fun a b => b.score ≤ a.score) := List.sorted_insertionSort _ _
  have hmin : (scored.insertionSort fun a b => b.score ≤ a.score).take
        (min 100 (scored.insertionSort fun a b => b.score ≤ a.score).length)
      = (scored.insertionSort fun a b => b.score ≤ a.score).take 100 := by
    rw [List.take_eq_take]
    simp
  refine ⟨pool, channelsMap, scored.insertionSort fun a b => b.score ≤ a.score, hpool, hmap,
    ?_, hsorted, rfl, ?_, ?_, ?_, ?_⟩
  · rw [hs]; exact List.perm_insertionSort _ _
  · simp only [hs]; exact hmin.symm
  · simp only [hs, List.length_take]
  · simp only [hs]
    intro i j a b hij ha hb
    exact pairwise_index _ _ (List.Pairwise.sublist (List.take_sublist _ _) hsorted) i j a b hij
      ha hb
  · simp only [hs]
    intro x hx y hy
    have hp : ((scored.insertionSort fun a b => b.score ≤ a.score).take 100 ++
        (scored.insertionSort fun a b => b.score ≤ a.score).drop 100).Pairwise
        (fun a b => b.score ≤ a.score) := by
      rw [List.take_append_drop]; exact hsorted
    have hx1 : x ∈ (scored.insertionSort fun a b => b.score ≤ a.score).drop 100 := by
      have : min 100 (scored.insertionSort fun a b => b.score ≤ a.score).length = 100 ∨
          (scored.insertionSort fun a b => b.score ≤ a.score).length ≤ 100 := by omega
      rcases this with h1 | h1
      · rwa [h1] at hx
      · rw [min_eq_right h1, List.drop_length] at hx
        simp at hx
    exact (List.pairwise_append.mp hp).2.2 y hy x hx1

/-! ## The sample runs -/

theorem sample_run : buildTop100 sampleWorld sampleParams [1, 1] = .ok sampleOutput := by
  decide!

theorem brokenUploads_run :
    buildTop100 brokenUploadsWorld sampleParams [] = .error "playlistNotFound" := by
  decide!

theorem brokenUploads_pool :
    buildPool brokenUploadsWorld sampleParams.cat = .ok ⟨["UC1", "UC2"], 6⟩ := by
  decide!

theorem brokenUploads_channels :
    getChannels brokenUploadsWorld ["UC1", "UC2"] = .ok
      [("UC2", normalizeChannel (sampleChannelRaw "UC2" "UU2" "手機評測" 5000)),
       ("UC1", normalizeChannel (sampleChannelRaw "UC1" "UU1" "科技開箱" 1000))] := by
  decide!

theorem brokenUploads_rough :
    normalizeChannel (sampleChannelRaw "UC1" "UU1" "科技開箱" 1000) ∈
      roughRank (filterChannels brokenUploadsWorld sampleParams
        [("UC2", normalizeChannel (sampleChannelRaw "UC2" "UU2" "手機評測" 5000)),
         ("UC1", normalizeChannel (sampleChannelRaw "UC1" "UU1" "科技開箱" 1000))]
        ["UC1", "UC2"]) := by
  decide!

/-- C3, witness: the sample run returns its two scored channels by descending
score. -/
theorem items_top_sorted_witness :
    ∃ (pool : PoolState) (channelsMap : List (String × Channel))
        (sorted : List ScoredChannel),
      buildPool sampleWorld sampleParams.cat = .ok pool ∧
      getChannels sampleWorld pool.ids = .ok channelsMap ∧
      sorted.Perm (runWorkers sampleWorld sampleParams [1, 1]
        (roughRank (filterChannels sampleWorld sampleParams channelsMap pool.ids))).scored ∧
      sorted.Sorted (fun a b => b.score ≤ a.score) ∧
      sampleOutput.meta.scoredCount = sorted.length ∧
      sampleOutput.items = sorted.take (min 100 sampleOutput.meta.scoredCount) ∧
      sampleOutput.items.length = min 100 sampleOutput.meta.scoredCount ∧
      (∀ i j a b, i < j → sampleOutput.items.get? i = some a →
        sampleOutput.items.get? j = some b → b.score ≤ a.score) ∧
      (∀ x ∈ sorted.drop (min 100 sampleOutput.meta.scoredCount), ∀ y ∈ sampleOutput.items,
        x.score ≤ y.score) :=
  items_top_sorted sampleWorld sampleParams [1, 1] sampleOutput sample_run

/-- C4, witness: the funnel of the sample run. -/
theorem funnel_counts_witness :
    sampleOutput.items.length ≤ 100 ∧
    sampleOutput.items.length ≤ sampleOutput.meta.scoredCount ∧
    sampleOutput.meta.scoredCount ≤ sampleOutput.meta.roughScored ∧
    sampleOutput.meta.roughScored ≤ sampleOutput.meta.afterChannelFilter ∧
    sampleOutput.meta.afterChannelFilter ≤ sampleOutput.meta.candidateChannels :=
  funnel_counts sampleWorld sampleParams [1, 1] sampleOutput sample_run

/-- C7 fails as stated: when the uploads playlist of one of the two rough-ranked
channels cannot be fetched, `buildTop100` returns the provider error and no
result, although the other channel could be scored. -/
theorem uploads_failure_is_fatal :
    (brokenUploadsWorld.playlistItems "UU1").ok = false ∧
    buildTop100 brokenUploadsWorld sampleParams [] = .error "playlistNotFound" ∧
    ¬ ∃ out, buildTop100 brokenUploadsWorld sampleParams [] = .ok out := by
  refine ⟨by decide, brokenUploads_run, ?_⟩
  rintro ⟨out, h⟩
  rw [brokenUploads_run] at h
  exact absurd h (by simp)

/-- C7, witness: the run on the broken gateway fails for another order of the
responses too. -/
theorem uploads_failure_aborts_witness :
    ∃ e, buildTop100 brokenUploadsWorld sampleParams [1, 1, 0] = .error e :=
  uploads_failure_aborts brokenUploadsWorld sampleParams [1, 1, 0] ⟨["UC1", "UC2"], 6⟩ _
    (normalizeChannel (sampleChannelRaw "UC1" "UU1" "科技開箱" 1000))
    brokenUploads_pool brokenUploads_channels brokenUploads_rough (by decide) (by decide)

/-! ## Theorems: the category fallback -/

theorem seedsAt_unknown {cat : String} (hkey : cat ∉ CATEGORY_SEEDS.map Prod.fst)
    (hproto : cat ∉ objectPrototypeKeys) : seedsAt cat = .undefined := by
  have hl : CATEGORY_SEEDS.lookup cat = none := by
    simp only [CATEGORY_SEEDS, List.map_cons, List.map_nil, List.mem_cons, List.mem_singleton,
      List.not_mem_nil, or_false, not_or] at hkey
    obtain ⟨h1, h2, h3, h4, h5, h6, h7⟩ := hkey
    have e1 : (cat == "3c") = false := beq_eq_false_iff_ne.mpr h1
    have e2 : (cat == "lifestyle") = false := beq_eq_false_iff_ne.mpr h2
    have e3 : (cat == "food") = false := beq_eq_false_iff_ne.mpr h3
    have e4 : (cat == "parenting") = false := beq_eq_false_iff_ne.mpr h4
    have e5 : (cat == "finance") = false := beq_eq_false_iff_ne.mpr h5
    have e6 : (cat == "travel") = false := beq_eq_false_iff_ne.mpr h6
    have e7 : (cat == "fitness") = false := beq_eq_false_iff_ne.mpr h7
    simp only [CATEGORY_SEEDS, List.lookup, e1, e2, e3, e4, e5, e6, e7]
  simp only [seedsAt, hl, if_neg hproto]

theorem categoryMatchRatio_3c (w : World) (videos : List Video) :
    categoryMatchRatio w videos "3c" = .ok
      (((videos.filter fun v =>
          seed3c.keywords.any fun k => includes (w.toLowerCase (videoText v)) k).length : ℚ)
        / (max 1 videos.length : ℕ)) := by
  simp only [categoryMatchRatio, seedsOr3c_3c]

/-- C8 (as the code has it): for a category key that is neither a key of the
category table nor the name of an inherited object property, the match ratio is
computed against the keywords of the 3c entry, but the strict-category check
compares it with the default threshold 0.25, not with the 0.22 of the 3c entry:
with strictCategory on, the uploads of a channel lead to a drop by category
exactly when there is a usable upload, the language check does not drop the
channel, and the ratio is below 0.25. -/
theorem unknown_category_threshold (w : World) (p : Params) (items : List Video)
    (hkey : p.cat ∉ CATEGORY_SEEDS.map Prod.fst) (hproto : p.cat ∉ objectPrototypeKeys)
    (hstrict : p.strictCat = true) :
    categoryThreshold p.cat = 25 / 100 ∧ seed3c.minMatchRatio = 22 / 100 ∧
    (∀ videos, categoryMatchRatio w videos p.cat = categoryMatchRatio w videos "3c") ∧
    ∃ r, categoryMatchRatio w
        (pickVideos w p (items.filter fun v => v.videoId ≠ "" ∧ v.publishedAt ≠ "")) "3c"
        = .ok r ∧
      (afterPlaylist w p items = .ok .droppedByCat ↔
        (items.filter fun v => v.videoId ≠ "" ∧ v.publishedAt ≠ "").length ≠ 0 ∧
        ¬ (p.strictLang ∧ languageMatchRatio
            (pickVideos w p (items.filter fun v => v.videoId ≠ "" ∧ v.publishedAt ≠ "")) p.lang
              < 55 / 100) ∧
        r < 25 / 100) := by
  have hs := seedsAt_unknown hkey hproto
  have hcm : ∀ videos, categoryMatchRatio w videos p.cat = categoryMatchRatio w videos "3c" := by
    intro videos
    rw [categoryMatchRatio_3c]
    simp only [categoryMatchRatio, seedsOr3c, hs]
  have hthr : categoryThreshold p.cat = 25 / 100 := by
    simp only [categoryThreshold, hs]
  refine ⟨hthr, rfl, hcm, _, categoryMatchRatio_3c w _, ?_⟩
  simp only [afterPlaylist, hcm, categoryMatchRatio_3c, hthr]
  generalize List.filter (fun v : Video => decide (v.videoId ≠ "" ∧ v.publishedAt ≠ "")) items
    = videos
  generalize pickVideos w p videos = pick
  generalize languageMatchRatio pick p.lang = l
  generalize (((pick.filter fun v =>
      seed3c.keywords.any fun k => includes (w.toLowerCase (videoText v)) k).length : ℚ)
        / (max 1 pick.length : ℕ)) = r
  by_cases h1 : videos.length = 0
  · rw [if_pos h1]
    constructor
    · intro h; exact absurd h (by simp)
    · intro h; exact absurd h1 h.1
  · rw [if_neg h1]
    by_cases h2 : p.strictLang = true ∧ l < 55 / 100
    · rw [if_pos h2]
      constructor
      · intro h; exact absurd h (by simp)
      · intro h; exact absurd h2 h.2.1
    · rw [if_neg h2]
      by_cases h3 : r < 25 / 100
      · rw [if_pos ⟨hstrict, h3⟩]
        exact ⟨fun _ => ⟨h1, h2, h3⟩, fun _ => rfl⟩
      · rw [if_neg (fun h => h3 h.2)]
        constructor
        · intro h; exact absurd h (by simp)
        · intro h; exact absurd h.2.2 h3

/-- C8 fails as stated: for the unknown key `gaming`, nine uploads of which two
match the 3c keywords have ratio 2/9, which is not below 0.22, and yet the
channel is dropped by category. -/
theorem unknown_category_drops_above_3c_threshold :
    "gaming" ∉ CATEGORY_SEEDS.map Prod.fst ∧
    gamingParams.strictCat = true ∧
    pickVideos sampleWorld gamingParams nineVideos = nineVideos ∧
    categoryMatchRatio sampleWorld nineVideos "gaming" = .ok (2 / 9) ∧
    ¬ ((2 : ℚ) / 9 < seed3c.minMatchRatio) ∧
    afterPlaylist sampleWorld gamingParams nineVideos = .ok .droppedByCat := by
  decide!

/-- C8, witness: the amended statement at the key `gaming` and the nine uploads. -/
theorem unknown_category_threshold_witness :
    categoryThreshold "gaming" = 25 / 100 ∧
    (afterPlaylist sampleWorld gamingParams nineVideos = .ok .droppedByCat ↔
      (nineVideos.filter fun v => v.videoId ≠ "" ∧ v.publishedAt ≠ "").length ≠ 0 ∧
      ¬ (gamingParams.strictLang ∧ languageMatchRatio
          (pickVideos sampleWorld gamingParams
            (nineVideos.filter fun v => v.videoId ≠ "" ∧ v.publishedAt ≠ "")) gamingParams.lang
            < 55 / 100) ∧
      (((pickVideos sampleWorld gamingParams
            (nineVideos.filter fun v => v.videoId ≠ "" ∧ v.publishedAt ≠ "")).filter fun v =>
          seed3c.keywords.any fun k =>
            includes (sampleWorld.toLowerCase (videoText v)) k).length : ℚ)
        / (max 1 (pickVideos sampleWorld gamingParams
            (nineVideos.filter fun v => v.videoId ≠ "" ∧ v.publishedAt ≠ "")).length : ℕ)
        < 25 / 100) := by
  have h := unknown_category_threshold sampleWorld gamingParams nineVideos (by decide)
    (by decide) (by decide)
  obtain ⟨h1, -, -, r, hr, hiff⟩ := h
  rw [categoryMatchRatio_3c] at hr
  injection hr with hr
  subst hr
  exact ⟨h1, hiff⟩

/-! ## Theorems: text heuristics -/

theorem jsTrim_eq_nil_iff (s : JsString) :
    jsTrim s = [] ↔ ∀ u ∈ s, isJsWhiteSpace u = true := by
  unfold jsTrim
  rw [List.reverse_eq_nil_iff, List.dropWhile_eq_nil_iff]
  constructor
  · intro h
    have hnil : s.dropWhile isJsWhiteSpace = [] := by
      by_contra hne
      have h1 := List.head_dropWhile_not isJsWhiteSpace s hne
      have h2 := h _ (List.mem_reverse.mpr (List.head_mem hne))
      rw [h1] at h2
      exact absurd h2 (by simp)
    exact List.dropWhile_eq_nil_iff.mp hnil
  · intro h x hx
    exact h x ((List.dropWhile_sublist isJsWhiteSpace).subset (List.mem_reverse.mp hx))

theorem includes_iff (s k : JsString) : includes s k = true ↔ k <:+: s := by
  induction s with
  | nil =>
    simp only [includes, List.isEmpty_iff]
    constructor
    · intro h; rw [h]
    · intro h; exact List.eq_nil_of_infix_nil h
  | cons c s ih =>
    simp only [includes, Bool.or_eq_true, ih, List.isPrefixOf_iff_prefix, List.infix_cons_iff]

theorem isHan_not_whiteSpace (u : Nat) (h : isHan u = true) : isJsWhiteSpace u = false := by
  simp only [isHan, Bool.and_eq_true, decide_eq_true_eq] at h
  simp only [isJsWhiteSpace, Bool.or_eq_false_iff, Bool.and_eq_false_iff, decide_eq_false_iff_not]
  omega

theorem isLatin_not_whiteSpace (u : Nat) (h : isLatin u = true) : isJsWhiteSpace u = false := by
  simp only [isLatin, Bool.or_eq_true, Bool.and_eq_true, decide_eq_true_eq] at h
  have e1 : 'A'.toNat = 65 := rfl
  have e2 : 'Z'.toNat = 90 := rfl
  have e3 : 'a'.toNat = 97 := rfl
  have e4 : 'z'.toNat = 122 := rfl
  simp only [isJsWhiteSpace, Bool.or_eq_false_iff, Bool.and_eq_false_iff, decide_eq_false_iff_not]
  omega

theorem isSimplifiedMark_isHan (u : Nat) (h : isSimplifiedMark u = true) : isHan u = true := by
  have h1 : u ∈ utf16 "这国里为们" := by simpa [isSimplifiedMark] using h
  have h2 : utf16 "这国里为们" = [36825, 22269, 37324, 20026, 20204] := by decide
  rw [h2] at h1
  simp only [List.mem_cons, List.mem_singleton, List.not_mem_nil, or_false] at h1
  rcases h1 with h | h | h | h | h <;> subst h <;> decide

theorem isTraditionalMark_isHan (u : Nat) (h : isTraditionalMark u = true) :
    isHan u = true := by
  have h1 : u ∈ utf16 "這國裡為們" := by simpa [isTraditionalMark] using h
  have h2 : utf16 "這國裡為們" = [36889, 22283, 35041, 28858, 20497] := by decide
  rw [h2] at h1
  simp only [List.mem_cons, List.mem_singleton, List.not_mem_nil, or_false] at h1
  rcases h1 with h | h | h | h | h <;> subst h <;> decide

theorem any_mark_or_han_simplified (text : JsString) :
    (text.any isSimplifiedMark || text.any isHan) = text.any isHan := by
  cases h : text.any isHan with
  | true => simp
  | false =>
    simp only [Bool.or_false]
    cases h1 : text.any isSimplifiedMark with
    | false => rfl
    | true =>
      exfalso
      obtain ⟨u, hu, hm⟩ := List.any_eq_true.mp h1
      have : text.any isHan = true :=
        List.any_eq_true.mpr ⟨u, hu, isSimplifiedMark_isHan u hm⟩
      rw [h] at this
      exact absurd this (by simp)

theorem any_mark_or_han_traditional (text : JsString) :
    (text.any isTraditionalMark || text.any isHan) = text.any isHan := by
  cases h : text.any isHan with
  | true => simp
  | false =>
    simp only [Bool.or_false]
    cases h1 : text.any isTraditionalMark with
    | false => rfl
    | true =>
      exfalso
      obtain ⟨u, hu, hm⟩ := List.any_eq_true.mp h1
      have : text.any isHan = true :=
        List.any_eq_true.mpr ⟨u, hu, isTraditionalMark_isHan u hm⟩
      rw [h] at this
      exact absurd this (by simp)

/-- The positive script test for a language other than ja, ko and en. -/
theorem langHeuristicOk_other (text : JsString) (lang : String)
    (hja : lang ≠ "ja") (hko : lang ≠ "ko") (hen : lang ≠ "en") :
    langHeuristicOk text lang = (if jsTrim text = [] then false else text.any isHan) := by
  unfold langHeuristicOk
  by_cases hb : jsTrim text = []
  · simp only [hb, if_true]
  · simp only [hb, if_false, hja, hko, hen]
    split_ifs
    · exact any_mark_or_han_simplified text
    · exact any_mark_or_han_traditional text

theorem langHeuristicOk_blank (text : JsString) (lang : String)
    (h : ∀ u ∈ text, isJsWhiteSpace u = true) : langHeuristicOk text lang = false := by
  unfold langHeuristicOk
  rw [if_pos ((jsTrim_eq_nil_iff text).mpr h)]

/-- C19: the positive script test does not tell the Chinese variants apart: for
every text and every language tag other than ja, ko and en it gives the same
answer as for zh-Hans and as for zh-Hant, and the answer is yes exactly when the
text is not blank and contains a code unit in U+4E00..U+9FFF. -/
theorem langHeuristicOk_chinese (text : JsString) (lang : String)
    (hja : lang ≠ "ja") (hko : lang ≠ "ko") (hen : lang ≠ "en") :
    langHeuristicOk text "zh-Hans" = langHeuristicOk text "zh-Hant" ∧
    langHeuristicOk text lang = langHeuristicOk text "zh-Hant" ∧
    (langHeuristicOk text lang = true ↔
      (∃ u ∈ text, isJsWhiteSpace u = false) ∧ ∃ u ∈ text, 0x4E00 ≤ u ∧ u ≤ 0x9FFF) := by
  have h1 := langHeuristicOk_other text lang hja hko hen
  have h2 := langHeuristicOk_other text "zh-Hans" (by decide) (by decide) (by decide)
  have h3 := langHeuristicOk_other text "zh-Hant" (by decide) (by decide) (by decide)
  refine ⟨by rw [h2, h3], by rw [h1, h3], ?_⟩
  rw [h1]
  have hblank : jsTrim text = [] ↔ ¬ ∃ u ∈ text, isJsWhiteSpace u = false := by
    rw [jsTrim_eq_nil_iff]
    push_neg
    simp
  have hhan : text.any isHan = true ↔ ∃ u ∈ text, 0x4E00 ≤ u ∧ u ≤ 0x9FFF := by
    simp [List.any_eq_true, isHan]
  by_cases hb : jsTrim text = []
  · rw [if_pos hb]
    constructor
    · intro h; exact absurd h (by simp)
    · intro h; exact absurd h.1 (hblank.mp hb)
  · rw [if_neg hb, hhan]
    constructor
    · intro h
      refine ⟨?_, h⟩
      by_contra hc
      exact hb (hblank.mpr hc)
    · intro h; exact h.2

/-- C19, witness: a traditional-only text passes the test for zh-Hans and for an
unrelated tag. -/
theorem langHeuristicOk_chinese_witness :
    langHeuristicOk (utf16 "這國") "zh-Hans" = langHeuristicOk (utf16 "這國") "zh-Hant" ∧
    langHeuristicOk (utf16 "這國") "fr" = langHeuristicOk (utf16 "這國") "zh-Hant" ∧
    (langHeuristicOk (utf16 "這國") "fr" = true ↔
      (∃ u ∈ utf16 "這國", isJsWhiteSpace u = false) ∧
        ∃ u ∈ utf16 "這國", 0x4E00 ≤ u ∧ u ≤ 0x9FFF) :=
  langHeuristicOk_chinese (utf16 "這國") "fr" (by decide) (by decide) (by decide)

/-- C15: for every target language and every batch (the empty one included)
whose titles and descriptions are empty or white space only, the language match
ratio is exactly 0; for every batch the ratio is a count divided by max(1, batch
length), which is not zero. -/
theorem languageMatchRatio_blank (videos : List Video) (lang : String)
    (h : ∀ v ∈ videos, (∀ u ∈ v.title, isJsWhiteSpace u = true) ∧
      (∀ u ∈ v.description, isJsWhiteSpace u = true)) :
    languageMatchRatio videos lang = 0 ∧
    (∀ (vs : List Video) (l : String), ∃ ok : ℕ,
      languageMatchRatio vs l = (ok : ℚ) / (max 1 vs.length : ℕ) ∧
      ((max 1 vs.length : ℕ) : ℚ) ≠ 0) := by
  constructor
  · unfold languageMatchRatio
    have hf : (videos.filter fun v => langHeuristicOk ((videoText v).take 400) lang) = [] := by
      rw [List.filter_eq_nil_iff]
      intro v hv
      rw [langHeuristicOk_blank]
      · simp
      · intro u hu
        have hu1 := List.mem_of_mem_take hu
        simp only [videoText, List.mem_append] at hu1
        rcases hu1 with (h1 | h1) | h1
        · exact (h v hv).1 u h1
        · have : u = 32 := by
            have e : utf16 " " = [32] := by decide
            rw [e] at h1
            simpa using h1
          subst this
          decide
        · exact (h v hv).2 u h1
    simp only [hf, List.length_nil, Nat.cast_zero, zero_div]
  · intro vs l
    refine ⟨_, rfl, ?_⟩
    have : 0 < max 1 vs.length := by omega
    exact_mod_cast this.ne'

/-- C15, witness: a batch of one blank video, and the empty batch. -/
theorem languageMatchRatio_blank_witness :
    languageMatchRatio [blankVideo] "zh-Hant" = 0 ∧ languageMatchRatio [] "en" = 0 :=
  ⟨(languageMatchRatio_blank [blankVideo] "zh-Hant" (by decide)).1,
   (languageMatchRatio_blank [] "en" (by simp)).1⟩

/-- C12 (as the code has it): for a target language tag starting with zh, the
channel-level check flags a channel exactly when the first 500 UTF-16 code units
of title, a space and description contain fewer than 4 Han characters
(U+4E00..U+9FFF) and more than 40 Latin letters. -/
theorem isObviouslyOtherLanguage_zh (ch : Channel) (lang : String)
    (hzh : "zh".isPrefixOf lang = true) :
    isObviouslyOtherLanguage ch lang = true ↔
      (((ch.title ++ utf16 " " ++ ch.description).take 500).filter isHan).length < 4 ∧
      (((ch.title ++ utf16 " " ++ ch.description).take 500).filter isLatin).length > 40 := by
  have hen : lang ≠ "en" := by intro h; subst h; exact absurd hzh (by decide!)
  have hja : lang ≠ "ja" := by intro h; subst h; exact absurd hzh (by decide!)
  have hko : lang ≠ "ko" := by intro h; subst h; exact absurd hzh (by decide!)
  simp only [isObviouslyOtherLanguage, hen, hja, hko, hzh, if_false, if_true]
  generalize (ch.title ++ utf16 " " ++ ch.description).take 500 = t
  by_cases hb : jsTrim t = []
  · rw [if_pos hb]
    have hlat : t.filter isLatin = [] := by
      rw [List.filter_eq_nil_iff]
      intro u hu hl
      have h1 := (jsTrim_eq_nil_iff t).mp hb u hu
      rw [isLatin_not_whiteSpace u hl] at h1
      exact absurd h1 (by simp)
    simp [hlat]
  · rw [if_neg hb]
    simp

/-- C12 fails as stated: the title and description of this channel contain four
Han characters, yet the channel is flagged for zh-Hant, because only the first
500 code units are examined. -/
theorem isObviouslyOtherLanguage_ignores_tail :
    isObviouslyOtherLanguage longLatinChannel "zh-Hant" = true ∧
    ¬ (((longLatinChannel.title ++ utf16 " " ++ longLatinChannel.description).filter
        isHan).length < 4) ∧
    ((longLatinChannel.title ++ utf16 " " ++ longLatinChannel.description).filter
        isLatin).length > 40 := by
  decide!

/-- C12, witness: the amended statement at the same channel. -/
theorem isObviouslyOtherLanguage_zh_witness :
    isObviouslyOtherLanguage longLatinChannel "zh-Hant" = true ↔
      (((longLatinChannel.title ++ utf16 " " ++ longLatinChannel.description).take 500).filter
        isHan).length < 4 ∧
      (((longLatinChannel.title ++ utf16 " " ++ longLatinChannel.description).take 500).filter
        isLatin).length > 40 :=
  isObviouslyOtherLanguage_zh longLatinChannel "zh-Hant" (by decide!)

/-- C11: a channel looks like noise exactly when its lower-cased title,
description or custom handle contains one of the seven denylist tokens, or it has
fewer than 6 videos, more than 200000 subscribers and no custom handle; a count
missing from the API item is 0 in the normalised channel. -/
theorem looksLikeNoiseChannel_iff (w : World) (ch : Channel) :
    (looksLikeNoiseChannel w ch = true ↔
      (∃ k ∈ List.map utf16 [" - topic", "topic", "vevo", "records", "official", "label",
          "provided to youtube"],
        k <:+: w.toLowerCase ch.title ∨ k <:+: w.toLowerCase ch.description ∨
          k <:+: w.toLowerCase ch.customUrl) ∨
      (ch.videoCount < 6 ∧ ch.subscriberCount > 200000 ∧ ch.customUrl = [])) ∧
    (∀ it : ChannelRaw,
      (it.videoCount = none → (normalizeChannel it).videoCount = 0) ∧
      (it.subscriberCount = none → (normalizeChannel it).subscriberCount = 0) ∧
      ((normalizeChannel it).customUrl = [] ↔ it.customUrl = none ∨ it.customUrl = some [])) := by
  constructor
  · unfold looksLikeNoiseChannel
    simp only
    have hany : (noiseTokens.any fun k => includes (w.toLowerCase ch.title) k ||
          includes (w.toLowerCase ch.description) k || includes (w.toLowerCase ch.customUrl) k)
          = true ↔
        ∃ k ∈ List.map utf16 [" - topic", "topic", "vevo", "records", "official", "label",
          "provided to youtube"],
        k <:+: w.toLowerCase ch.title ∨ k <:+: w.toLowerCase ch.description ∨
          k <:+: w.toLowerCase ch.customUrl := by
      rw [List.any_eq_true]
      simp only [Bool.or_eq_true, includes_iff, or_assoc]
      rfl
    by_cases h1 : (noiseTokens.any fun k => includes (w.toLowerCase ch.title) k ||
          includes (w.toLowerCase ch.description) k || includes (w.toLowerCase ch.customUrl) k)
          = true
    · rw [if_pos h1]
      simp only [true_iff]
      exact Or.inl (hany.mp h1)
    · rw [if_neg h1]
      by_cases h2 : ch.videoCount < 6 ∧ ch.subscriberCount > 200000 ∧ ch.customUrl = []
      · rw [if_pos h2]
        simp only [true_iff]
        exact Or.inr h2
      · rw [if_neg h2]
        constructor
        · intro h; exact absurd h (by simp)
        · rintro (h | h)
          · exact absurd (hany.mpr h) h1
          · exact absurd h h2
  · intro it
    refine ⟨fun h => by simp [normalizeChannel, h], fun h => by simp [normalizeChannel, h], ?_⟩
    simp only [normalizeChannel]
    cases hcu : it.customUrl with
    | none => simp
    | some cu =>
      simp only [Option.some.injEq, false_or, reduceCtorEq]
      by_cases h0 : cu = []
      · simp [h0]
      · simp only [h0, if_false, iff_false]
        split_ifs
        · exact h0
        · simp [utf16, utf16Char]

/-! ## Theorems: metrics -/

theorem mean_eq (arr : List ℚ) : mean arr = arr.sum / (arr.length : ℚ) := by
  unfold mean
  split_ifs with h
  · simp [h]
  · rfl

theorem views_eq_replicate (videos : List EnrichedVideo) (c : ℚ)
    (h : ∀ v ∈ videos, v.viewCount = c) :
    videos.map (·.viewCount) = List.replicate videos.length c := by
  rw [List.eq_replicate_iff]
  refine ⟨by simp, ?_⟩
  intro b hb
  obtain ⟨v, hv, rfl⟩ := List.mem_map.mp hb
  exact h v hv

/-- C17: for a video list of length n ≥ 2 with view counts v (most recent first)
and mid = ⌊n/2⌋, both halves are non-empty and the growth momentum is (mean of
the first mid counts − mean of the rest) / mean of the rest when the mean of the
rest is positive, and 0 otherwise; for a single-video list it is 0. -/
theorem growthMomentum_spec (w : World) (videos : List EnrichedVideo) (days : ℤ) :
    (2 ≤ videos.length →
      (videos.map (·.viewCount)).take (videos.length / 2) ≠ [] ∧
      (videos.map (·.viewCount)).drop (videos.length / 2) ≠ [] ∧
      (computeMetrics w videos days).growthMomentum = .fin
        (if ((videos.map (·.viewCount)).drop (videos.length / 2)).sum
            / (((videos.map (·.viewCount)).drop (videos.length / 2)).length : ℚ) > 0
         then
          (((videos.map (·.viewCount)).take (videos.length / 2)).sum
              / (((videos.map (·.viewCount)).take (videos.length / 2)).length : ℚ)
            - ((videos.map (·.viewCount)).drop (videos.length / 2)).sum
              / (((videos.map (·.viewCount)).drop (videos.length / 2)).length : ℚ))
          / (((videos.map (·.viewCount)).drop (videos.length / 2)).sum
              / (((videos.map (·.viewCount)).drop (videos.length / 2)).length : ℚ))
         else 0)) ∧
    (videos.length = 1 → (computeMetrics w videos days).growthMomentum = .fin 0) := by
  constructor
  · intro hn
    have hmid : videos.length / 2 ≠ 0 := by omega
    refine ⟨?_, ?_, ?_⟩
    · intro h
      have := congrArg List.length h
      simp only [List.length_take, List.length_map, List.length_nil] at this
      omega
    · intro h
      have := congrArg List.length h
      simp only [List.length_drop, List.length_map, List.length_nil] at this
      omega
    · simp only [computeMetrics, if_neg hmid, mean_eq]
  · intro h1
    have hmid : videos.length / 2 = 0 := by omega
    have hd : (videos.map (·.viewCount)).drop 1 = [] := by
      apply List.drop_eq_nil_of_le
      simp [h1]
    simp only [computeMetrics, hmid, if_true, hd]
    simp [mean]

/-- C17, witness: four videos whose recent half averages 150 and whose older
half averages 100 have momentum 1/2; one video has momentum 0. -/
theorem growthMomentum_spec_witness :
    (computeMetrics sampleWorld
      [viewsVideo 200, viewsVideo 100, viewsVideo 50, viewsVideo 150] 30).growthMomentum
      = .fin (1 / 2) ∧
    (computeMetrics sampleWorld [viewsVideo 200] 30).growthMomentum = .fin 0 := by
  have h := (growthMomentum_spec sampleWorld
    [viewsVideo 200, viewsVideo 100, viewsVideo 50, viewsVideo 150] 30).1 (by decide)
  have h1 := (growthMomentum_spec sampleWorld [viewsVideo 200] 30).2 rfl
  refine ⟨?_, h1⟩
  rw [h.2.2]
  decide!
/-! ## Theorems: rough ranking -/

/-- The rough list is the first min(220, n) entries of a descending-subscriber
ordering of the filtered channels. -/
theorem roughRank_top (filtered : List Channel) :
    ∃ sorted : List Channel,
      sorted.Perm filtered ∧
      sorted.Sorted (fun a b => b.subscriberCount ≤ a.subscriberCount) ∧
      roughRank filtered = sorted.take (min 220 filtered.length) ∧
      (∀ x ∈ sorted.drop (min 220 filtered.length), ∀ y ∈ roughRank filtered,
        x.subscriberCount ≤ y.subscriberCount) := by
  have hsorted : (filtered.insertionSort
      fun a b => b.subscriberCount ≤ a.subscriberCount).Sorted
      (fun a b => b.subscriberCount ≤ a.subscriberCount) := List.sorted_insertionSort _ _
  have hlen := List.length_insertionSort
    (fun a b : Channel => b.subscriberCount ≤ a.subscriberCount) filtered
  have hmin : (filtered.insertionSort
        fun a b => b.subscriberCount ≤ a.subscriberCount).take (min 220 filtered.length)
      = (filtered.insertionSort fun a b => b.subscriberCount ≤ a.subscriberCount).take 220 := by
    rw [List.take_eq_take]
    simp [hlen]
  refine ⟨_, List.perm_insertionSort _ _, hsorted, ?_, ?_⟩
  · rw [hmin]; rfl
  · intro x hx y hy
    have hy1 : y ∈ (filtered.insertionSort
        fun a b => b.subscriberCount ≤ a.subscriberCount).take (min 220 filtered.length) := by
      rw [hmin]; exact hy
    have hp : ((filtered.insertionSort
          fun a b => b.subscriberCount ≤ a.subscriberCount).take (min 220 filtered.length) ++
        (filtered.insertionSort
          fun a b => b.subscriberCount ≤ a.subscriberCount).drop (min 220 filtered.length)).Pairwise
        (fun a b => b.subscriberCount ≤ a.subscriberCount) := by
      rw [List.take_append_drop]; exact hsorted
    exact (List.pairwise_append.mp hp).2.2 y hy1 x hx

/-- C14: on every successful run the rough-ranked list handed to the workers is
the first min(220, afterChannelFilter) channels of the filtered set ordered by
descending subscriber count (a count missing from the API item being 0):
roughScored = min(afterChannelFilter, 220), and no filtered channel left out has
more subscribers than a channel of the rough list. -/
theorem rough_rank_spec (w : World) (p : Params) (schedule : List Nat) (out : Output)
    (h : buildTop100 w p schedule = .ok out) :
    out.meta.roughScored = min out.meta.afterChannelFilter 220 ∧
    ∃ (pool : PoolState) (channelsMap : List (String × Channel)) (sorted : List Channel),
      buildPool w p.cat = .ok pool ∧ getChannels w pool.ids = .ok channelsMap ∧
      out.meta.afterChannelFilter = (filterChannels w p channelsMap pool.ids).length ∧
      out.meta.roughScored = (roughRank (filterChannels w p channelsMap pool.ids)).length ∧
      sorted.Perm (filterChannels w p channelsMap pool.ids) ∧
      sorted.Sorted (fun a b => b.subscriberCount ≤ a.subscriberCount) ∧
      roughRank (filterChannels w p channelsMap pool.ids)
        = sorted.take (min 220 out.meta.afterChannelFilter) ∧
      (∀ x ∈ sorted.drop (min 220 out.meta.afterChannelFilter),
        ∀ y ∈ roughRank (filterChannels w p channelsMap pool.ids),
          x.subscriberCount ≤ y.subscriberCount) ∧
      (∀ it : ChannelRaw, it.subscriberCount = none →
        (normalizeChannel it).subscriberCount = 0) := by
  obtain ⟨pool, channelsMap, hpool, hmap, -, rfl⟩ := buildTop100_ok h
  obtain ⟨sorted, hperm, hsorted, htake, hrest⟩ :=
    roughRank_top (filterChannels w p channelsMap pool.ids)
  refine ⟨?_, pool, channelsMap, sorted, hpool, hmap, rfl, rfl, hperm, hsorted, htake, hrest,
    fun it hn => by simp [normalizeChannel, hn]⟩
  simp only [roughRank_length]
  exact min_comm _ _

/-- C14, witness: the funnel of the sample run. -/
theorem rough_rank_spec_witness :
    sampleOutput.meta.roughScored = min sampleOutput.meta.afterChannelFilter 220 :=
  (rough_rank_spec sampleWorld sampleParams [1, 1] sampleOutput sample_run).1

/-! ## Theorems: every scored channel passed the enabled filters -/

theorem afterPlaylist_fetchStats {w : World} {p : Params} {items pick : List Video} {cm : ℚ}
    (h : afterPlaylist w p items = .ok (.fetchStats pick cm)) :
    pick = pickVideos w p (items.filter fun v => v.videoId ≠ "" ∧ v.publishedAt ≠ "") ∧
    (p.strictLang = true → 55 / 100 ≤ languageMatchRatio pick p.lang) ∧
    categoryMatchRatio w pick p.cat = .ok cm ∧
    (p.strictCat = true → categoryThreshold p.cat ≤ cm) := by
  simp only [afterPlaylist] at h
  by_cases h1 : (items.filter fun v => v.videoId ≠ "" ∧ v.publishedAt ≠ "").length = 0
  · rw [if_pos h1] at h
    exact absurd h (by simp)
  · rw [if_neg h1] at h
    by_cases h2 : p.strictLang = true ∧ languageMatchRatio
        (pickVideos w p (items.filter fun v => v.videoId ≠ "" ∧ v.publishedAt ≠ "")) p.lang
          < 55 / 100
    · rw [if_pos h2] at h
      exact absurd h (by simp)
    · rw [if_neg h2] at h
      split at h
      · exact absurd h (by simp)
      · rename_i r hr
        by_cases h3 : p.strictCat = true ∧ r < categoryThreshold p.cat
        · rw [if_pos h3] at h
          exact absurd h (by simp)
        · rw [if_neg h3] at h
          injection h with h
          injection h with hp hc
          subst hc
          refine ⟨hp.symm, ?_, ?_, ?_⟩
          · intro hs
            rw [← hp]
            exact not_lt.mp fun hlt => h2 ⟨hs, hlt⟩
          · rw [← hp]; exact hr
          · intro hs
            exact not_lt.mp fun hlt => h3 ⟨hs, hlt⟩

theorem afterStats_some {w : World} {p : Params} {ch : Channel} {pick : List Video} {cm : ℚ}
    {stats : List (String × VideoStats)} {sc : ScoredChannel}
    (h : afterStats w p ch pick cm stats = some sc) :
    sc.channelId = ch.id ∧ sc.categoryMatch = cm ∧ 6 ≤ (enrich stats pick).length ∧
    sc.score = decisionScore (computeMetrics w (enrich stats pick) p.days) := by
  simp only [afterStats] at h
  by_cases h1 : (enrich stats pick).length < 6
  · rw [if_pos h1] at h
    exact absurd h (by simp)
  · rw [if_neg h1] at h
    injection h with h
    subst h
    exact ⟨rfl, rfl, by omega, rfl⟩

theorem continueLoop_provenance (w : World) (p : Params) (rough : List Channel)
    (st : EnrichState) (i : Nat) (c : DebugCounters) (y : WorkerState)
    (hy : st.workers.get? i = some y) (h : Provenance w p rough st) :
    Provenance w p rough (continueLoop st i c) := by
  obtain ⟨hq, hp, hs, hsc⟩ := h
  have hsub : ∀ ch ∈ (workerLoop st.queue c).2.1, ch ∈ st.queue :=
    fun ch hch => (workerLoop_suffix st.queue c).subset hch
  refine ⟨fun ch hch => hq ch (hsub ch hch), ?_, ?_, hsc⟩
  · intro ch hch
    simp only [continueLoop] at hch
    rcases mem_set_cases st.workers i _ y _ hy hch with h1 | h1
    · exact hq ch (workerLoop_awaiting st.queue c ch h1.symm).1
    · exact hp ch h1
  · intro ch pick cm hch
    simp only [continueLoop] at hch
    rcases mem_set_cases st.workers i _ y _ hy hch with h1 | h1
    · exact absurd h1.symm (workerLoop_not_awaitingStats st.queue c ch pick cm)
    · exact hs ch pick cm h1

theorem startWorker_provenance (w : World) (p : Params) (rough : List Channel)
    (st : EnrichState) (h : Provenance w p rough st) :
    Provenance w p rough (startWorker st) := by
  obtain ⟨hq, hp, hs, hsc⟩ := h
  have hsub : ∀ ch ∈ (workerLoop st.queue st.counters).2.1, ch ∈ st.queue :=
    fun ch hch => (workerLoop_suffix st.queue st.counters).subset hch
  refine ⟨fun ch hch => hq ch (hsub ch hch), ?_, ?_, hsc⟩
  · intro ch hch
    simp only [startWorker, List.mem_append, List.mem_singleton] at hch
    rcases hch with h1 | h1
    · exact hp ch h1
    · exact hq ch (workerLoop_awaiting st.queue st.counters ch h1.symm).1
  · intro ch pick cm hch
    simp only [startWorker, List.mem_append, List.mem_singleton] at hch
    rcases hch with h1 | h1
    · exact hs ch pick cm h1
    · exact absurd h1.symm (workerLoop_not_awaitingStats st.queue st.counters ch pick cm)

theorem transition_provenance {w : World} {p : Params} {st st1 : EnrichState} {i : Nat}
    (rough : List Channel) (ht : Transition w p st i st1) (h : Provenance w p rough st) :
    Provenance w p rough st1 := by
  cases ht with
  | idle _ => exact h
  | playlistError ch e _ _ _ => exact h
  | categoryError ch items e _ _ _ _ => exact h
  | statsError ch pick cm e _ _ _ => exact h
  | noVideos ch items _ hg _ _ => exact continueLoop_provenance w p rough st i _ _ hg h
  | droppedByLang ch items _ hg _ _ => exact continueLoop_provenance w p rough st i _ _ hg h
  | droppedByCat ch items _ hg _ _ => exact continueLoop_provenance w p rough st i _ _ hg h
  | tooFewStats ch pick cm stats _ hg _ _ =>
    exact continueLoop_provenance w p rough st i _ _ hg h
  | fetchStats ch items pick cm _ hg hi ha =>
    obtain ⟨hq, hp, hs, hsc⟩ := h
    have hch : ch ∈ rough := hp ch (List.get?_mem hg)
    obtain ⟨h1, h2, h3, h4⟩ := afterPlaylist_fetchStats ha
    refine ⟨hq, ?_, ?_, hsc⟩
    · intro ch1 hm
      rcases mem_set_cases st.workers i _ _ _ hg hm with h5 | h5
      · exact absurd h5 (by simp)
      · exact hp ch1 h5
    · intro ch1 pick1 cm1 hm
      rcases mem_set_cases st.workers i _ _ _ hg hm with h5 | h5
      · injection h5 with e1 e2 e3
        subst e1 e2 e3
        exact ⟨hch, items, hi, h1, h2, h3, h4⟩
      · exact hs ch1 pick1 cm1 h5
  | scored ch pick cm stats sc _ hg _ ha =>
    obtain ⟨hq, hp, hs, hsc⟩ := h
    obtain ⟨hch, hsel⟩ := hs ch pick cm (List.get?_mem hg)
    obtain ⟨hid, hcm, -, -⟩ := afterStats_some ha
    apply continueLoop_provenance w p rough { st with scored := st.scored ++ [sc] } i _ _ hg
    refine ⟨hq, hp, hs, ?_⟩
    intro sc1 hm
    rcases List.mem_append.mp hm with h5 | h5
    · exact hsc sc1 h5
    · have : sc1 = sc := by simpa using h5
      subst this
      exact ⟨ch, hch, pick, hid, hcm ▸ hsel⟩

/-- Every entry of the scored array comes from a rough-ranked channel whose
selected uploads passed the enabled video-level checks. -/
theorem runWorkers_provenance (w : World) (p : Params) (schedule : List Nat)
    (rough : List Channel) : Provenance w p rough (runWorkers w p schedule rough) :=
  runWorkers_induction (Provenance w p rough) w p schedule rough
    ⟨fun _ h => h, fun _ h => absurd h (by simp), fun _ _ _ h => absurd h (by simp),
      fun _ h => absurd h (by simp)⟩
    (fun st h => startWorker_provenance w p rough st h)
    (fun st i h => transition_provenance rough (resume_transition w p st i) h)

theorem lookup_mem {α : Type} (m : List (String × α)) (k : String) (v : α)
    (h : m.lookup k = some v) : (k, v) ∈ m := by
  induction m with
  | nil => simp at h
  | cons x m ih =>
    obtain ⟨k1, v1⟩ := x
    simp only [List.lookup] at h
    split at h
    · rename_i heq
      have hk : k = k1 := by simpa using heq
      injection h with h
      subst hk h
      exact List.mem_cons_self _ _
    · exact List.mem_cons_of_mem _ (ih h)

theorem getChannelsLoop_key (w : World) (chunks : List (List String)) :
    ∀ (map result : List (String × Channel)),
      getChannelsLoop w chunks map = .ok result →
      (∀ e ∈ map, e.2.id = e.1) → ∀ e ∈ result, e.2.id = e.1 := by
  induction chunks with
  | nil =>
    intro map result h hm
    simp only [getChannelsLoop] at h
    injection h with h
    subst h
    exact hm
  | cons c cs ih =>
    intro map result h hm
    simp only [getChannelsLoop] at h
    split_ifs at h
    apply ih _ _ h
    generalize (w.channelsList c).items = items
    clear h
    induction items generalizing map with
    | nil => exact hm
    | cons it its ih2 =>
      simp only [List.foldl_cons]
      apply ih2
      intro e he
      rcases List.mem_cons.mp he with h1 | h1
      · subst h1; rfl
      · exact hm e h1

/-- A channel read from `channelsMap` carries the identifier it is stored under. -/
theorem getChannels_key {w : World} {ids : List String} {map : List (String × Channel)}
    (h : getChannels w ids = .ok map) {k : String} {ch : Channel}
    (hl : map.lookup k = some ch) : ch.id = k :=
  getChannelsLoop_key w _ [] map h (fun _ he => absurd he (by simp)) (k, ch)
    (lookup_mem map k ch hl)

theorem filterChannels_mem {w : World} {p : Params} {channelsMap : List (String × Channel)}
    {candidates : List String} {ch : Channel}
    (h : ch ∈ filterChannels w p channelsMap candidates) :
    ∃ id ∈ candidates, channelsMap.lookup id = some ch ∧
      (p.excludeTopic = true → looksLikeNoiseChannel w ch = false) ∧
      (p.strictLang = true → isObviouslyOtherLanguage ch p.lang = false) := by
  simp only [filterChannels, List.mem_filterMap] at h
  obtain ⟨id, hid, hf⟩ := h
  refine ⟨id, hid, ?_⟩
  split at hf
  · exact absurd hf (by simp)
  · rename_i ch1 hl
    split_ifs at hf with h1 h2
    injection hf with hf
    subst hf
    refine ⟨hl, ?_, ?_⟩
    · intro he
      simp only [he, Bool.true_and] at h1
      simpa using h1
    · intro hs
      simp only [hs, Bool.true_and] at h2
      simpa using h2

theorem roughRank_subset {l : List Channel} {ch : Channel} (h : ch ∈ roughRank l) : ch ∈ l :=
  (List.perm_insertionSort _ l).subset (List.mem_of_mem_take h)

/-- C13: every item of a successful run passed all enabled filters: it carries
the identifier of a fetched candidate channel which, if excludeTopic is on, does
not look like noise; if strictLang is on, is not obviously of another language
and has a language match ratio of its selected uploads of at least 0.55; and if
strictCat is on, the item's categoryMatch is at least the threshold applied for
the requested category. -/
theorem items_passed_filters (w : World) (p : Params) (schedule : List Nat) (out : Output)
    (h : buildTop100 w p schedule = .ok out) :
    ∃ (pool : PoolState) (channelsMap : List (String × Channel)),
      buildPool w p.cat = .ok pool ∧ getChannels w pool.ids = .ok channelsMap ∧
      ∀ item ∈ out.items, ∃ ch : Channel,
        item.channelId ∈ pool.ids ∧ channelsMap.lookup item.channelId = some ch ∧
        ch.id = item.channelId ∧
        (p.excludeTopic = true → looksLikeNoiseChannel w ch = false) ∧
        (p.strictLang = true → isObviouslyOtherLanguage ch p.lang = false ∧
          ∃ items, ytPlaylistItems w ch.uploadsPlaylistId = .ok items ∧
            55 / 100 ≤ languageMatchRatio
              (pickVideos w p (items.filter fun v => v.videoId ≠ "" ∧ v.publishedAt ≠ ""))
              p.lang) ∧
        (p.strictCat = true → categoryThreshold p.cat ≤ item.categoryMatch) := by
  obtain ⟨pool, channelsMap, hpool, hmap, -, rfl⟩ := buildTop100_ok h
  refine ⟨pool, channelsMap, hpool, hmap, ?_⟩
  intro item hitem
  have hmem : item ∈ (runWorkers w p schedule
      (roughRank (filterChannels w p channelsMap pool.ids))).scored :=
    (List.perm_insertionSort _ _).subset (List.mem_of_mem_take hitem)
  obtain ⟨ch, hch, pick, hid, items, hitems, hpick, hlang, -, hcat⟩ :=
    (runWorkers_provenance w p schedule _).2.2.2 item hmem
  obtain ⟨id, hidmem, hlook, hnoise, hother⟩ := filterChannels_mem (roughRank_subset hch)
  have hkey := getChannels_key hmap hlook
  have he : item.channelId = id := by rw [hid, hkey]
  refine ⟨ch, he ▸ hidmem, he ▸ hlook, hid.symm, hnoise, ?_, hcat⟩
  intro hs
  exact ⟨hother hs, items, hitems, hpick ▸ hlang hs⟩

/-- C13, witness: the two items of the sample run, with all three flags as the
default request sets them. -/
theorem items_passed_filters_witness :
    ∃ (pool : PoolState) (channelsMap : List (String × Channel)),
      buildPool sampleWorld sampleParams.cat = .ok pool ∧
      getChannels sampleWorld pool.ids = .ok channelsMap ∧
      ∀ item ∈ sampleOutput.items, ∃ ch : Channel,
        item.channelId ∈ pool.ids ∧ channelsMap.lookup item.channelId = some ch ∧
        ch.id = item.channelId ∧
        (sampleParams.excludeTopic = true → looksLikeNoiseChannel sampleWorld ch = false) ∧
        (sampleParams.strictLang = true →
          isObviouslyOtherLanguage ch sampleParams.lang = false ∧
          ∃ items, ytPlaylistItems sampleWorld ch.uploadsPlaylistId = .ok items ∧
            55 / 100 ≤ languageMatchRatio
              (pickVideos sampleWorld sampleParams
                (items.filter fun v => v.videoId ≠ "" ∧ v.publishedAt ≠ ""))
              sampleParams.lang) ∧
        (sampleParams.strictCat = true →
          categoryThreshold sampleParams.cat ≤ item.categoryMatch) :=
  items_passed_filters sampleWorld sampleParams [1, 1] sampleOutput sample_run

/-! ## Theorems: the drop counters account for every channel -/

theorem workerLoop_account (q : List Channel) :
    ∀ c, (workerLoop q c).2.2.checked + (workerLoop q c).2.1.length = c.checked + q.length ∧
      (workerLoop q c).2.2.checked + noUploads (workerLoop q c).2.1
        = c.checked + noUploads q + (workerLoop q c).1.busy ∧
      (workerLoop q c).2.2.dropped = c.dropped := by
  induction q with
  | nil =>
    intro c
    simp [workerLoop, noUploads, WorkerState.busy]
  | cons ch rest ih =>
    intro c
    simp only [workerLoop]
    split_ifs with hu
    · obtain ⟨h1, h2, h3⟩ := ih { c with checked := c.checked + 1 }
      have hn : noUploads (ch :: rest) = noUploads rest + 1 := by
        simp [noUploads, List.countP_cons, hu]
      refine ⟨?_, ?_, ?_⟩
      · simp only [List.length_cons] at h1 ⊢
        omega
      · rw [hn]
        simp only at h2
        omega
      · rw [h3]
        rfl
    · have hn : noUploads (ch :: rest) = noUploads rest := by
        simp [noUploads, List.countP_cons, hu]
      refine ⟨?_, ?_, rfl⟩
      · simp only [List.length_cons]
        omega
      · rw [hn]
        simp only [WorkerState.busy]
        omega

/-- A worker that held a channel goes back to the loop head: the channel it held
is accounted for by `gain`, one more scored or dropped channel. -/
theorem continueLoop_accounted (rough : List Channel) (st st0 : EnrichState) (i : Nat)
    (c : DebugCounters) (y : WorkerState) (hy : st.workers.get? i = some y)
    (hbusy : y.busy = 1) (hq : st.queue = st0.queue) (hw : st.workers = st0.workers)
    (hc : c.checked = st0.counters.checked)
    (hgain : st.scored.length + c.dropped = st0.scored.length + st0.counters.dropped + 1)
    (h : Accounted rough st0) : Accounted rough (continueLoop st i c) := by
  obtain ⟨h1, h2⟩ := h
  obtain ⟨a1, a2, a3⟩ := workerLoop_account st.queue c
  have hs := sum_map_set WorkerState.busy st.workers i (workerLoop st.queue c).1 y hy
  rw [hq] at a1 a2 a3 hs
  rw [hw] at hs
  simp only [Accounted, continueLoop, hq, hw]
  constructor
  · omega
  · rw [a3]
    omega

theorem startWorker_accounted (rough : List Channel) (st : EnrichState)
    (h : Accounted rough st) : Accounted rough (startWorker st) := by
  obtain ⟨h1, h2⟩ := h
  obtain ⟨a1, a2, a3⟩ := workerLoop_account st.queue st.counters
  simp only [Accounted, startWorker, List.map_append, List.sum_append, List.map_cons,
    List.map_nil, List.sum_cons, List.sum_nil]
  constructor
  · omega
  · rw [a3]
    omega

theorem busy_of_awaitingPlaylist (ch : Channel) :
    (WorkerState.awaitingPlaylist ch).busy = 1 := rfl

theorem busy_of_awaitingStats (ch : Channel) (pick : List Video) (cm : ℚ) :
    (WorkerState.awaitingStats ch pick cm).busy = 1 := rfl

theorem transition_accounted {w : World} {p : Params} {st st1 : EnrichState} {i : Nat}
    (rough : List Channel) (ht : Transition w p st i st1) (h : Accounted rough st) :
    Accounted rough st1 := by
  cases ht with
  | idle _ => exact h
  | playlistError ch e _ _ _ => exact h
  | categoryError ch items e _ _ _ _ => exact h
  | statsError ch pick cm e _ _ _ => exact h
  | noVideos ch items _ hg _ _ =>
    exact continueLoop_accounted rough st st i _ _ hg rfl rfl rfl rfl
      (by simp only [DebugCounters.dropped, DebugCounters.addNoVideos]; omega) h
  | droppedByLang ch items _ hg _ _ =>
    exact continueLoop_accounted rough st st i _ _ hg rfl rfl rfl rfl
      (by simp only [DebugCounters.dropped, DebugCounters.addDroppedByLang]; omega) h
  | droppedByCat ch items _ hg _ _ =>
    exact continueLoop_accounted rough st st i _ _ hg rfl rfl rfl rfl
      (by simp only [DebugCounters.dropped, DebugCounters.addDroppedByCat]; omega) h
  | tooFewStats ch pick cm stats _ hg _ _ =>
    exact continueLoop_accounted rough st st i _ _ hg rfl rfl rfl rfl
      (by simp only [DebugCounters.dropped, DebugCounters.addNoVideos]; omega) h
  | fetchStats ch items pick cm _ hg _ _ =>
    obtain ⟨h1, h2⟩ := h
    have hs := sum_map_set WorkerState.busy st.workers i (.awaitingStats ch pick cm) _ hg
    simp only [WorkerState.busy] at hs
    simp only [Accounted]
    constructor
    · exact h1
    · omega
  | scored ch pick cm stats sc _ hg _ _ =>
    exact continueLoop_accounted rough { st with scored := st.scored ++ [sc] } st i _ _ hg
      rfl rfl rfl rfl (by simp only [List.length_append, List.length_singleton]; omega) h

/-- The bookkeeping invariant holds when `Promise.all` settles. -/
theorem runWorkers_accounted (w : World) (p : Params) (schedule : List Nat)
    (rough : List Channel) : Accounted rough (runWorkers w p schedule rough) :=
  runWorkers_induction (Accounted rough) w p schedule rough
    (by simp [Accounted, DebugCounters.dropped])
    (fun st h => startWorker_accounted rough st h)
    (fun st i h => transition_accounted rough (resume_transition w p st i) h)

theorem busy_sum_finished (workers : List WorkerState)
    (h : ∀ s ∈ workers, s = .finished) : (workers.map WorkerState.busy).sum = 0 := by
  induction workers with
  | nil => rfl
  | cons s rest ih =>
    have hs := h s (List.mem_cons_self _ _)
    subst hs
    simp only [List.map_cons, List.sum_cons, WorkerState.busy, zero_add]
    exact ih fun s hs => h s (List.mem_cons_of_mem _ hs)

/-- C20: on every run that completes, the counters account for every
rough-ranked channel exactly once: checked equals roughScored, and checked equals
scoredCount + droppedByCat + droppedByLang + noVideos + the number of
rough-ranked channels without uploads reference. -/
theorem counters_account (w : World) (p : Params) (schedule : List Nat) (out : Output)
    (h : buildTop100 w p schedule = .ok out) :
    out.meta.debugCounters.checked = out.meta.roughScored ∧
    ∃ (pool : PoolState) (channelsMap : List (String × Channel)),
      buildPool w p.cat = .ok pool ∧ getChannels w pool.ids = .ok channelsMap ∧
      out.meta.roughScored = (roughRank (filterChannels w p channelsMap pool.ids)).length ∧
      out.meta.debugCounters.checked =
        out.meta.scoredCount + out.meta.debugCounters.droppedByCat
          + out.meta.debugCounters.droppedByLang + out.meta.debugCounters.noVideos
          + ((roughRank (filterChannels w p channelsMap pool.ids)).filter
              fun ch => ch.uploadsPlaylistId = "").length := by
  obtain ⟨pool, channelsMap, hpool, hmap, hrej, rfl⟩ := buildTop100_ok h
  generalize hr : roughRank (filterChannels w p channelsMap pool.ids) = rough at hrej
  have hfin : ∀ s ∈ (runWorkers w p schedule rough).workers, s = .finished := by
    rcases runWorkers_settled w p schedule rough with hs | hs
    · rw [hrej] at hs; exact absurd hs (by simp)
    · exact hs
  have hq := runWorkers_queue_nil w p schedule rough hfin
  have hb := busy_sum_finished _ hfin
  obtain ⟨a1, a2⟩ := runWorkers_accounted w p schedule rough
  rw [hq] at a1 a2
  rw [hb] at a2
  simp only [List.length_nil, noUploads, List.countP_nil, add_zero, DebugCounters.dropped]
    at a1 a2
  have hcount : rough.countP (fun ch => decide (ch.uploadsPlaylistId = ""))
      = (rough.filter fun ch => ch.uploadsPlaylistId = "").length := List.countP_eq_length_filter _ _
  refine ⟨a1, pool, channelsMap, hpool, hmap, by rw [hr], ?_⟩
  simp only [hr, List.length_insertionSort]
  rw [← hcount]
  omega

/-- C20, witness: the counters of the sample run. -/
theorem counters_account_witness :
    sampleOutput.meta.debugCounters.checked = sampleOutput.meta.roughScored :=
  (counters_account sampleWorld sampleParams [1, 1] sampleOutput sample_run).1

/-! ## Theorems: the search budget -/

theorem searchPagesLog_lt (w : World) (q : String) (pagesLeft : Nat) :
    ∀ (t : String) (st : PoolState), st.ids.length < maxCandidates →
      ∀ size ∈ searchPagesLog w q pagesLeft t st, size < maxCandidates := by
  induction pagesLeft with
  | zero => intro t st _ size h; simp [searchPagesLog] at h
  | succ n ih =>
    intro t st hl size h
    simp only [searchPagesLog, List.mem_cons] at h
    rcases h with h | h
    · rw [h]; exact hl
    · split at h
      · simp at h
      · split_ifs at h with ha hb
        · simp at h
        · simp at h
        · exact ih _ _ (by simpa using hb) size h

theorem searchPagesLog_length_le (w : World) (q : String) (pagesLeft : Nat) :
    ∀ (t : String) (st : PoolState), (searchPagesLog w q pagesLeft t st).length ≤ pagesLeft := by
  induction pagesLeft with
  | zero => intro t st; simp [searchPagesLog]
  | succ n ih =>
    intro t st
    simp only [searchPagesLog, List.length_cons]
    cases hs : ytSearchChannels w st.calls q t with
    | error e => simp
    | ok s =>
      simp only
      split_ifs
      · simp
      · simp
      · have := ih s.nextPageToken { ids := addPage st.ids s.items, calls := st.calls + 1 }
        omega

/-- The log of the inner loop has one entry per call counted in the state. -/
theorem searchPagesLog_calls (w : World) (q : String) (pagesLeft : Nat) :
    ∀ (t : String) (st st1 : PoolState), searchPages w q pagesLeft t st = .ok st1 →
      st1.calls = st.calls + (searchPagesLog w q pagesLeft t st).length := by
  induction pagesLeft with
  | zero =>
    intro t st st1 h
    simp only [searchPages] at h
    injection h with h
    subst h
    simp [searchPagesLog]
  | succ n ih =>
    intro t st st1 h
    simp only [searchPages] at h
    simp only [searchPagesLog, List.length_cons]
    cases hs : ytSearchChannels w st.calls q t with
    | error e =>
      rw [hs] at h
      exact absurd h (by simp)
    | ok s =>
      rw [hs] at h
      simp only at h ⊢
      split_ifs at h ⊢ with ha hb
      · injection h with h; subst h; simp
      · injection h with h; subst h; simp
      · have := ih _ _ _ h
        simp only at this
        omega

theorem searchQueriesLog_lt (w : World) (queries : List String) :
    ∀ st : PoolState, st.ids.length < maxCandidates →
      ∀ size ∈ searchQueriesLog w queries st, size < maxCandidates := by
  induction queries with
  | nil => intro st _ size h; simp [searchQueriesLog] at h
  | cons q qs ih =>
    intro st hl size h
    simp only [searchQueriesLog, List.mem_append] at h
    rcases h with h | h
    · exact searchPagesLog_lt w q _ _ _ hl size h
    · split at h
      · simp at h
      · split_ifs at h with ha
        · simp at h
        · exact ih _ (by simpa using ha) size h

theorem searchQueriesLog_length_le (w : World) (queries : List String) :
    ∀ st : PoolState,
      (searchQueriesLog w queries st).length ≤ pagesPerQuery * queries.length := by
  induction queries with
  | nil => intro st; simp [searchQueriesLog]
  | cons q qs ih =>
    intro st
    have h1 := searchPagesLog_length_le w q pagesPerQuery "" st
    simp only [searchQueriesLog, List.length_append, List.length_cons, Nat.mul_succ]
    cases hs : searchPages w q pagesPerQuery "" st with
    | error e => simp only [List.length_nil]; omega
    | ok st2 =>
      simp only
      split_ifs
      · simp only [List.length_nil]; omega
      · have := ih st2
        omega

/-- The log of the outer loop has one entry per call counted in the state. -/
theorem searchQueriesLog_calls (w : World) (queries : List String) :
    ∀ st st1 : PoolState, searchQueries w queries st = .ok st1 →
      st1.calls = st.calls + (searchQueriesLog w queries st).length := by
  induction queries with
  | nil =>
    intro st st1 h
    simp only [searchQueries] at h
    injection h with h
    subst h
    simp [searchQueriesLog]
  | cons q qs ih =>
    intro st st1 h
    simp only [searchQueries] at h
    simp only [searchQueriesLog, List.length_append]
    cases hs : searchPages w q pagesPerQuery "" st with
    | error e =>
      rw [hs] at h
      exact absurd h (by simp)
    | ok st2 =>
      have h2 := searchPagesLog_calls w q _ _ _ _ hs
      rw [hs] at h
      simp only at h ⊢
      split_ifs at h ⊢ with ha
      · injection h with h; subst h
        simp only [List.length_nil]; omega
      · have := ih _ _ h
        omega

/-- C21: when every search page holds at most 50 results, every search call is
issued while the candidate set has fewer than 380 identifiers, at most 12 calls
are issued, and a completed discovery has counted exactly the logged calls and
returns at most 429 identifiers. -/
theorem search_budget (w : World) (cat : String)
    (hw : ∀ n q t, (w.search n q t).items.length ≤ 50) :
    (∀ size ∈ buildPoolLog w cat, size < 380) ∧
    (buildPoolLog w cat).length ≤ 12 ∧
    (∀ pool, buildPool w cat = .ok pool →
      pool.calls = (buildPoolLog w cat).length ∧ pool.calls ≤ 12 ∧
      pool.ids.length ≤ 429) := by
  unfold buildPoolLog buildPool
  cases hs : seedsOr3c cat with
  | none =>
    refine ⟨fun size h => by simp at h, by simp, fun pool h => by simp at h⟩
  | some seeds =>
    simp only
    have hlen : (searchQueriesLog w (seeds.queries.take 6) { ids := [], calls := 0 }).length
        ≤ 12 := by
      have h1 := searchQueriesLog_length_le w (seeds.queries.take 6) { ids := [], calls := 0 }
      have h2 : (seeds.queries.take 6).length ≤ 6 := by
        rw [List.length_take]; exact min_le_left _ _
      simp only [pagesPerQuery] at h1
      omega
    refine ⟨?_, hlen, ?_⟩
    · intro size h
      have := searchQueriesLog_lt w _ { ids := [], calls := 0 } (by simp [maxCandidates]) size h
      simpa [maxCandidates] using this
    · intro pool h
      have hc := searchQueriesLog_calls w _ _ _ h
      have hl := searchQueries_length w 50 hw _ _ _ h (by simp [maxCandidates])
      simp only [maxCandidates] at hl
      simp only [Nat.zero_add] at hc
      exact ⟨hc, by omega, by omega⟩

theorem sampleWorld_items_length (n : Nat) (q t : String) :
    (sampleWorld.search n q t).items.length ≤ 50 := by
  show ([some "UC1", none, some "UC2", some "UC1"] : List (Option String)).length ≤ 50
  decide

/-- C21, witness: on the sample gateway six calls are issued, at set sizes 0, 2,
2, 2, 2 and 2, and two identifiers are returned. -/
theorem search_budget_witness :
    buildPoolLog sampleWorld "3c" = [0, 2, 2, 2, 2, 2] ∧
    (∀ size ∈ buildPoolLog sampleWorld "3c", size < 380) ∧
    (buildPoolLog sampleWorld "3c").length ≤ 12 ∧
    (∀ pool, buildPool sampleWorld "3c" = .ok pool →
      pool.calls = (buildPoolLog sampleWorld "3c").length ∧ pool.calls ≤ 12 ∧
      pool.ids.length ≤ 429) :=
  ⟨by decide!, search_budget sampleWorld "3c" sampleWorld_items_length⟩


/-! ## Rounding to the nearest double -/

namespace Ieee

theorem pow2_eq (e : ℤ) : pow2 e = (2 : ℚ) ^ e := by
  unfold pow2
  split_ifs with h
  · obtain ⟨n, rfl⟩ := Int.eq_ofNat_of_zero_le h
    simp
  · obtain ⟨n, hn⟩ := Int.eq_ofNat_of_zero_le (by omega : 0 ≤ -e)
    have he : e = -(n : ℤ) := by omega
    subst he
    simp

theorem pow2_pos (e : ℤ) : 0 < pow2 e := by
  rw [pow2_eq]; positivity

theorem pow2_add (a b : ℤ) : pow2 (a + b) = pow2 a * pow2 b := by
  simp only [pow2_eq]
  exact zpow_add₀ (by norm_num) a b

theorem pow2_zero : pow2 0 = 1 := by simp [pow2_eq]

theorem pow2_le {a b : ℤ} (h : a ≤ b) : pow2 a ≤ pow2 b := by
  simp only [pow2_eq]
  exact zpow_le_zpow_right₀ (by norm_num) h

theorem pow2_lt {a b : ℤ} (h : a < b) : pow2 a < pow2 b := by
  simp only [pow2_eq]
  exact zpow_lt_zpow_right₀ (by norm_num) h

theorem lt_of_pow2_lt {a b : ℤ} (h : pow2 a < pow2 b) : a < b := by
  by_contra hc
  exact absurd (pow2_le (not_lt.mp hc)) (not_le.mpr h)

theorem pow2_natCast (n : ℕ) : pow2 (n : ℤ) = ((2 ^ n : ℕ) : ℚ) := by
  simp [pow2]

theorem pow2_sub_one (a : ℤ) : pow2 (a - 1) = pow2 a / 2 := by
  have h := pow2_add (a - 1) 1
  have h1 : pow2 1 = 2 := by simp [pow2_eq]
  rw [sub_add_cancel, h1] at h
  rw [h]; ring

end Ieee

namespace Ieee

theorem bitLenAux_zero (fuel : ℕ) : bitLenAux fuel 0 = 0 := by
  cases fuel <;> simp [bitLenAux]

theorem bitLenAux_spec : ∀ (fuel n : ℕ), n ≤ fuel → n ≠ 0 →
    2 ^ (bitLenAux fuel n - 1) ≤ n ∧ n < 2 ^ bitLenAux fuel n ∧ 1 ≤ bitLenAux fuel n := by
  intro fuel
  induction fuel with
  | zero => intro n h h0; omega
  | succ f ih =>
    intro n h h0
    have hstep : bitLenAux (f + 1) n = bitLenAux f (n / 2) + 1 := by
      simp [bitLenAux, h0]
    rw [hstep]
    by_cases h2 : n / 2 = 0
    · rw [h2, bitLenAux_zero]
      have : n = 1 := by omega
      subst this
      simp
    · obtain ⟨l1, l2, l3⟩ := ih (n / 2) (by omega) h2
      refine ⟨?_, ?_, by omega⟩
      · have e : bitLenAux f (n / 2) + 1 - 1 = (bitLenAux f (n / 2) - 1) + 1 := by omega
        rw [e, pow_succ]
        have : n / 2 * 2 ≤ n := Nat.div_mul_le_self n 2
        omega
      · rw [pow_succ]
        have : n < (n / 2 + 1) * 2 := by omega
        omega

theorem bitLen_spec (n : ℕ) (h0 : n ≠ 0) :
    2 ^ (bitLen n - 1) ≤ n ∧ n < 2 ^ bitLen n ∧ 1 ≤ bitLen n :=
  bitLenAux_spec n n le_rfl h0

theorem abs_eq_natAbs_div_den (x : ℚ) : |x| = (x.num.natAbs : ℚ) / (x.den : ℚ) := by
  have h := Rat.num_div_den x
  have hd : (0 : ℚ) < x.den := by exact_mod_cast x.den_pos
  conv_lhs => rw [← h]
  rw [abs_div, abs_of_pos hd, Nat.cast_natAbs, Int.cast_abs]

/-- The binary exponent brackets the magnitude. -/
theorem binExp_spec (x : ℚ) (hx : x ≠ 0) :
    pow2 (binExp x) ≤ |x| ∧ |x| < pow2 (binExp x + 1) := by
  have hp0 : x.num.natAbs ≠ 0 := by
    simpa using Rat.num_ne_zero.mpr hx
  have hq0 : x.den ≠ 0 := x.den_nz
  obtain ⟨p1, p2, p3⟩ := bitLen_spec _ hp0
  obtain ⟨q1, q2, q3⟩ := bitLen_spec _ hq0
  have habs := abs_eq_natAbs_div_den x
  set p := x.num.natAbs with hp
  set q := x.den with hq
  set a := bitLen p with ha
  set b := bitLen q with hb
  have hqpos : (0 : ℚ) < q := by exact_mod_cast Nat.pos_of_ne_zero hq0
  have P1 : pow2 ((a : ℤ) - 1) ≤ (p : ℚ) := by
    have : ((a : ℤ) - 1) = ((a - 1 : ℕ) : ℤ) := by omega
    rw [this, pow2_natCast]; exact_mod_cast p1
  have P2 : (p : ℚ) < pow2 (a : ℤ) := by
    rw [pow2_natCast]; exact_mod_cast p2
  have Q1 : pow2 ((b : ℤ) - 1) ≤ (q : ℚ) := by
    have : ((b : ℤ) - 1) = ((b - 1 : ℕ) : ℤ) := by omega
    rw [this, pow2_natCast]; exact_mod_cast q1
  have Q2 : (q : ℚ) < pow2 (b : ℤ) := by
    rw [pow2_natCast]; exact_mod_cast q2
  -- general bounds
  have lo : pow2 ((a : ℤ) - b - 1) ≤ |x| := by
    rw [habs, le_div_iff₀ hqpos]
    have e : pow2 ((a : ℤ) - 1) = pow2 ((a : ℤ) - b - 1) * pow2 b := by
      rw [← pow2_add]; congr 1; ring
    calc pow2 ((a : ℤ) - b - 1) * q ≤ pow2 ((a : ℤ) - b - 1) * pow2 b :=
          mul_le_mul_of_nonneg_left Q2.le (pow2_pos _).le
      _ = pow2 ((a : ℤ) - 1) := e.symm
      _ ≤ p := P1
  have hi : |x| < pow2 ((a : ℤ) - b + 1) := by
    rw [habs, div_lt_iff₀ hqpos]
    have e : pow2 (a : ℤ) = pow2 ((a : ℤ) - b + 1) * pow2 ((b : ℤ) - 1) := by
      rw [← pow2_add]; congr 1; ring
    calc (p : ℚ) < pow2 (a : ℤ) := P2
      _ = pow2 ((a : ℤ) - b + 1) * pow2 ((b : ℤ) - 1) := e
      _ ≤ pow2 ((a : ℤ) - b + 1) * q := mul_le_mul_of_nonneg_left Q1 (pow2_pos _).le
  unfold binExp
  rw [← hp, ← hq, ← ha, ← hb]
  split_ifs with h
  · exact ⟨h, hi⟩
  · refine ⟨lo, ?_⟩
    rw [sub_add_cancel]
    exact not_le.mp h

theorem binExp_lt_of_abs_lt {x : ℚ} (hx : x ≠ 0) {b : ℤ} (h : |x| < pow2 b) : binExp x < b :=
  lt_of_pow2_lt (lt_of_le_of_lt (binExp_spec x hx).1 h)

theorem le_binExp_of_le_abs {x : ℚ} (hx : x ≠ 0) {b : ℤ} (h : pow2 b ≤ |x|) : b ≤ binExp x := by
  have := lt_of_pow2_lt (lt_of_le_of_lt h (binExp_spec x hx).2)
  omega

/-- The binary exponent is the integer logarithm of the magnitude. -/
theorem binExp_eq_log (x : ℚ) (hx : x ≠ 0) : binExp x = Int.log 2 |x| := by
  obtain ⟨h1, h2⟩ := binExp_spec x hx
  rw [pow2_eq] at h1 h2
  have hpos : 0 < |x| := abs_pos.mpr hx
  apply le_antisymm
  · exact (Int.zpow_le_iff_le_log (by norm_num) hpos).mp h1
  · exact Int.lt_add_one_iff.mp ((Int.lt_zpow_iff_log_lt (by norm_num) hpos).mp h2)

end Ieee

namespace Ieee

theorem le_of_pow2_le {a b : ℤ} (h : pow2 a ≤ pow2 b) : a ≤ b := by
  by_contra hc
  exact absurd (pow2_lt (not_le.mp hc)) (not_lt.mpr h)

theorem roundHalfEven_cases (y : ℚ) :
    roundHalfEven y = ⌊y⌋ ∨ roundHalfEven y = ⌊y⌋ + 1 := by
  unfold roundHalfEven
  split_ifs <;> simp

theorem abs_roundHalfEven_sub_le (y : ℚ) : |(roundHalfEven y : ℚ) - y| ≤ 1 / 2 := by
  have h1 := Int.floor_le y
  have h2 := Int.lt_floor_add_one y
  unfold roundHalfEven
  split_ifs with a b c
  · rw [abs_le]; constructor <;> linarith
  · rw [abs_le]; push_cast; constructor <;> linarith
  · have : y - ⌊y⌋ = 1 / 2 := le_antisymm (not_lt.mp b) (not_lt.mp a)
    rw [abs_le]; constructor <;> linarith
  · have : y - ⌊y⌋ = 1 / 2 := le_antisymm (not_lt.mp b) (not_lt.mp a)
    rw [abs_le]; push_cast; constructor <;> linarith

theorem roundHalfEven_intCast (z : ℤ) : roundHalfEven (z : ℚ) = z := by
  unfold roundHalfEven
  simp

theorem int_le_roundHalfEven {z : ℤ} {y : ℚ} (h : (z : ℚ) ≤ y) : z ≤ roundHalfEven y := by
  have : z ≤ ⌊y⌋ := Int.le_floor.mpr h
  rcases roundHalfEven_cases y with e | e <;> rw [e] <;> omega

theorem roundHalfEven_le_int {z : ℤ} {y : ℚ} (h : y ≤ (z : ℚ)) : roundHalfEven y ≤ z := by
  by_cases hy : y = z
  · rw [hy, roundHalfEven_intCast]
  · have hlt : y < z := lt_of_le_of_ne h hy
    have : ⌊y⌋ < z := Int.floor_lt.mpr hlt
    rcases roundHalfEven_cases y with e | e <;> rw [e] <;> omega

theorem roundToDouble_zero : roundToDouble 0 = 0 := by
  simp [roundToDouble]

/-- Rounding moves a number by at most half the spacing of the doubles around it. -/
theorem abs_roundToDouble_sub_le (x : ℚ) : |roundToDouble x - x| ≤ pow2 (ulpExp x) / 2 := by
  have hp := pow2_pos (ulpExp x)
  unfold roundToDouble
  split_ifs with h
  · subst h
    simp only [sub_self, abs_zero]
    positivity
  · have hr := abs_roundHalfEven_sub_le (x / pow2 (ulpExp x))
    have e : (roundHalfEven (x / pow2 (ulpExp x)) : ℚ) * pow2 (ulpExp x) - x
        = ((roundHalfEven (x / pow2 (ulpExp x)) : ℚ) - x / pow2 (ulpExp x)) * pow2 (ulpExp x) := by
      field_simp
    rw [e, abs_mul, abs_of_pos hp]
    calc |(roundHalfEven (x / pow2 (ulpExp x)) : ℚ) - x / pow2 (ulpExp x)| * pow2 (ulpExp x)
        ≤ 1 / 2 * pow2 (ulpExp x) := mul_le_mul_of_nonneg_right hr hp.le
      _ = pow2 (ulpExp x) / 2 := by ring

/-- A multiple of the spacing below `x` stays below the rounded `x`. -/
theorem roundToDouble_ge_of_grid {x d : ℚ} (z : ℤ) (hd : d = z * pow2 (ulpExp x)) (h : d ≤ x) :
    d ≤ roundToDouble x := by
  have hp := pow2_pos (ulpExp x)
  unfold roundToDouble
  split_ifs with h0
  · rw [h0] at h; exact h
  · have hz : (z : ℚ) ≤ x / pow2 (ulpExp x) := by
      rw [le_div_iff₀ hp, ← hd]; exact h
    have := int_le_roundHalfEven hz
    rw [hd]
    exact mul_le_mul_of_nonneg_right (by exact_mod_cast this) hp.le

/-- A multiple of the spacing above `x` stays above the rounded `x`. -/
theorem roundToDouble_le_of_grid {x d : ℚ} (z : ℤ) (hd : d = z * pow2 (ulpExp x)) (h : x ≤ d) :
    roundToDouble x ≤ d := by
  have hp := pow2_pos (ulpExp x)
  unfold roundToDouble
  split_ifs with h0
  · rw [h0] at h; exact h
  · have hz : x / pow2 (ulpExp x) ≤ (z : ℚ) := by
      rw [div_le_iff₀ hp, ← hd]; exact h
    have := roundHalfEven_le_int hz
    rw [hd]
    exact mul_le_mul_of_nonneg_right (by exact_mod_cast this) hp.le

theorem roundToDouble_of_grid {x : ℚ} (z : ℤ) (hx : x = z * pow2 (ulpExp x)) :
    roundToDouble x = x :=
  le_antisymm (roundToDouble_le_of_grid z hx le_rfl) (roundToDouble_ge_of_grid z hx le_rfl)

theorem roundToDouble_nonneg {x : ℚ} (h : 0 ≤ x) : 0 ≤ roundToDouble x :=
  roundToDouble_ge_of_grid 0 (by simp) h

theorem roundToDouble_nonpos {x : ℚ} (h : x ≤ 0) : roundToDouble x ≤ 0 :=
  roundToDouble_le_of_grid 0 (by simp) h

theorem ulpExp_le_of_abs_lt {x : ℚ} (hx : x ≠ 0) {b : ℤ} (hb : -1021 ≤ b) (h : |x| < pow2 b) :
    ulpExp x ≤ b - 53 := by
  have := binExp_lt_of_abs_lt hx h
  unfold ulpExp
  rcases max_cases (binExp x) (-1022) with ⟨e, _⟩ | ⟨e, _⟩ <;> rw [e] <;> omega

theorem ulpExp_le_of_abs_le {x : ℚ} (hx : x ≠ 0) {b : ℤ} (hb : -1022 ≤ b) (h : |x| ≤ pow2 b) :
    ulpExp x ≤ b - 52 := by
  have := le_of_pow2_le (le_trans (binExp_spec x hx).1 h)
  unfold ulpExp
  rcases max_cases (binExp x) (-1022) with ⟨e, _⟩ | ⟨e, _⟩ <;> rw [e] <;> omega

theorem ulpExp_of_normal {x : ℚ} (h : pow2 (-1022) ≤ |x|) : ulpExp x = binExp x - 52 := by
  have hx : x ≠ 0 := by
    intro h0
    rw [h0, abs_zero] at h
    exact absurd (pow2_pos (-1022)) (not_lt.mpr h)
  have := le_binExp_of_le_abs hx h
  unfold ulpExp
  rw [max_eq_left this]

theorem grid_pow2 {x : ℚ} {j : ℤ} (m : ℤ) (h : ulpExp x ≤ j) :
    ∃ z : ℤ, (m : ℚ) * pow2 j = z * pow2 (ulpExp x) := by
  obtain ⟨n, hn⟩ := Int.eq_ofNat_of_zero_le (by omega : 0 ≤ j - ulpExp x)
  refine ⟨m * 2 ^ n, ?_⟩
  have e : j = (n : ℤ) + ulpExp x := by omega
  rw [e, pow2_add, pow2_natCast]
  push_cast
  ring

/-- Rounding a number below `2 ^ b` moves it by at most `2 ^ (b - 54)`. -/
theorem abs_roundToDouble_sub_le_of_lt {x : ℚ} {b : ℤ} (hb : -1021 ≤ b) (h : |x| < pow2 b) :
    |roundToDouble x - x| ≤ pow2 (b - 54) := by
  by_cases hx : x = 0
  · subst hx
    rw [roundToDouble_zero, sub_self, abs_zero]
    exact (pow2_pos _).le
  · have h1 := abs_roundToDouble_sub_le x
    have h2 := ulpExp_le_of_abs_lt hx hb h
    rw [← pow2_sub_one] at h1
    exact le_trans h1 (pow2_le (by omega))

/-- In the normal range rounding has relative error at most `2 ^ -53`. -/
theorem abs_roundToDouble_sub_le_rel {x : ℚ} (h : pow2 (-1022) ≤ |x|) :
    |roundToDouble x - x| ≤ |x| / 2 ^ 53 := by
  have hx : x ≠ 0 := by
    intro h0
    rw [h0, abs_zero] at h
    exact absurd (pow2_pos (-1022)) (not_lt.mpr h)
  have h1 := abs_roundToDouble_sub_le x
  have h2 := (binExp_spec x hx).1
  have h3 := ulpExp_of_normal h
  have e : pow2 (binExp x) = pow2 (ulpExp x) * 2 ^ 52 := by
    have : binExp x = ulpExp x + 52 := by omega
    rw [this, pow2_add]
    congr 1
  rw [e] at h2
  have hp := pow2_pos (ulpExp x)
  calc |roundToDouble x - x| ≤ pow2 (ulpExp x) / 2 := h1
    _ = pow2 (ulpExp x) * 2 ^ 52 / 2 ^ 53 := by ring
    _ ≤ |x| / 2 ^ 53 := by
      apply div_le_div_of_nonneg_right h2
      positivity

theorem roundToDouble_ge_pow2 {x : ℚ} {j : ℤ} (hj : -1022 ≤ j) (h : pow2 j ≤ x) :
    pow2 j ≤ roundToDouble x := by
  have hxpos : 0 < x := lt_of_lt_of_le (pow2_pos j) h
  have hx : x ≠ 0 := hxpos.ne'
  have habs : |x| = x := abs_of_pos hxpos
  have hjb : j ≤ binExp x := le_binExp_of_le_abs hx (by rw [habs]; exact h)
  have hn : pow2 (-1022) ≤ |x| := by
    rw [habs]; exact le_trans (pow2_le hj) h
  have hu := ulpExp_of_normal hn
  obtain ⟨z, hz⟩ := grid_pow2 (x := x) (j := binExp x) 1 (by omega)
  have hb := (binExp_spec x hx).1
  rw [habs] at hb
  have := roundToDouble_ge_of_grid z (by rw [← hz]; simp) hb
  exact le_trans (pow2_le hjb) this

theorem roundToDouble_le_pow2 {x : ℚ} {j : ℤ} (hj : -1022 ≤ j) (h : x ≤ pow2 j) :
    roundToDouble x ≤ pow2 j := by
  rcases le_or_lt x 0 with h0 | h0
  · exact le_trans (roundToDouble_nonpos h0) (pow2_pos j).le
  · have hx : x ≠ 0 := h0.ne'
    have habs : |x| = x := abs_of_pos h0
    have hu := ulpExp_le_of_abs_le hx hj (by rw [habs]; exact h)
    obtain ⟨z, hz⟩ := grid_pow2 (x := x) (j := j) 1 (by omega)
    exact roundToDouble_le_of_grid z (by rw [← hz]; simp) h

/-- A natural number below `2 ^ 53` is a double. -/
theorem roundToDouble_natCast (n : ℕ) (h : n < 2 ^ 53) : roundToDouble (n : ℚ) = n := by
  by_cases h0 : (n : ℚ) = 0
  · rw [h0, roundToDouble_zero]
  · have habs : |(n : ℚ)| < pow2 53 := by
      rw [abs_of_nonneg (Nat.cast_nonneg n)]
      have : pow2 53 = ((2 ^ 53 : ℕ) : ℚ) := pow2_natCast 53
      rw [this]
      exact_mod_cast h
    have hu := ulpExp_le_of_abs_lt h0 (by norm_num) habs
    obtain ⟨z, hz⟩ := grid_pow2 (x := (n : ℚ)) (j := 0) (n : ℤ) (by omega)
    apply roundToDouble_of_grid z
    rw [← hz, pow2_zero]
    simp

theorem overflowBound_eq : overflowBound = pow2 1024 := (pow2_natCast 1024).symm

/-- Below `2 ^ 1023` in magnitude nothing overflows. -/
theorem fl_of_abs_lt {x : ℚ} (h : |x| < pow2 1023) : fl x = .fin (roundToDouble x) := by
  have h1 := abs_roundToDouble_sub_le_of_lt (by norm_num) h
  have h2 : pow2 (1023 - 54) ≤ pow2 1023 := pow2_le (by norm_num)
  have h3 : pow2 1024 = pow2 1023 * 2 := by
    have := pow2_add 1023 1
    have e1 : pow2 1 = 2 := by simp [pow2_eq]
    rw [e1] at this
    exact this
  have hp := pow2_pos 1023
  rw [abs_lt] at h
  rw [abs_le] at h1
  unfold fl
  rw [overflowBound_eq, h3]
  rw [if_neg (by linarith), if_neg (by linarith)]

theorem fl_natCast (n : ℕ) (h : n < 2 ^ 53) : fl (n : ℚ) = .fin n := by
  rw [fl_of_abs_lt, roundToDouble_natCast n h]
  rw [abs_of_nonneg (Nat.cast_nonneg n)]
  have h1 : pow2 53 = ((2 ^ 53 : ℕ) : ℚ) := pow2_natCast 53
  have h2 : pow2 53 ≤ pow2 1023 := pow2_le (by norm_num)
  have h3 : (n : ℚ) < ((2 ^ 53 : ℕ) : ℚ) := by exact_mod_cast h
  linarith

theorem fl_zero : fl 0 = .fin 0 := by
  have := fl_natCast 0 (by norm_num)
  simpa using this

theorem fl_one : fl 1 = .fin 1 := by
  have := fl_natCast 1 (by norm_num)
  simpa using this

end Ieee

namespace Ieee

theorem foldl_add_nat : ∀ (arr : List ℚ), (∀ x ∈ arr, ∃ c : ℕ, x = c) →
    ∀ s : ℕ, (s : ℚ) + arr.sum < 2 ^ 53 →
      arr.foldl (fun s x => add s (.fin x)) (.fin (s : ℚ)) = .fin ((s : ℚ) + arr.sum) := by
  intro arr
  induction arr with
  | nil => intro _ s _; simp
  | cons x xs ih =>
    intro hint s hs
    obtain ⟨c, hc⟩ := hint x (List.mem_cons_self x xs)
    have hxs : ∀ y ∈ xs, ∃ c : ℕ, y = c := fun y hy => hint y (List.mem_cons_of_mem x hy)
    have hnn : 0 ≤ xs.sum := by
      apply List.sum_nonneg
      intro y hy
      obtain ⟨d, hd⟩ := hxs y hy
      rw [hd]; exact Nat.cast_nonneg d
    rw [List.sum_cons, hc] at hs
    have hsc : s + c < 2 ^ 53 := by
      have : ((s + c : ℕ) : ℚ) < ((2 ^ 53 : ℕ) : ℚ) := by push_cast; linarith
      exact_mod_cast this
    have hstep : add (.fin (s : ℚ)) (.fin x) = .fin (((s + c : ℕ) : ℚ)) := by
      have : add (.fin (s : ℚ)) (.fin x) = fl ((s : ℚ) + x) := rfl
      rw [this, hc, ← Nat.cast_add, fl_natCast _ hsc]
    rw [List.foldl_cons, hstep, ih hxs (s + c) (by push_cast; linarith), List.sum_cons, hc]
    push_cast
    rw [add_assoc]

theorem mean_of_nat (arr : List ℚ) (hne : arr ≠ []) (hint : ∀ x ∈ arr, ∃ c : ℕ, x = c)
    (hsum : arr.sum < 2 ^ 53) : mean arr = fl (arr.sum / arr.length) := by
  have hlen : arr.length ≠ 0 := by
    intro h; exact hne (List.length_eq_zero.mp h)
  have hf := foldl_add_nat arr hint 0 (by simpa using hsum)
  simp only [Nat.cast_zero, zero_add] at hf
  unfold mean
  rw [if_neg hlen, hf]
  have hq : (arr.length : ℚ) ≠ 0 := by exact_mod_cast hlen
  show div (.fin arr.sum) (.fin (arr.length : ℚ)) = _
  simp only [div]
  rw [if_neg hq]

/-- The quotient of a total below `2 ^ 52` by a length below `2 ^ 32` rounds, as a
double, to the same integer as the exact quotient. -/
theorem mathRound_roundToDouble_div (S n : ℕ) (hn : 0 < n) (hn32 : n < 2 ^ 32)
    (hS : S < 2 ^ 52) :
    Worker.mathRound (roundToDouble ((S : ℚ) / n)) = Worker.mathRound ((S : ℚ) / n) := by
  have hnq : (0 : ℚ) < n := by exact_mod_cast hn
  rcases Nat.eq_zero_or_pos S with h0 | hpos
  · subst h0; simp [roundToDouble_zero]
  have hSq : (1 : ℚ) ≤ S := by exact_mod_cast hpos
  have hS52 : (S : ℚ) < 2 ^ 52 := by exact_mod_cast hS
  have hn32q : (n : ℚ) < 2 ^ 32 := by exact_mod_cast hn32
  have hn1 : (1 : ℚ) ≤ n := by exact_mod_cast hn
  set x : ℚ := (S : ℚ) / n with hx
  have hxn : x * n = S := by rw [hx]; field_simp
  have hxpos : 0 < x := by rw [hx]; positivity
  have hxS : x ≤ S := by
    rw [hx]; exact div_le_self (by linarith) hn1
  have habs : |x| = x := abs_of_pos hxpos
  have hx0 : x ≠ 0 := hxpos.ne'
  have hlt52 : |x| < pow2 52 := by
    rw [habs]
    have : pow2 52 = 2 ^ 52 := by rw [pow2_eq]; norm_num
    rw [this]; linarith
  have hu : ulpExp x ≤ -1 := by
    have := ulpExp_le_of_abs_lt hx0 (by norm_num) hlt52
    omega
  have hnormal : pow2 (-1022) ≤ |x| := by
    rw [habs]
    have h1 : pow2 (-1022) ≤ pow2 (-32) := pow2_le (by norm_num)
    have h2 : pow2 (-32) = 1 / 2 ^ 32 := by rw [pow2_eq]; norm_num
    have h3 : (1 : ℚ) / 2 ^ 32 ≤ x := by
      rw [hx, le_div_iff₀ hnq]
      have : (1 : ℚ) / 2 ^ 32 * n ≤ 1 := by
        rw [div_mul_eq_mul_div, one_mul, div_le_one (by positivity)]
        exact hn32q.le
      linarith
    linarith
  have herr := abs_roundToDouble_sub_le_rel hnormal
  rw [habs, abs_le] at herr
  unfold Worker.mathRound
  set k : ℤ := ⌊x + 1 / 2⌋ with hk
  have hk1 : (k : ℚ) ≤ x + 1 / 2 := Int.floor_le _
  have hk2 : x + 1 / 2 < (k : ℚ) + 1 := Int.lt_floor_add_one _
  rw [Int.floor_eq_iff]
  constructor
  · obtain ⟨z, hz⟩ := grid_pow2 (x := x) (j := -1) (2 * k - 1) hu
    have hhalf : pow2 (-1) = 1 / 2 := by rw [pow2_eq]; norm_num
    have hd : (k : ℚ) - 1 / 2 = z * pow2 (ulpExp x) := by
      rw [← hz, hhalf]; push_cast; ring
    have := roundToDouble_ge_of_grid z hd (by linarith)
    linarith
  · have hint : 2 * (S : ℤ) + 1 ≤ (n : ℤ) * (2 * k + 1) := by
      have : (((2 * (S : ℤ)) : ℤ) : ℚ) < (((n : ℤ) * (2 * k + 1) : ℤ) : ℚ) := by
        push_cast
        rw [← hxn]
        nlinarith
      have := Int.cast_lt.mp this
      omega
    have hq : 2 * (S : ℚ) + 1 ≤ (n : ℚ) * (2 * k + 1) := by exact_mod_cast hint
    have herr2 : (roundToDouble x - x) * n < 1 / 2 := by
      have h1 : (roundToDouble x - x) * n ≤ x / 2 ^ 53 * n :=
        mul_le_mul_of_nonneg_right herr.2 hnq.le
      have h2 : x / 2 ^ 53 * n = S / 2 ^ 53 := by rw [← hxn]; ring
      have h3 : (S : ℚ) / 2 ^ 53 < 1 / 2 := by
        rw [div_lt_iff₀ (by positivity)]; linarith
      linarith
    have : (roundToDouble x + 1 / 2) * n < ((k : ℚ) + 1) * n := by nlinarith
    exact lt_of_mul_lt_mul_right this hnq.le

end Ieee

theorem sum_eq_natCast : ∀ (arr : List ℚ), (∀ x ∈ arr, ∃ c : ℕ, x = c) →
    ∃ S : ℕ, arr.sum = S := by
  intro arr
  induction arr with
  | nil => intro _; exact ⟨0, by simp⟩
  | cons x xs ih =>
    intro h
    obtain ⟨c, hc⟩ := h x (List.mem_cons_self x xs)
    obtain ⟨S, hS⟩ := ih (fun y hy => h y (List.mem_cons_of_mem x hy))
    exact ⟨c + S, by rw [List.sum_cons, hc, hS]; push_cast; rfl⟩

theorem ieee_avgViews_eq (w : World) (videos : List EnrichedVideo) (days : ℤ) :
    (Ieee.computeMetrics w videos days).avgViews
      = Ieee.round0 (Ieee.mean (videos.map (·.viewCount))) := rfl

/-- C18, corrected. For a non-empty list of fewer than `2 ^ 32` videos whose view
counts are non-negative integers of total below `2 ^ 52`, the field `avgViews`
computed in double arithmetic is the exact arithmetic mean of the view counts
rounded to the nearest integer, halves going up; it is the mean itself when the
mean is an integer. -/
theorem avgViews_nearest_integer (w : World) (videos : List EnrichedVideo) (days : ℤ)
    (hne : videos ≠ []) (hlen : videos.length < 2 ^ 32)
    (hint : ∀ v ∈ videos, ∃ c : ℕ, v.viewCount = c)
    (hsum : (videos.map (·.viewCount)).sum < 2 ^ 52) :
    (Ieee.computeMetrics w videos days).avgViews
        = .fin ((⌊(videos.map (·.viewCount)).sum / (videos.length : ℚ) + 1 / 2⌋ : ℤ) : ℚ)
      ∧ ∀ z : ℤ, (videos.map (·.viewCount)).sum / (videos.length : ℚ) = z →
          (Ieee.computeMetrics w videos days).avgViews = .fin (z : ℚ) := by
  have hint2 : ∀ x ∈ videos.map (fun v => v.viewCount), ∃ c : ℕ, x = (c : ℚ) := by
    intro x hx
    obtain ⟨v, hv, rfl⟩ := List.mem_map.mp hx
    exact hint v hv
  have hne2 : videos.map (·.viewCount) ≠ [] := by
    intro h; exact hne (List.map_eq_nil_iff.mp h)
  obtain ⟨S, hS⟩ := sum_eq_natCast _ hint2
  have hS52 : S < 2 ^ 52 := by
    have : (S : ℚ) < ((2 ^ 52 : ℕ) : ℚ) := by rw [← hS]; push_cast; exact hsum
    exact_mod_cast this
  have hpos : 0 < videos.length := List.length_pos.mpr hne
  have hmean := Ieee.mean_of_nat _ hne2 hint2 (by rw [hS]; exact_mod_cast (by omega : S < 2 ^ 53))
  rw [List.length_map, hS] at hmean
  have hxS : |(S : ℚ) / (videos.length : ℚ)| < Ieee.pow2 1023 := by
    have h1 : (1 : ℚ) ≤ videos.length := by exact_mod_cast hpos
    have h2 : (0 : ℚ) ≤ S := Nat.cast_nonneg S
    rw [abs_of_nonneg (by positivity)]
    have h3 : (S : ℚ) / videos.length ≤ S := div_le_self h2 h1
    have h4 : (S : ℚ) < 2 ^ 52 := by exact_mod_cast hS52
    have h5 : Ieee.pow2 52 ≤ Ieee.pow2 1023 := Ieee.pow2_le (by norm_num)
    have h6 : Ieee.pow2 52 = 2 ^ 52 := by rw [Ieee.pow2_eq]; norm_num
    linarith
  have hkey : (Ieee.computeMetrics w videos days).avgViews
      = .fin ((⌊(S : ℚ) / (videos.length : ℚ) + 1 / 2⌋ : ℤ) : ℚ) := by
    rw [ieee_avgViews_eq, hmean, Ieee.fl_of_abs_lt hxS]
    show JsNum.fin ((mathRound (Ieee.roundToDouble ((S : ℚ) / (videos.length : ℚ))) : ℤ) : ℚ) = _
    rw [Ieee.mathRound_roundToDouble_div S videos.length hpos hlen hS52]
    rfl
  rw [hS]
  refine ⟨hkey, ?_⟩
  intro z hz
  rw [hkey, hz]
  congr 2
  rw [Int.floor_eq_iff]
  constructor <;> linarith

/-- C18, witness: for the view counts 1 and 2 the mean 1.5 is reported as 2. -/
theorem avgViews_nearest_integer_witness :
    [viewsVideo 1, viewsVideo 2] ≠ []
      ∧ [viewsVideo 1, viewsVideo 2].length < 2 ^ 32
      ∧ (∀ v ∈ [viewsVideo 1, viewsVideo 2], ∃ c : ℕ, v.viewCount = c)
      ∧ ([viewsVideo 1, viewsVideo 2].map (·.viewCount)).sum < 2 ^ 52
      ∧ (Ieee.computeMetrics ieeeWorld [viewsVideo 1, viewsVideo 2] 30).avgViews
          = .fin ((⌊([viewsVideo 1, viewsVideo 2].map (·.viewCount)).sum
              / ([viewsVideo 1, viewsVideo 2].length : ℚ) + 1 / 2⌋ : ℤ) : ℚ) :=
  have h3 : ∀ v ∈ [viewsVideo 1, viewsVideo 2], ∃ c : ℕ, v.viewCount = c := by
    intro v hv
    simp only [List.mem_cons, List.mem_singleton, List.not_mem_nil, or_false] at hv
    rcases hv with rfl | rfl
    · exact ⟨1, by simp [viewsVideo]⟩
    · exact ⟨2, by simp [viewsVideo]⟩
  have h4 : ([viewsVideo 1, viewsVideo 2].map (·.viewCount)).sum < 2 ^ 52 := by
    simp [viewsVideo]; norm_num
  ⟨by simp, by simp, h3, h4,
    (avgViews_nearest_integer ieeeWorld [viewsVideo 1, viewsVideo 2] 30 (by simp) (by simp)
      h3 h4).1⟩

/-- C18 fails as stated: two videos with 1 and 2 views have arithmetic mean
1.5, which the double-precision mean computes exactly, yet `avgViews` is 2. -/
theorem avgViews_not_mean :
    (Ieee.computeMetrics ieeeWorld [viewsVideo 1, viewsVideo 2] 30).avgViews = .fin 2
      ∧ Ieee.mean ([viewsVideo 1, viewsVideo 2].map (·.viewCount)) = .fin (3 / 2)
      ∧ ([viewsVideo 1, viewsVideo 2].map (·.viewCount)).sum
          / ([viewsVideo 1, viewsVideo 2].length : ℚ) = 3 / 2
      ∧ (Ieee.computeMetrics ieeeWorld [viewsVideo 1, viewsVideo 2] 30).avgViews
          ≠ .fin (([viewsVideo 1, viewsVideo 2].map (·.viewCount)).sum
              / ([viewsVideo 1, viewsVideo 2].length : ℚ)) := by
  decide!

namespace Ieee

theorem sub_self_fin (c : ℚ) : sub (.fin c) (.fin c) = .fin 0 := by
  show fl (c + -c) = _
  rw [add_neg_cancel, fl_zero]

theorem mul_zero_fin : mul (.fin 0) (.fin 0) = .fin 0 := by
  show fl (0 * 0) = _
  rw [mul_zero, fl_zero]

theorem add_zero_fin : add (.fin 0) (.fin 0) = .fin 0 := by
  show fl (0 + 0) = _
  rw [add_zero, fl_zero]

theorem div_zero_fin {c : ℚ} (hc : c ≠ 0) : div (.fin 0) (.fin c) = .fin 0 := by
  simp only [div]
  rw [if_neg hc, zero_div, fl_zero]

theorem foldl_dev_replicate (c : ℚ) (n : ℕ) :
    (List.replicate n c).foldl
      (fun v x => add v (mul (sub (.fin x) (.fin c)) (sub (.fin x) (.fin c)))) (.fin 0)
      = .fin 0 := by
  induction n with
  | zero => rfl
  | succ k ih =>
    rw [List.replicate_succ, List.foldl_cons, sub_self_fin, mul_zero_fin, add_zero_fin, ih]

theorem mean_replicate_nat (n c : ℕ) (hn : n ≠ 0) (h : n * c < 2 ^ 53) :
    mean (List.replicate n (c : ℚ)) = .fin (c : ℚ) := by
  have hnq : (n : ℚ) ≠ 0 := by exact_mod_cast hn
  have hsum : (List.replicate n (c : ℚ)).sum = ((n * c : ℕ) : ℚ) := by
    rw [List.sum_replicate, nsmul_eq_mul]; push_cast; rfl
  have hcn : c ≤ n * c := Nat.le_mul_of_pos_left c (Nat.pos_of_ne_zero hn)
  rw [mean_of_nat _ (by
      intro h0
      have := congrArg List.length h0
      simp only [List.length_replicate, List.length_nil] at this
      exact hn this)
    (by
      intro x hx
      exact ⟨c, (List.eq_of_mem_replicate hx)⟩)
    (by rw [hsum]; exact_mod_cast h)]
  rw [hsum, List.length_replicate]
  have : (((n * c : ℕ) : ℚ)) / (n : ℚ) = (c : ℚ) := by
    push_cast; field_simp
  rw [this, fl_natCast c (by omega)]

theorem coeffVar_replicate_nat (w : World) (hsqrt : w.sqrt 0 = 0) (n c : ℕ)
    (h : n * c < 2 ^ 53) : coeffVar w (List.replicate n (c : ℚ)) = .fin 0 := by
  simp only [coeffVar]
  split_ifs with h1 h2
  · rfl
  · rfl
  · simp only [List.length_replicate] at h1
    have hn : n ≠ 0 := by omega
    rw [mean_replicate_nat n c hn h] at h2 ⊢
    have hc : (c : ℚ) ≠ 0 := by
      intro h0
      apply h2
      rw [h0]
      decide
    have hn1 : (n : ℚ) - 1 ≠ 0 := by
      have : (2 : ℚ) ≤ n := by exact_mod_cast (by omega : 2 ≤ n)
      intro h0
      linarith
    rw [foldl_dev_replicate, List.length_replicate, div_zero_fin hn1]
    have hs : mathSqrt w.sqrt (.fin 0) = .fin 0 := by
      simp [mathSqrt, hsqrt]
    rw [hs, div_zero_fin hc]

end Ieee

/-- C16, corrected. When all view counts equal the same non-negative integer `c`
and the number of videos times `c` is below `2 ^ 53`, so that every partial sum of
the counts is a double, the coefficient of variation computed in double
arithmetic is 0 and the stability score is exactly 1 (the square root of 0
being 0). -/
theorem stabilityScore_constant_exact (w : World) (hsqrt : w.sqrt 0 = 0)
    (videos : List EnrichedVideo) (c : ℕ) (days : ℤ)
    (hconst : ∀ v ∈ videos, v.viewCount = (c : ℚ))
    (hsum : videos.length * c < 2 ^ 53) :
    Ieee.coeffVar w (videos.map (·.viewCount)) = .fin 0 ∧
    (Ieee.computeMetrics w videos days).stabilityScore = .fin 1 := by
  have hcv : Ieee.coeffVar w (videos.map (·.viewCount)) = .fin 0 := by
    rw [views_eq_replicate videos c hconst]
    exact Ieee.coeffVar_replicate_nat w hsqrt _ _ hsum
  refine ⟨hcv, ?_⟩
  show JsNum.fin (clamp01 (Ieee.sub (.fin 1)
    (Ieee.div (Ieee.coeffVar w (videos.map (·.viewCount))) (Ieee.lit (12 / 10))))) = _
  rw [hcv]
  decide!

/-- C16, witness: three videos of 1000 views each. -/
theorem stabilityScore_constant_exact_witness :
    ieeeWorld.sqrt 0 = 0
      ∧ (∀ v ∈ [viewsVideo 1000, viewsVideo 1000, viewsVideo 1000], v.viewCount = ((1000 : ℕ) : ℚ))
      ∧ [viewsVideo 1000, viewsVideo 1000, viewsVideo 1000].length * 1000 < 2 ^ 53
      ∧ Ieee.coeffVar ieeeWorld ([viewsVideo 1000, viewsVideo 1000, viewsVideo 1000].map
          (·.viewCount)) = .fin 0
      ∧ (Ieee.computeMetrics ieeeWorld [viewsVideo 1000, viewsVideo 1000, viewsVideo 1000]
          30).stabilityScore = .fin 1 :=
  have h1 : ieeeWorld.sqrt 0 = 0 := by decide!
  have h2 : ∀ v ∈ [viewsVideo 1000, viewsVideo 1000, viewsVideo 1000],
      v.viewCount = ((1000 : ℕ) : ℚ) := by
    intro v hv
    simp only [List.mem_cons, List.mem_singleton, List.not_mem_nil, or_false] at hv
    rcases hv with h | h | h <;> subst h <;> simp [viewsVideo]
  have h3 : [viewsVideo 1000, viewsVideo 1000, viewsVideo 1000].length * 1000 < 2 ^ 53 := by
    decide
  ⟨h1, h2, h3, stabilityScore_constant_exact ieeeWorld h1
    [viewsVideo 1000, viewsVideo 1000, viewsVideo 1000] 1000 30 h2 h3⟩

/-- C16 fails as stated: for five videos of `2 ^ 53 - 1` views each the sum of
the counts is rounded, the mean comes out as `2 ^ 53 - 2`, every deviation is 1,
the coefficient of variation is positive and the stability score is
`1 - 2 ^ -53`, the double just below 1. The square root used is the correctly
rounded one: `sqrt 1.25` lies within half a unit in the last place of the value
used. -/
theorem stabilityScore_constant_below_one :
    Ieee.mean ((List.replicate 5 (viewsVideo (2 ^ 53 - 1))).map (·.viewCount))
        = .fin (2 ^ 53 - 2)
      ∧ Ieee.coeffVar ieeeWorld ((List.replicate 5 (viewsVideo (2 ^ 53 - 1))).map (·.viewCount))
        = .fin (5035177455121577 / 2 ^ 105)
      ∧ (Ieee.computeMetrics ieeeWorld (List.replicate 5 (viewsVideo (2 ^ 53 - 1)))
          30).stabilityScore = .fin (1 - 1 / 2 ^ 53)
      ∧ (Ieee.computeMetrics ieeeWorld (List.replicate 5 (viewsVideo (2 ^ 53 - 1)))
          30).stabilityScore ≠ .fin 1
      ∧ (ieeeWorld.sqrt (5 / 4) - 1 / 2 ^ 53) ^ 2 < 5 / 4
      ∧ 5 / 4 < (ieeeWorld.sqrt (5 / 4) + 1 / 2 ^ 53) ^ 2 := by
  decide!

/-! ## The decision score in double arithmetic -/

theorem specNormalize_of_nonpos {q : ℚ} (h : q ≤ 0) : specNormalize q = 0 := by
  unfold specNormalize
  split_ifs with h1 h2
  · rfl
  · linarith
  · linarith

theorem specNormalize_of_one_le {q : ℚ} (h : 1 ≤ q) : specNormalize q = 1 := by
  unfold specNormalize
  split_ifs with h1 h2
  · linarith
  · rfl
  · linarith

theorem specNormalize_of_mem {q : ℚ} (h0 : 0 ≤ q) (h1 : q ≤ 1) : specNormalize q = q := by
  unfold specNormalize
  split_ifs with h2 h3
  · linarith
  · linarith
  · rfl

theorem abs_specNormalize_sub_le (a b : ℚ) :
    |specNormalize a - specNormalize b| ≤ |a - b| := by
  have h1 := le_abs_self (a - b)
  have h2 := neg_abs_le (a - b)
  unfold specNormalize
  rw [abs_le]
  split_ifs <;> constructor <;> linarith

namespace Ieee

theorem overflowBound_pos : 0 < overflowBound := by
  rw [overflowBound_eq]; exact pow2_pos _

theorem clamp01_posInf : clamp01 .posInf = 1 := by
  simp [clamp01, JsNum.orZero]

theorem clamp01_negInf : clamp01 .negInf = 0 := by
  simp [clamp01, JsNum.orZero]

theorem clamp01_fl_of_nonpos {y : ℚ} (h : y ≤ 0) : clamp01 (fl y) = 0 := by
  have hr := roundToDouble_nonpos h
  have hb := overflowBound_pos
  unfold fl
  rw [if_neg (by linarith)]
  split_ifs
  · exact clamp01_negInf
  · rw [clamp01_fin, specNormalize_of_nonpos hr]

theorem clamp01_fl_of_one_le {y : ℚ} (h : 1 ≤ y) : clamp01 (fl y) = 1 := by
  have hr : 1 ≤ roundToDouble y := by
    have := roundToDouble_ge_pow2 (x := y) (j := 0) (by norm_num) (by rw [pow2_zero]; exact h)
    rwa [pow2_zero] at this
  have hb := overflowBound_pos
  unfold fl
  split_ifs with h1 h2
  · exact clamp01_posInf
  · linarith
  · rw [clamp01_fin, specNormalize_of_one_le hr]

theorem pow2_one : pow2 1 = 2 := by simp [pow2_eq]

/-- A number in `[0, 2 ^ n)` with `n ≤ 1000` rounds to a finite double, moved by at
most `2 ^ n / 2 ^ 54`. -/
theorem fl_approx (n : ℕ) (hn : n ≤ 1000) {x : ℚ} (h0 : 0 ≤ x) (h : x < 2 ^ n) :
    ∃ y : ℚ, fl x = .fin y ∧ 0 ≤ y ∧ |y - x| ≤ 2 ^ n / 2 ^ 54 := by
  have hp : pow2 (n : ℤ) = 2 ^ n := by rw [pow2_natCast]; push_cast; rfl
  have habs : |x| < pow2 (n : ℤ) := by rw [abs_of_nonneg h0, hp]; exact h
  refine ⟨roundToDouble x, ?_, roundToDouble_nonneg h0, ?_⟩
  · apply fl_of_abs_lt
    exact lt_of_lt_of_le habs (pow2_le (by omega))
  · have := abs_roundToDouble_sub_le_of_lt (b := (n : ℤ)) (by omega) habs
    have e : pow2 ((n : ℤ) - 54) = 2 ^ n / 2 ^ 54 := by
      have h1 := pow2_add ((n : ℤ) - 54) 54
      rw [sub_add_cancel, hp] at h1
      have h2 : pow2 54 = 2 ^ 54 := by rw [pow2_eq]; norm_num
      rw [h2] at h1
      rw [h1]; field_simp
    rwa [e] at this

/-- Clamping a rounded number: within `2 ^ -53` of the exact normalisation. -/
theorem clamp01_fl_close (y : ℚ) : |clamp01 (fl y) - specNormalize y| ≤ 1 / 2 ^ 53 := by
  rcases le_or_lt y 0 with h0 | h0
  · rw [clamp01_fl_of_nonpos h0, specNormalize_of_nonpos h0]; norm_num
  rcases le_or_lt 1 y with h1 | h1
  · rw [clamp01_fl_of_one_le h1, specNormalize_of_one_le h1]; norm_num
  obtain ⟨u, hu, hu0, hu1⟩ := fl_approx 0 (by norm_num) h0.le (by simpa using h1)
  rw [hu, clamp01_fin, specNormalize_of_mem h0.le h1.le]
  have h2 := abs_specNormalize_sub_le u y
  rw [specNormalize_of_mem h0.le h1.le] at h2
  have h3 : (2 : ℚ) ^ 0 / 2 ^ 54 ≤ 1 / 2 ^ 53 := by norm_num
  linarith

end Ieee

namespace Ieee

theorem lit_006 : lit (6 / 100) = .fin (1080863910568919 / 2 ^ 54) := by decide!

theorem lit_005 : lit (5 / 100) = .fin (3602879701896397 / 2 ^ 56) := by decide!

theorem lit_025 : lit (25 / 100) = .fin (1 / 4) := by decide!

theorem lit_035 : lit (35 / 100) = .fin (3152519739159347 / 2 ^ 53) := by decide!

theorem lit_030 : lit (30 / 100) = .fin (5404319552844595 / 2 ^ 54) := by decide!

theorem lit_020 : lit (20 / 100) = .fin (3602879701896397 / 2 ^ 54) := by decide!

theorem lit_010 : lit (10 / 100) = .fin (3602879701896397 / 2 ^ 55) := by decide!

theorem div_fin_fin (a : ℚ) {b : ℚ} (hb : b ≠ 0) : div (.fin a) (.fin b) = fl (a / b) := by
  simp only [div]
  rw [if_neg hb]

/-- The reach and comment terms: a quotient by an exact constant, clamped. -/
theorem quot_close (a : ℚ) {b : ℚ} (hb : b ≠ 0) :
    |clamp01 (div (.fin a) (.fin b)) - specNormalize (a / b)| ≤ 1 / 2 ^ 53 := by
  rw [div_fin_fin a hb]
  exact clamp01_fl_close _

/-- The engagement term: the divisor is the double nearest to 0.06. -/
theorem eng_close (e : ℚ) :
    |clamp01 (div (.fin e) (lit (6 / 100))) - specNormalize (e / (6 / 100))| ≤ 1 / 2 ^ 51 := by
  rw [lit_006, div_fin_fin e (by norm_num)]
  have h1 := clamp01_fl_close (e / (1080863910568919 / 2 ^ 54))
  have h2 : |specNormalize (e / (1080863910568919 / 2 ^ 54)) - specNormalize (e / (6 / 100))|
      ≤ 1 / 2 ^ 52 := by
    have hk : e / (1080863910568919 / 2 ^ 54) = e * (18014398509481984 / 1080863910568919) := by
      ring
    have hk2 : e / (6 / 100) = e * (100 / 6) := by ring
    rw [hk, hk2]
    unfold specNormalize
    rw [abs_le]
    split_ifs <;> constructor <;> linarith
  rw [abs_le] at h1 h2 ⊢
  constructor <;> linarith [h1.1, h1.2, h2.1, h2.2]

theorem div_negInf_quarter : div .negInf (.fin (1 / 4)) = .negInf := by decide!

theorem div_posInf_quarter : div .posInf (.fin (1 / 4)) = .posInf := by decide!

/-- The growth term: the sum with the double nearest to 0.05 is rounded, then
divided by 0.25. -/
theorem grow_close (g : ℚ) :
    |clamp01 (div (add (.fin g) (lit (5 / 100))) (lit (25 / 100)))
      - specNormalize ((g + 5 / 100) / (25 / 100))| ≤ 1 / 2 ^ 51 := by
  rw [lit_005, lit_025]
  have hadd : add (.fin g) (.fin (3602879701896397 / 2 ^ 56))
      = fl (g + 3602879701896397 / 2 ^ 56) := rfl
  rw [hadd]
  have hb := overflowBound_pos
  have hq : ((1 : ℚ) / 4) ≠ 0 := by norm_num
  rcases le_or_lt (g + 3602879701896397 / 2 ^ 56) 0 with h0 | h0
  · have hr := roundToDouble_nonpos h0
    have hspec : specNormalize ((g + 5 / 100) / (25 / 100)) = 0 := by
      apply specNormalize_of_nonpos
      apply div_nonpos_of_nonpos_of_nonneg _ (by norm_num)
      linarith
    rw [hspec]
    unfold fl
    rw [if_neg (by linarith)]
    split_ifs
    · rw [div_negInf_quarter, clamp01_negInf]; norm_num
    · rw [div_fin_fin _ hq, clamp01_fl_of_nonpos]
      · norm_num
      · apply div_nonpos_of_nonpos_of_nonneg hr (by norm_num)
  rcases le_or_lt (1 / 2) (g + 3602879701896397 / 2 ^ 56) with h1 | h1
  · have hr : 1 / 2 ≤ roundToDouble (g + 3602879701896397 / 2 ^ 56) := by
      have hh : pow2 (-1) = 1 / 2 := by rw [pow2_eq]; norm_num
      have := roundToDouble_ge_pow2 (x := g + 3602879701896397 / 2 ^ 56) (j := -1)
        (by norm_num) (by rw [hh]; exact h1)
      rwa [hh] at this
    have hspec : specNormalize ((g + 5 / 100) / (25 / 100)) = 1 := by
      apply specNormalize_of_one_le
      rw [le_div_iff₀ (by norm_num)]
      linarith
    rw [hspec]
    unfold fl
    split_ifs with h2 h3
    · rw [div_posInf_quarter, clamp01_posInf]; norm_num
    · linarith
    · rw [div_fin_fin _ hq, clamp01_fl_of_one_le]
      · norm_num
      · rw [le_div_iff₀ (by norm_num)]; linarith
  · obtain ⟨u, hu, hu0, hu1⟩ := fl_approx 0 (by norm_num) h0.le
      (by have : (2 : ℚ) ^ 0 = 1 := by norm_num
          linarith)
    rw [hu, div_fin_fin _ hq]
    have h2 := clamp01_fl_close (u / (1 / 4))
    have h3 := abs_specNormalize_sub_le (u / (1 / 4)) ((g + 5 / 100) / (25 / 100))
    have h4 : |u / (1 / 4) - (g + 5 / 100) / (25 / 100)| ≤ 1 / 2 ^ 52 + 1 / 2 ^ 54 := by
      have e : u / (1 / 4) - (g + 5 / 100) / (25 / 100)
          = 4 * (u - (g + 3602879701896397 / 2 ^ 56)) + 4 * (3602879701896397 / 2 ^ 56 - 5 / 100) := by
        ring
      rw [e]
      rw [abs_le] at hu1 ⊢
      constructor <;> linarith [hu1.1, hu1.2]
    have h5 := le_trans h3 h4
    rw [abs_le] at h2 h5 ⊢
    constructor <;> linarith [h2.1, h2.2, h5.1, h5.2]

end Ieee

namespace Ieee

theorem mul_fin_fin (a b : ℚ) : mul (.fin a) (.fin b) = fl (a * b) := rfl

theorem add_fin_fin (a b : ℚ) : add (.fin a) (.fin b) = fl (a + b) := rfl

theorem round1_fin (x y : ℚ) (h : fl (x * 10) = .fin y) :
    round1 (.fin x) = fl (((Worker.mathRound y : ℤ) : ℚ) / 10) := by
  show div (mathRound (mul (.fin x) (.fin 10))) (.fin 10) = _
  rw [mul_fin_fin, h]
  show div (.fin ((Worker.mathRound y : ℤ) : ℚ)) (.fin 10) = _
  rw [div_fin_fin _ (by norm_num)]

/-- The weighted sum of five terms in `[0, 1]`, scaled by 100 and rounded by
`round1`, all in double arithmetic: the result is the double nearest to a
multiple `k / 10` of one tenth that lies within `0.05 + 5e-13` of the exact
weighted sum. -/
theorem weighted_close (R E G S C : ℚ) (hR0 : 0 ≤ R) (hR1 : R ≤ 1) (hE0 : 0 ≤ E) (hE1 : E ≤ 1)
    (hG0 : 0 ≤ G) (hG1 : G ≤ 1) (hS0 : 0 ≤ S) (hS1 : S ≤ 1) (hC0 : 0 ≤ C) (hC1 : C ≤ 1) :
    ∃ k : ℤ, 0 ≤ k ∧ k ≤ 1000 ∧
      round1 (mul (add (add (add (add (mul (.fin R) (lit (35 / 100)))
        (mul (.fin E) (lit (30 / 100)))) (mul (.fin G) (lit (20 / 100))))
        (mul (.fin S) (lit (10 / 100)))) (mul (.fin C) (lit (5 / 100)))) (.fin 100))
        = fl ((k : ℚ) / 10) ∧
      |(k : ℚ) / 10
          - 100 * (35 / 100 * R + 30 / 100 * E + 20 / 100 * G + 10 / 100 * S + 5 / 100 * C)|
        ≤ 1 / 20 + 5 / 10 ^ 13 := by
  rw [lit_035, lit_030, lit_020, lit_010, lit_005]
  simp only [mul_fin_fin]
  obtain ⟨y1, e1, n1, b1⟩ := fl_approx 0 (by norm_num)
    (x := R * (3152519739159347 / 2 ^ 53)) (by positivity) (by norm_num; linarith)
  obtain ⟨y2, e2, n2, b2⟩ := fl_approx 0 (by norm_num)
    (x := E * (5404319552844595 / 2 ^ 54)) (by positivity) (by norm_num; linarith)
  obtain ⟨y3, e3, n3, b3⟩ := fl_approx 0 (by norm_num)
    (x := G * (3602879701896397 / 2 ^ 54)) (by positivity) (by norm_num; linarith)
  obtain ⟨y4, e4, n4, b4⟩ := fl_approx 0 (by norm_num)
    (x := S * (3602879701896397 / 2 ^ 55)) (by positivity) (by norm_num; linarith)
  obtain ⟨y5, e5, n5, b5⟩ := fl_approx 0 (by norm_num)
    (x := C * (3602879701896397 / 2 ^ 56)) (by positivity) (by norm_num; linarith)
  rw [e1, e2, e3, e4, e5]
  rw [abs_le] at b1 b2 b3 b4 b5
  norm_num at b1 b2 b3 b4 b5
  obtain ⟨s1, f1, m1, c1⟩ := fl_approx 0 (by norm_num) (x := y1 + y2) (by linarith)
    (by norm_num; linarith [b1.1, b1.2, b2.1, b2.2])
  rw [add_fin_fin, f1]
  rw [abs_le] at c1
  norm_num at c1
  obtain ⟨s2, f2, m2, c2⟩ := fl_approx 0 (by norm_num) (x := s1 + y3) (by linarith)
    (by norm_num; linarith [b1.1, b1.2, b2.1, b2.2, b3.1, b3.2, c1.1, c1.2])
  rw [add_fin_fin, f2]
  rw [abs_le] at c2
  norm_num at c2
  obtain ⟨s3, f3, m3, c3⟩ := fl_approx 0 (by norm_num) (x := s2 + y4) (by linarith)
    (by norm_num; linarith [b1.1, b1.2, b2.1, b2.2, b3.1, b3.2, b4.1, b4.2, c1.1, c1.2,
      c2.1, c2.2])
  rw [add_fin_fin, f3]
  rw [abs_le] at c3
  norm_num at c3
  obtain ⟨s4, f4, m4, c4⟩ := fl_approx 1 (by norm_num) (x := s3 + y5) (by linarith)
    (by norm_num; linarith [b1.1, b1.2, b2.1, b2.2, b3.1, b3.2, b4.1, b4.2, b5.1, b5.2,
      c1.1, c1.2, c2.1, c2.2, c3.1, c3.2])
  rw [add_fin_fin, f4]
  rw [abs_le] at c4
  norm_num at c4
  have hs4 : |s4 - (35 / 100 * R + 30 / 100 * E + 20 / 100 * G + 10 / 100 * S + 5 / 100 * C)|
      ≤ 7 / 10 ^ 16 := by
    rw [abs_le]
    constructor <;> linarith [b1.1, b1.2, b2.1, b2.2, b3.1, b3.2, b4.1, b4.2, b5.1, b5.2,
      c1.1, c1.2, c2.1, c2.2, c3.1, c3.2, c4.1, c4.2]
  rw [abs_le] at hs4
  obtain ⟨sc, f5, m5, c5⟩ := fl_approx 7 (by norm_num) (x := s4 * 100) (by linarith)
    (by norm_num; linarith [hs4.1, hs4.2])
  rw [mul_fin_fin, f5]
  rw [abs_le] at c5
  norm_num at c5
  obtain ⟨x10, f6, m6, c6⟩ := fl_approx 11 (by norm_num) (x := sc * 10) (by linarith)
    (by norm_num; linarith [hs4.1, hs4.2, c5.1, c5.2])
  rw [abs_le] at c6
  norm_num at c6
  rw [round1_fin sc x10 f6]
  have hx : |x10 - 1000 * (35 / 100 * R + 30 / 100 * E + 20 / 100 * G + 10 / 100 * S
      + 5 / 100 * C)| ≤ 9 / 10 ^ 13 := by
    rw [abs_le]
    constructor <;> linarith [hs4.1, hs4.2, c5.1, c5.2, c6.1, c6.2]
  rw [abs_le] at hx
  obtain ⟨k, hk, hk1, hk2⟩ : ∃ k : ℤ, Worker.mathRound x10 = k ∧ (k : ℚ) ≤ x10 + 1 / 2
      ∧ x10 + 1 / 2 < (k : ℚ) + 1 :=
    ⟨⌊x10 + 1 / 2⌋, rfl, Int.floor_le _, Int.lt_floor_add_one _⟩
  rw [hk]
  have hx1 := hx.1
  have hx2 := hx.2
  have hk0 : (-1 : ℚ) < k := by
    linarith only [hk2, m6]
  have hk1000 : (k : ℚ) < 1001 := by
    linarith only [hk1, hx2, hR1, hE1, hG1, hS1, hC1]
  refine ⟨k, ?_, ?_, rfl, ?_⟩
  · have : (-1 : ℤ) < k := by exact_mod_cast hk0
    omega
  · have : k < 1001 := by exact_mod_cast hk1000
    omega
  · rw [abs_le]
    constructor
    · linarith only [hk2, hx1]
    · linarith only [hk1, hx2]

end Ieee

/-- C2, corrected. In double arithmetic, for all finite metrics, `decisionScore`
returns the double nearest to `k / 10` for an integer `k` from 0 to 1000, where
`k / 10` lies within `0.05 + 1e-12` of the exact value of
`100 × (0.35·reach + 0.30·eng + 0.20·grow + 0.10·stab + 0.05·cpk)`; so `k / 10` is
that value rounded to one decimal place whenever the value is more than `1e-12`
away from the two ends of its rounding window. The score is exactly 100 at
avgViews 200000, engagementRate 0.06, growthMomentum 0.20, stabilityScore 1,
commentsPerKViews 6, and exactly 0 when every metric is 0 and growthMomentum is
-0.05 (the decimal literals denoting their nearest doubles). -/
theorem decisionScore_near_spec :
    (∀ a e g s c : ℚ, ∃ k : ℤ, 0 ≤ k ∧ k ≤ 1000 ∧
        Ieee.decisionScore ⟨.fin a, .fin e, .fin g, .fin s, .fin c⟩ = Ieee.fl ((k : ℚ) / 10) ∧
        |(k : ℚ) / 10 - specWeightedScore a e g s c| ≤ 1 / 20 + 1 / 10 ^ 12 ∧
        ∀ r : ℚ, IsRoundedToOneDecimal (specWeightedScore a e g s c) r →
          r - 1 / 20 + 1 / 10 ^ 12 < specWeightedScore a e g s c →
          specWeightedScore a e g s c < r + 1 / 20 - 1 / 10 ^ 12 →
          (k : ℚ) / 10 = r) ∧
    Ieee.decisionScore ⟨.fin 200000, Ieee.lit (6 / 100), Ieee.lit (20 / 100), .fin 1, .fin 6⟩
      = .fin 100 ∧
    Ieee.decisionScore ⟨.fin 0, .fin 0, Ieee.neg (Ieee.lit (5 / 100)), .fin 0, .fin 0⟩
      = .fin 0 := by
  refine ⟨?_, by decide!, by decide!⟩
  intro a e g s c
  obtain ⟨k, hk0, hk1, hk, hclose⟩ := Ieee.weighted_close
    (clamp01 (Ieee.div (.fin a) (.fin 200000)))
    (clamp01 (Ieee.div (.fin e) (Ieee.lit (6 / 100))))
    (clamp01 (Ieee.div (Ieee.add (.fin g) (Ieee.lit (5 / 100))) (Ieee.lit (25 / 100))))
    (clamp01 (.fin s))
    (clamp01 (Ieee.div (.fin c) (.fin 6)))
    (clamp01_nonneg _) (clamp01_le_one _) (clamp01_nonneg _) (clamp01_le_one _)
    (clamp01_nonneg _) (clamp01_le_one _) (clamp01_nonneg _) (clamp01_le_one _)
    (clamp01_nonneg _) (clamp01_le_one _)
  have hspec : |(k : ℚ) / 10 - specWeightedScore a e g s c| ≤ 1 / 20 + 1 / 10 ^ 12 := by
    have h1 := Ieee.quot_close a (b := 200000) (by norm_num)
    have h2 := Ieee.eng_close e
    have h3 := Ieee.grow_close g
    have h4 := clamp01_fin s
    have h5 := Ieee.quot_close c (b := 6) (by norm_num)
    unfold specWeightedScore
    generalize clamp01 (Ieee.div (.fin a) (.fin 200000)) = R at h1 hclose
    generalize clamp01 (Ieee.div (.fin e) (Ieee.lit (6 / 100))) = E at h2 hclose
    generalize clamp01 (Ieee.div (Ieee.add (.fin g) (Ieee.lit (5 / 100))) (Ieee.lit (25 / 100)))
      = G at h3 hclose
    generalize clamp01 (.fin s) = S at h4 hclose
    generalize clamp01 (Ieee.div (.fin c) (.fin 6)) = C at h5 hclose
    generalize specNormalize (a / 200000) = Ra at h1 ⊢
    generalize specNormalize (e / (6 / 100)) = Ea at h2 ⊢
    generalize specNormalize ((g + 5 / 100) / (25 / 100)) = Ga at h3 ⊢
    generalize specNormalize (c / 6) = Ca at h5 ⊢
    rw [← h4]
    rw [abs_le] at h1 h2 h3 h5 hclose ⊢
    constructor
    · linarith only [h1.1, h1.2, h2.1, h2.2, h3.1, h3.2, h5.1, h5.2, hclose.1, hclose.2]
    · linarith only [h1.1, h1.2, h2.1, h2.2, h3.1, h3.2, h5.1, h5.2, hclose.1, hclose.2]
  refine ⟨k, hk0, hk1, hk, hspec, ?_⟩
  rintro r ⟨⟨l, rfl⟩, -, -⟩ hlo hhi
  rw [abs_le] at hspec
  have h1 : (k : ℚ) < l + 1 := by linarith only [hspec.2, hhi]
  have h2 : (l : ℚ) < k + 1 := by linarith only [hspec.1, hlo]
  have h3 : k < l + 1 := by exact_mod_cast h1
  have h4 : l < k + 1 := by exact_mod_cast h2
  have : k = l := by omega
  rw [this]

/-- C2, witness: with every metric 0 the exact weighted value is 4, well inside
its rounding window, and the score is the double 4. -/
theorem decisionScore_near_spec_witness :
    IsRoundedToOneDecimal (specWeightedScore 0 0 0 0 0) 4
      ∧ (4 : ℚ) - 1 / 20 + 1 / 10 ^ 12 < specWeightedScore 0 0 0 0 0
      ∧ specWeightedScore 0 0 0 0 0 < 4 + 1 / 20 - 1 / 10 ^ 12
      ∧ Ieee.decisionScore ⟨.fin 0, .fin 0, .fin 0, .fin 0, .fin 0⟩ = Ieee.fl 4 :=
  have hv : specWeightedScore 0 0 0 0 0 = 4 := by decide!
  have h1 : IsRoundedToOneDecimal (specWeightedScore 0 0 0 0 0) 4 := by
    rw [hv]; exact ⟨⟨40, by norm_num⟩, by norm_num, by norm_num⟩
  have h2 : (4 : ℚ) - 1 / 20 + 1 / 10 ^ 12 < specWeightedScore 0 0 0 0 0 := by
    rw [hv]; norm_num
  have h3 : specWeightedScore 0 0 0 0 0 < 4 + 1 / 20 - 1 / 10 ^ 12 := by
    rw [hv]; norm_num
  ⟨h1, h2, h3, by
    obtain ⟨k, -, -, hk, -, hr⟩ := decisionScore_near_spec.1 0 0 0 0 0
    rw [hk, hr 4 h1 h2 h3]⟩

/-- C2 fails as stated. Six videos of 2000 views and 14 likes give avgViews
2000, engagementRate the double nearest to 0.007, growthMomentum 0, stabilityScore 1
and commentsPerKViews 0. The exact value of the weighted formula on these metrics
lies strictly between 17.85 and 17.95, so rounded to one decimal place it is 17.9;
`decisionScore` returns the double nearest to 17.8, a different double. -/
theorem decisionScore_misrounds :
    (Ieee.computeMetrics ieeeWorld (List.replicate 6 (likedVideo 2000 14)) 30).avgViews
        = .fin 2000
      ∧ (Ieee.computeMetrics ieeeWorld (List.replicate 6 (likedVideo 2000 14)) 30).engagementRate
        = .fin double0007
      ∧ (Ieee.computeMetrics ieeeWorld (List.replicate 6 (likedVideo 2000 14)) 30).growthMomentum
        = .fin 0
      ∧ (Ieee.computeMetrics ieeeWorld (List.replicate 6 (likedVideo 2000 14)) 30).stabilityScore
        = .fin 1
      ∧ (Ieee.computeMetrics ieeeWorld (List.replicate 6 (likedVideo 2000 14))
          30).commentsPerKViews = .fin 0
      ∧ Ieee.decisionScore (Ieee.computeMetrics ieeeWorld
          (List.replicate 6 (likedVideo 2000 14)) 30) = Ieee.fl (178 / 10)
      ∧ Ieee.decisionScore ⟨.fin 2000, .fin double0007, .fin 0, .fin 1, .fin 0⟩
          = Ieee.fl (178 / 10)
      ∧ Ieee.fl (178 / 10) ≠ Ieee.fl (179 / 10)
      ∧ 1785 / 100 < specWeightedScore 2000 double0007 0 1 0
      ∧ specWeightedScore 2000 double0007 0 1 0 < 1795 / 100
      ∧ IsRoundedToOneDecimal (specWeightedScore 2000 double0007 0 1 0) (179 / 10) := by
  have h1 : (1785 : ℚ) / 100 < specWeightedScore 2000 double0007 0 1 0 := by decide!
  have h2 : specWeightedScore 2000 double0007 0 1 0 < 1795 / 100 := by decide!
  refine ⟨by decide!, by decide!, by decide!, by decide!, by decide!, by decide!, by decide!,
    by decide!, h1, h2, ⟨179, by norm_num⟩, ?_, ?_⟩
  · linarith only [h1]
  · linarith only [h2]

namespace Ieee

theorem roundToDouble_le_natCast (n : ℕ) (hn : n < 2 ^ 53) {x : ℚ} (h : x ≤ n) :
    roundToDouble x ≤ n := by
  rcases le_or_lt x 0 with h0 | h0
  · exact le_trans (roundToDouble_nonpos h0) (Nat.cast_nonneg n)
  · have habs : |x| < pow2 53 := by
      rw [abs_of_pos h0]
      have h1 : pow2 53 = ((2 ^ 53 : ℕ) : ℚ) := pow2_natCast 53
      have h2 : (n : ℚ) < ((2 ^ 53 : ℕ) : ℚ) := by exact_mod_cast hn
      rw [h1]
      exact lt_of_le_of_lt h h2
    have hu := ulpExp_le_of_abs_lt h0.ne' (by norm_num) habs
    obtain ⟨z, hz⟩ := grid_pow2 (x := x) (j := 0) (n : ℤ) (by omega)
    exact roundToDouble_le_of_grid z (by rw [← hz, pow2_zero]; simp) h

end Ieee

/-- In double arithmetic too the decision score of finite metrics is a finite
number between 0 and 100. -/
theorem ieee_decisionScore_mem_Icc (a e g s c : ℚ) :
    ∃ y : ℚ, Ieee.decisionScore ⟨.fin a, .fin e, .fin g, .fin s, .fin c⟩ = .fin y
      ∧ 0 ≤ y ∧ y ≤ 100 := by
  obtain ⟨k, hk0, hk1, hk, -⟩ := Ieee.weighted_close
    (clamp01 (Ieee.div (.fin a) (.fin 200000)))
    (clamp01 (Ieee.div (.fin e) (Ieee.lit (6 / 100))))
    (clamp01 (Ieee.div (Ieee.add (.fin g) (Ieee.lit (5 / 100))) (Ieee.lit (25 / 100))))
    (clamp01 (.fin s))
    (clamp01 (Ieee.div (.fin c) (.fin 6)))
    (clamp01_nonneg _) (clamp01_le_one _) (clamp01_nonneg _) (clamp01_le_one _)
    (clamp01_nonneg _) (clamp01_le_one _) (clamp01_nonneg _) (clamp01_le_one _)
    (clamp01_nonneg _) (clamp01_le_one _)
  have hq0 : (0 : ℚ) ≤ k := by exact_mod_cast hk0
  have hq1 : (k : ℚ) ≤ 1000 := by exact_mod_cast hk1
  have hx0 : (0 : ℚ) ≤ (k : ℚ) / 10 := by positivity
  have hx1 : (k : ℚ) / 10 ≤ ((100 : ℕ) : ℚ) := by push_cast; linarith
  have habs : |(k : ℚ) / 10| < Ieee.pow2 1023 := by
    rw [abs_of_nonneg hx0]
    have h1 : Ieee.pow2 7 = 128 := by rw [Ieee.pow2_eq]; norm_num
    have h2 : Ieee.pow2 7 ≤ Ieee.pow2 1023 := Ieee.pow2_le (by norm_num)
    push_cast at hx1
    linarith
  refine ⟨Ieee.roundToDouble ((k : ℚ) / 10), ?_, Ieee.roundToDouble_nonneg hx0, ?_⟩
  · rw [← Ieee.fl_of_abs_lt habs]
    exact hk
  · have := Ieee.roundToDouble_le_natCast 100 (by norm_num) hx1
    simpa using this

/-- In double arithmetic the growth momentum is the rounded quotient of the rounded
difference of the two half means by the older half mean when that one is positive,
and 0 otherwise, the means themselves being computed in double arithmetic. -/
theorem ieee_growthMomentum_eq (w : World) (videos : List EnrichedVideo) (days : ℤ)
    (hn : 2 ≤ videos.length) :
    (Ieee.computeMetrics w videos days).growthMomentum
      = if Ieee.gt (Ieee.mean ((videos.map (·.viewCount)).drop (videos.length / 2))) (.fin 0)
        then Ieee.div
          (Ieee.sub (Ieee.mean ((videos.map (·.viewCount)).take (videos.length / 2)))
            (Ieee.mean ((videos.map (·.viewCount)).drop (videos.length / 2))))
          (Ieee.mean ((videos.map (·.viewCount)).drop (videos.length / 2)))
        else .fin 0 := by
  have hmid : videos.length / 2 ≠ 0 := by omega
  simp only [Ieee.computeMetrics, if_neg hmid]

end Worker
